import Mathlib

/-!
# crashlogd storage and correlation engine

A shallow embedding of the parts of `crashlog/fsutils.c` and `crashlog/dropbox.c`
that decide where a crash artifact is stored, how rotated logs are copied under a
byte budget, how dropbox rename pairs are correlated, and how the dumpstate key
ring is produced and consumed.

Conventions of the embedding:
* a C string is the list of its characters, without the terminating NUL;
* machine integers are `Nat` or `Int`, with explicit wrap-around where the C code
  narrows or overflows;
* the file system is a finite association list from path names to nodes;
* constants of headers that are not part of the sources (`privconfig.h`) are
  parameters.
-/

namespace LogCapture

/-! ## C strings and machine integers -/

/-- A C string: its characters up to, and without, the terminating NUL. -/
abbrev CStr := List Char

/-- Conversion of an integer to `int` (32 bits, two's complement). -/
def toInt32 (x : Int) : Int := (x + 2147483648) % 4294967296 - 2147483648

/-- Conversion of an integer to `size_t` / `unsigned long long` (64 bits). -/
def toU64 (x : Int) : Nat := (x % 18446744073709551616).toNat

/-- Largest `long long`. -/
def LLONG_MAX : Nat := 9223372036854775807

/-- The C library `isdigit`. -/
def isdigit (c : Char) : Bool := decide (48 ≤ c.toNat ∧ c.toNat ≤ 57)

/-- The C library `isspace` in the C locale. -/
def isspace (c : Char) : Bool :=
  c.toNat = 32 || (decide (9 ≤ c.toNat) && decide (c.toNat ≤ 13))

/-- Value of one decimal digit character. -/
def digitVal (c : Char) : Nat := c.toNat - 48

/-- Value of a string of decimal digits, most significant first. -/
def decValue (s : List Char) : Nat := s.foldl (fun acc c => acc * 10 + digitVal c) 0

/-- Decimal digits of `n`, most significant first, pushed in front of `acc`;
`fuel` bounds the number of digits. Zero yields no digit. -/
def decDigitsAux : Nat → Nat → List Char → List Char
  | 0, _, acc => acc
  | fuel + 1, n, acc =>
    if n = 0 then acc else decDigitsAux fuel (n / 10) (Char.ofNat (48 + n % 10) :: acc)

/-- Decimal digits of `n` without leading zeros; the empty string for zero. -/
def decDigits (n : Nat) : List Char := decDigitsAux n n []

/-- The printf conversion `%.*d` for a non-negative value: at least `prec` digits,
padded on the left with zeros (precision 0 prints nothing for the value 0). -/
def fmt_prec_d (prec : Nat) (n : Nat) : CStr :=
  List.replicate (prec - (decDigits n).length) '0' ++ decDigits n

/-- The printf conversions `%d` and `%u` for a non-negative value. -/
def fmt_d (n : Nat) : CStr := fmt_prec_d 1 n

/-- The printf conversion `%.*d` of an `int`: a minus sign for a negative value,
then at least `prec` digits. -/
def fmt_prec_int (prec : Nat) (x : Int) : CStr :=
  if x < 0 then '-' :: fmt_prec_d prec x.natAbs else fmt_prec_d prec x.toNat

/-- What `snprintf(buf, size, ...)` leaves in the buffer: the formatted string cut
to `size - 1` characters. -/
def snprintf (size : Nat) (s : CStr) : CStr := s.take (size - 1)

/-- What `snprintf(buf + strlen(buf), size - strlen(buf), ...)` leaves in a buffer
of `size` bytes that holds the string `buf`: the formatted string is appended as
far as the rest of the buffer, terminator included, has room. -/
def snprintf_at (size : Nat) (buf s : CStr) : CStr := buf ++ snprintf (size - buf.length) s

/-- The printf conversion `%4u`: the decimal value, padded on the left with blanks
to a width of at least four characters. -/
def fmt_4u (n : Nat) : CStr :=
  List.replicate (4 - (fmt_d n).length) ' ' ++ fmt_d n

/-- The C library `strtoll` / `strtol` in base 10 as used by `atoll` / `atol`:
white space is skipped, an optional sign is read, then the longest run of digits;
the result saturates at `max` (and at `-max-1`). -/
def strtol_sat (max : Nat) (s : CStr) : Int :=
  match s.dropWhile isspace with
  | '-' :: r => - (Int.ofNat (min (decValue (r.takeWhile isdigit)) (max + 1)))
  | '+' :: r => Int.ofNat (min (decValue (r.takeWhile isdigit)) max)
  | r => Int.ofNat (min (decValue (r.takeWhile isdigit)) max)

/-- The C library `strstr(hay, needle) != NULL`. -/
def strstr (hay needle : CStr) : Bool :=
  hay.tails.any (fun t => decide (t.take needle.length = needle))

/-- The C library `strncmp(s, p, strlen(p)) == 0`: `s` begins with `p`. -/
def starts_with (s p : CStr) : Bool := decide (s.take p.length = p)

/-! ## QuotaGuard: `check_free_space_available` -/

/-- The fields of `struct statfs` that the quota check reads. -/
structure Statfs where
  f_bavail : Nat
  f_blocks : Nat
  f_bsize : Nat
deriving DecidableEq, Repr

/-- The reserved percent the check works with: `strtol` of the property
`PROP_DATA_QUOTA`, replaced by 100 when it is above 100 or negative
(fsutils.c l.195-197). -/
def available_portion (quota : Int) : Int :=
  if quota > 100 ∨ quota < 0 then 100 else quota

/-- Bytes free for unprivileged users, `st.f_bavail * st.f_bsize` as
`unsigned long long`. -/
def free_space (st : Statfs) : Nat := (st.f_bavail * st.f_bsize) % 18446744073709551616

/-- Size of the file system, `st.f_blocks * st.f_bsize` as `unsigned long long`. -/
def full_space (st : Statfs) : Nat := (st.f_blocks * st.f_bsize) % 18446744073709551616

/-- The quota check `check_free_space_available(path, req)` (fsutils.c l.182-220).
`st` is the result of `statfs(path)` (`none` when it fails), `quota` the value
`strtol` reads from the property `PROP_DATA_QUOTA`, `used_space` the result of
`get_path_size(path)`, `req` the required-free percent (an `unsigned int`).
The result is the C return value: `0` or `-1`. -/
def check_free_space_available (st : Option Statfs) (quota : Int) (used_space : Nat)
    (req : Nat) : Int :=
  match st with
  | none => 0
  | some st =>
    if available_portion quota = 0 then -1
    else
      let threshold : Nat := (100 + 4294967296 - req % 4294967296) % 4294967296
      let min_free_space : Nat := (full_space st * req) % 18446744073709551616 / 100
      let stop_space : Nat :=
        ((full_space st * (available_portion quota).toNat) % 18446744073709551616
          * threshold) % 18446744073709551616 / 10000
      if used_space ≥ stop_space ∨ free_space st < min_free_space then -1 else 0

/-! ## Dropbox timestamp extraction -/

/-- The tail of `s` after the first occurrence of `c` (`strchr(s, c) + 1`),
`none` when `c` does not occur. -/
def after_char (c : Char) : CStr → Option CStr
  | [] => none
  | x :: r => if x = c then some r else after_char c r

/-- The function `extract_dropbox_timestamp(filename)` (dropbox.c l.187-220).
`TIMESTAMP_MAX_SIZE` and `LONG_MAX` come from headers outside the sources and are
parameters. The result is the C return value, `-1` on failure. -/
def extract_dropbox_timestamp (TIMESTAMP_MAX_SIZE LONG_MAX : Nat) (filename : CStr) : Int :=
  match after_char '@' filename with
  | none => -1
  | some ptr_timestamp_start =>
    match after_char '.' ptr_timestamp_start with
    | none => -1
    | some after_end =>
      -- ptr_timestamp_end - ptr_timestamp_start - 3
      let size_timestamp : Int :=
        toInt32 (Int.ofNat (ptr_timestamp_start.length - (after_end.length + 1)) - 3)
      if size_timestamp ≤ Int.ofNat TIMESTAMP_MAX_SIZE ∧ size_timestamp > 0 then
        -- strncpy(timestamp, ptr_timestamp_start, TIMESTAMP_MAX_SIZE)
        let timestamp : CStr := ptr_timestamp_start.take TIMESTAMP_MAX_SIZE
        if (timestamp.take size_timestamp.toNat).all isdigit then
          if strtol_sat LLONG_MAX timestamp > Int.ofNat LONG_MAX then -1
          else strtol_sat LONG_MAX timestamp
        else -1
      else -1

/-! ## The file system and the global state of the daemon -/

/-- A node of the file system: a regular file with its bytes, or a directory. -/
inductive Node where
  | file (data : List Char)
  | dir
deriving DecidableEq, Repr

/-- The file system: a finite association list from path names to nodes. A path
is the string the C code hands to the system call; the entries of a directory
`d` are the paths `d/name`. -/
abbrev FileSys := List (CStr × Node)

/-- The node found at a path, if any. -/
def fs_lookup (p : CStr) : FileSys → Option Node
  | [] => none
  | e :: r => if e.1 = p then some e.2 else fs_lookup p r

/-- The file system without the entry at `p`. -/
def fs_remove (p : CStr) : FileSys → FileSys
  | [] => []
  | e :: r => if e.1 = p then fs_remove p r else e :: fs_remove p r

/-- The file system with node `n` at `p`, replacing what was there. -/
def fs_store (p : CStr) (n : Node) (fs : FileSys) : FileSys := (p, n) :: fs_remove p fs

/-- The error classes handed to `raise_infoerror(ERROREVENT, ...)`. -/
inductive ErrKind where
  | CRASHLOG_ERROR_FULL
  | CRASHLOG_ERROR_PATH
deriving DecidableEq, Repr

/-- The state the storage functions read and write: the file system, the static
flag of `check_partlogfull`, the error events raised so far (oldest first) and the
paths handed to `history_delete_first_existent_logcrashpath` (oldest first). -/
structure World where
  fs : FileSys
  partlogfull_errorset : Bool
  infoerrors : List ErrKind
  history_deleted : List CStr
deriving DecidableEq, Repr

/-- The system calls whose failure the environment decides. -/
inductive Sys where
  | open_rd
  | open_wr
  | fopen_r
  | fopen_rw
  | fopen_w
  | fprintf
  | fclose
  | mkdir
deriving DecidableEq, Repr

/-- What `sendfile` does on a destination: transfer all it is asked for, stop
after `n` bytes (a short write, as on a full partition), or fail with `-1`. -/
inductive Xfer where
  | complete
  | short (n : Nat)
  | error
deriving DecidableEq, Repr

/-- Constants of `privconfig.h` (not part of the sources) and the answers of the
environment (properties, `statfs`, failing system calls). -/
structure Env where
  PATHMAX : Nat
  LOGS_DIR : CStr
  gmaxfiles : Nat
  LOGSDIR_MINIMUM_FREESPACE_PERCENT : Nat
  EMMC_CRASH_DIR : CStr
  EMMC_APLOGS_DIR : CStr
  EMMC_BZ_DIR : CStr
  EMMC_STATS_DIR : CStr
  KDUMP_CRASH_DIR : CStr
  CRASH_CURRENT_LOG : CStr
  APLOGS_CURRENT_LOG : CStr
  BZ_CURRENT_LOG : CStr
  STATS_CURRENT_LOG : CStr
  /-- Result of `statfs(path)`, `none` when it fails. -/
  statfs : CStr → Option Statfs
  /-- Value `strtol` reads from the property `PROP_DATA_QUOTA`. -/
  quota : Int
  /-- The `errno` with which a system call fails on a path for a reason outside
  the file-system model (permissions, full partition); `0` when it does not. -/
  fault : Sys → CStr → Nat
  /-- Behaviour of `sendfile` towards a destination path. -/
  sendfile_xfer : CStr → Xfer

def ENOENT : Nat := 2
def EEXIST : Nat := 17
def EISDIR : Nat := 21
def ENOSPC : Nat := 28

/-- Modelled from the spec: `file_exists(path)` is not part of the sources; it
tells whether `stat(path)` succeeds, that is, whether the name exists. -/
def file_exists (w : World) (p : CStr) : Bool := (fs_lookup p w.fs).isSome

/-- Modelled from the spec: `directory_exists(path)` is not part of the sources;
it tells whether the name exists and is a directory. -/
def directory_exists (w : World) (p : CStr) : Bool := decide (fs_lookup p w.fs = some Node.dir)

/-- The size `stat` reports for a node (`st_size`); a directory reports one block. -/
def node_size : Node → Nat
  | Node.file d => d.length
  | Node.dir => 4096

/-- The function `check_partlogfull(path)` (fsutils.c l.63-76): true once in the
life of the process, for a path that begins with `LOGS_DIR`. -/
def check_partlogfull (env : Env) (w : World) (path : CStr) : Bool × World :=
  if !w.partlogfull_errorset && starts_with path env.LOGS_DIR then
    (true, { w with partlogfull_errorset := true })
  else (false, w)

/-- The call `raise_infoerror(ERROREVENT, kind)`, recorded in the world. -/
def raise_infoerror (w : World) (kind : ErrKind) : World :=
  { w with infoerrors := w.infoerrors ++ [kind] }

/-! ## CircularCopier: `do_copy_tail` and `do_copy_circular` -/

/-- The most bytes one call of `read`, `write` or `sendfile` transfers on Linux,
`MAX_RW_COUNT = INT_MAX & PAGE_MASK` with pages of 4096 bytes (`0x7ffff000`). -/
def MAX_RW_COUNT : Nat := 2147479552

/-- The system call `sendfile(fdest, fsrc, &offset, count)` on the open files, as
Linux performs it. A `count` that is negative as an `ssize_t` (sign bit set), or
with which `offset + count` passes the largest `off_t`, is refused with `-1`
(`EINVAL`) before anything is written. Otherwise the call transfers the bytes of
the source from `offset`, at most `count` and at most `MAX_RW_COUNT` of them, as
far as the destination takes them. The result is the number of bytes written or
`-1`. -/
def sendfile (env : Env) (fs : FileSys) (dest src : CStr) (offset count : Nat) :
    Int × FileSys :=
  match fs_lookup src fs with
  | some (Node.file d) =>
    if 9223372036854775808 ≤ count ∨ 9223372036854775808 ≤ offset + count then (-1, fs)
    else
      let avail := (d.drop offset).take (min count MAX_RW_COUNT)
      match env.sendfile_xfer dest with
      | Xfer.error => (-1, fs)
      | Xfer.complete => (Int.ofNat avail.length, fs_store dest (Node.file avail) fs)
      | Xfer.short n =>
        (Int.ofNat (avail.take n).length, fs_store dest (Node.file (avail.take n)) fs)
  | _ => (-1, fs)

/-- The function `do_copy_tail(src, dest, limit)` (fsutils.c l.1150-1186); `limit`
is an `int`, `st_size` and `offset` are 64-bit `off_t`. The result is the C return
value (bytes copied, `-1`, or a negative `errno`) and the world afterwards.
Ownership (`do_chown`) is not part of the model. -/
def do_copy_tail (env : Env) (w : World) (src dest : CStr) (limit : Int) : Int × World :=
  match fs_lookup src w.fs with
  | none => (- Int.ofNat ENOENT, w)
  | some nsrc =>
    let st_size : Int := Int.ofNat (node_size nsrc)
    if env.fault Sys.open_rd src ≠ 0 then (- Int.ofNat (env.fault Sys.open_rd src), w)
    else if fs_lookup dest w.fs = some Node.dir then (- Int.ofNat EISDIR, w)
    else if env.fault Sys.open_wr dest ≠ 0 then (- Int.ofNat (env.fault Sys.open_wr dest), w)
    else
      -- open(dest, O_WRONLY | O_CREAT | O_TRUNC, 0660)
      let fs1 := fs_store dest (Node.file []) w.fs
      let limit1 : Int := if limit = 0 ∨ st_size < limit then toInt32 st_size else limit
      let offset : Int := if st_size > limit1 then st_size - limit1 else 0
      let r := sendfile env fs1 dest src offset.toNat (toU64 limit1)
      let rc : Int := toInt32 r.1
      let w1 : World := { w with fs := r.2 }
      if rc ≠ -1 ∧ rc ≠ limit1 then
        let c := check_partlogfull env w1 dest
        if c.1 then (rc, raise_infoerror c.2 ErrKind.CRASHLOG_ERROR_FULL) else (rc, c.2)
      else (rc, w1)

/-- The name after the last slash, `strrchr(source, '/') + 1`; `none` when the
string has no slash (the C expression is then not a valid pointer). -/
def after_last_slash (s : CStr) : Option CStr :=
  if '/' ∈ s then some (s.reverse.takeWhile (fun c => decide (c ≠ '/'))).reverse else none

/-- One call of `do_copy_tail` issued by `do_copy_circular`: the two paths, the
budget `limit` (an `off_t`) left when the call is issued, and the result. -/
structure CopyRec where
  src : CStr
  dest : CStr
  budget : Int
  rc : Int
deriving DecidableEq, Repr

/-- How a run of `do_copy_circular` ends: it returns a value, the model runs out
of fuel before the loop ends, or the source name has no slash. -/
inductive Outcome where
  | returned (rc : Int)
  | fuel_exhausted
  | invalid_pointer
deriving DecidableEq, Repr

/-- Result of a run of `do_copy_circular`: how it ended, the world afterwards and
the calls of `do_copy_tail` it issued, in order. -/
structure CircResult where
  outcome : Outcome
  world : World
  copies : List CopyRec
deriving DecidableEq, Repr

/-- The precision `cnt_len` of `%.*d`, an `unsigned int` passed as `int`: a
negative precision counts as omitted. -/
def precision_of (cnt_len : Nat) : Nat :=
  if toInt32 (Int.ofNat cnt_len) < 0 then 1 else (toInt32 (Int.ofNat cnt_len)).toNat

/-- Source path of backup `index`, as the loop builds it in `path[PATHMAX]`: the
source cut to the buffer (l.1267), then `".<index><extension>"` written behind it
as far as the buffer has room (l.1285). -/
def backup_path (PATHMAX : Nat) (source extension : CStr) (cnt_len : Nat) (index : Int) :
    CStr :=
  snprintf_at PATHMAX (snprintf PATHMAX source)
    ('.' :: fmt_prec_int (precision_of cnt_len) index ++ extension)

/-- Destination path of backup `index`, as the loop builds it in `dest[PATHMAX]`:
`"<destination>/<file>"` cut to the buffer (l.1268), then
`"<extra>.<index><extension>"` written behind it as far as the buffer has room
(l.1283). -/
def backup_dest (PATHMAX : Nat) (destination file extension extra : CStr) (cnt_len : Nat)
    (index : Int) : CStr :=
  snprintf_at PATHMAX (snprintf PATHMAX (destination ++ '/' :: file))
    (extra ++ '.' :: fmt_prec_int (precision_of cnt_len) index ++ extension)

/-- The loop `while (limit)` of `do_copy_circular` (fsutils.c l.1282-1293); `index`
is an `int` and `index++` takes it to the two's complement successor, `rc` is the
result of the last copy, `copies` the calls issued so far. -/
def do_copy_circular_loop (env : Env) (source destination file extension extra : CStr)
    (cnt_len : Nat) : Nat → World → Int → Int → Int → List CopyRec → CircResult
  | 0, w, _, _, _, copies => ⟨Outcome.fuel_exhausted, w, copies⟩
  | fuel + 1, w, limit, index, rc, copies =>
    if limit = 0 then ⟨Outcome.returned rc, w, copies⟩
    else
      let dest := backup_dest env.PATHMAX destination file extension extra cnt_len index
      let path := backup_path env.PATHMAX source extension cnt_len index
      let r := do_copy_tail env w path dest (toInt32 limit)
      let copies1 := copies ++ [⟨path, dest, limit, r.1⟩]
      if r.1 < 0 then ⟨Outcome.returned r.1, r.2, copies1⟩
      else
        do_copy_circular_loop env source destination file extension extra cnt_len
          fuel r.2 (limit - r.1) (toInt32 (index + 1)) r.1 copies1

/-- The function `do_copy_circular(source, destination, extension, extra, limit,
start_index, cnt_len)` (fsutils.c l.1252-1294). `limit` is an `off_t`,
`start_index` an `unsigned int` that initialises the `int index`. The names are
built in the two buffers of `PATHMAX` bytes, cut where `snprintf` cuts them.
`fuel` bounds the number of turns of the loop. -/
def do_copy_circular (env : Env) (fuel : Nat) (w : World)
    (source destination extension extra : CStr) (limit : Int)
    (start_index cnt_len : Nat) : CircResult :=
  if limit = 0 then ⟨Outcome.returned 0, w, []⟩
  else
    match after_last_slash source with
    | none => ⟨Outcome.invalid_pointer, w, []⟩
    | some file =>
      if toInt32 (Int.ofNat start_index) = 0 then
        let dest := snprintf_at env.PATHMAX (snprintf env.PATHMAX (destination ++ '/' :: file))
          (extra ++ extension)
        let path :=
          if file_exists w source then snprintf env.PATHMAX source
          else snprintf_at env.PATHMAX (snprintf env.PATHMAX source) extension
        let r := do_copy_tail env w path dest (toInt32 limit)
        let copies := [⟨path, dest, limit, r.1⟩]
        if r.1 < 0 then ⟨Outcome.returned r.1, r.2, copies⟩
        else
          do_copy_circular_loop env source destination file extension extra cnt_len
            fuel r.2 (limit - r.1) 1 r.1 copies
      else
        do_copy_circular_loop env source destination file extension extra cnt_len
          fuel w limit (toInt32 (Int.ofNat start_index)) 0 []

/-- Bytes written by a list of copies: the sum of the non-negative results. -/
def bytes_copied (l : List CopyRec) : Int := (l.map (fun c => max c.rc 0)).sum

/-! ## SlotAllocator: rotation counter, eviction and directory creation -/

/-- The storage modes `e_dir_mode_t`. -/
inductive e_dir_mode_t where
  | MODE_CRASH
  | MODE_CRASH_NOSD
  | MODE_APLOGS
  | MODE_BZ
  | MODE_STATS
  | MODE_KDUMP
deriving DecidableEq, Repr

/-- The printf conversion `%d` of an `int`. -/
def fmt_int (x : Int) : CStr :=
  if x < 0 then '-' :: fmt_d x.natAbs else fmt_d x.toNat

/-- The conversion `%4u` of `fscanf`: white space is skipped, then at most four
characters are read as an optionally signed decimal number, converted to
`unsigned int`; `none` when no digit is found (the call then does not return 1). -/
def scan_4u (s : List Char) : Option Nat :=
  match (s.dropWhile isspace).take 4 with
  | '-' :: r =>
    if r.takeWhile isdigit = [] then none
    else some ((4294967296 - decValue (r.takeWhile isdigit) % 4294967296) % 4294967296)
  | '+' :: r =>
    if r.takeWhile isdigit = [] then none else some (decValue (r.takeWhile isdigit))
  | r => if r.takeWhile isdigit = [] then none else some (decValue (r.takeWhile isdigit))

/-- The function `close_file` (fsutils.c l.78-90): the result of `fclose`. -/
def close_file (env : Env) (filename : CStr) : Int :=
  if env.fault Sys.fclose filename ≠ 0 then -1 else 0

/-- The function `reset_file(filename)` (fsutils.c l.222-234): the file is created
or truncated and holds `"   0"`; nothing happens when it cannot be opened. -/
def reset_file (env : Env) (w : World) (filename : CStr) : World :=
  if env.fault Sys.fopen_w filename ≠ 0 ∨ fs_lookup filename w.fs = some Node.dir then w
  else { w with fs := fs_store filename (Node.file (fmt_4u 0)) w.fs }

/-- The function `read_file(filename, &current)` (fsutils.c l.92-124). A missing
file makes `fopen` fail with `ENOENT`; the open of an existing file fails when the
environment says so, with another `errno`. The result is the C return value, the
value left in `*pcurrent` (0 stands for the uninitialised value when the open
fails) and the world afterwards. -/
def read_file (env : Env) (w : World) (filename : CStr) : Int × Nat × World :=
  match fs_lookup filename w.fs with
  | none =>
    if env.fault Sys.fopen_r filename ≠ 0 ∧ env.fault Sys.fopen_r filename ≠ ENOENT then
      (-1, 0, raise_infoerror w ErrKind.CRASHLOG_ERROR_PATH)
    else (0, 0, reset_file env w filename)
  | some n =>
    if env.fault Sys.fopen_r filename ≠ 0 then
      (-1, 0, raise_infoerror w ErrKind.CRASHLOG_ERROR_PATH)
    else
      let current : Nat :=
        match n with
        | Node.file d => (scan_4u d).getD 0
        | Node.dir => 0
      (close_file env filename, current, w)

/-- The function `update_file(filename, current)` (fsutils.c l.126-150): the file
is opened with `"r+"` (it must exist, it is not truncated) and the first bytes are
overwritten with `(current + 1) % gmaxfiles` printed as `%4u`. A failing `fclose`
leaves the file as it was. -/
def update_file (env : Env) (w : World) (filename : CStr) (current : Nat) : Int × World :=
  match fs_lookup filename w.fs with
  | some (Node.file old) =>
    if env.fault Sys.fopen_rw filename ≠ 0 then
      (-1, raise_infoerror w ErrKind.CRASHLOG_ERROR_PATH)
    else if env.fault Sys.fprintf filename ≠ 0 then (-1, w)
    else if close_file env filename ≠ 0 then (close_file env filename, w)
    else
      let text := fmt_4u ((current + 1) % 4294967296 % env.gmaxfiles)
      (0, { w with fs := fs_store filename (Node.file (text ++ old.drop text.length)) w.fs })
  | _ => (-1, raise_infoerror w ErrKind.CRASHLOG_ERROR_PATH)

/-- Whether path `p` is `root` itself or lies below it. -/
def is_under (root p : CStr) : Bool := decide (p = root) || starts_with p (root ++ ['/'])

/-- The function `get_path_size(path)` (fsutils.c l.163-180): the sizes of the
regular files at and below `path`, `0` when the walk fails. -/
def get_path_size (w : World) (path : CStr) : Nat :=
  match fs_lookup path w.fs with
  | none => 0
  | some _ =>
    ((w.fs.filter (fun e => is_under path e.1)).map (fun e =>
      match e.2 with
      | Node.file d => d.length
      | Node.dir => 0)).sum % 18446744073709551616

/-- The counter file and the base directory of a mode, as chosen by the `switch` of
`reserve_crash_folder` (fsutils.c l.605-630). The build is the one without
`FULL_REPORT`: `get_sdcard_paths` then always selects the EMMC directories. -/
def mode_paths (env : Env) : e_dir_mode_t → CStr × CStr
  | e_dir_mode_t.MODE_CRASH => (env.CRASH_CURRENT_LOG, env.EMMC_CRASH_DIR)
  | e_dir_mode_t.MODE_CRASH_NOSD => (env.CRASH_CURRENT_LOG, env.EMMC_CRASH_DIR)
  | e_dir_mode_t.MODE_APLOGS => (env.APLOGS_CURRENT_LOG, env.EMMC_APLOGS_DIR)
  | e_dir_mode_t.MODE_BZ => (env.BZ_CURRENT_LOG, env.EMMC_BZ_DIR)
  | e_dir_mode_t.MODE_STATS => (env.STATS_CURRENT_LOG, env.EMMC_STATS_DIR)
  | e_dir_mode_t.MODE_KDUMP => (env.CRASH_CURRENT_LOG, env.KDUMP_CRASH_DIR)

/-- The function `reserve_crash_folder(mode, &current)` (fsutils.c l.598-651): the
base directory and the index read from the counter, or `none` for `NULL`. -/
def reserve_crash_folder (env : Env) (w : World) (mode : e_dir_mode_t) :
    Option (CStr × Nat) × World :=
  let path := (mode_paths env mode).1
  let dir := (mode_paths env mode).2
  if starts_with dir env.LOGS_DIR ∧
      check_free_space_available (env.statfs env.LOGS_DIR) env.quota
        (get_path_size w env.LOGS_DIR) env.LOGSDIR_MINIMUM_FREESPACE_PERCENT < 0 then
    (none, w)
  else
    let r := read_file env w path
    if r.1 < 0 then (none, r.2.2)
    else
      let u := update_file env r.2.2 path r.2.1
      if u.1 < 0 then (none, u.2) else (some (dir, r.2.1), u.2)

/-- The function `rmfr(path)` (fsutils.c l.765-813): a file is unlinked, a
directory is emptied recursively and removed; `-1` when the name does not exist.
The recursion over `readdir` is collapsed into the removal of every entry at and
below `path`. -/
def rmfr (w : World) (path : CStr) : Int × World :=
  if (fs_lookup path w.fs).isSome then
    (0, { w with fs := w.fs.filter (fun e => !is_under path e.1) })
  else (-1, w)

/-- The name of `p` inside directory `dir`, when `p` is an entry of `dir`. -/
def child_name (dir p : CStr) : Option CStr :=
  if starts_with p (dir ++ ['/']) ∧ p.drop (dir.length + 1) ≠ [] ∧
      '/' ∉ p.drop (dir.length + 1) then
    some (p.drop (dir.length + 1))
  else none

/-- The names `scandir(dir)` lists, without `.` and `..` (which no eviction
pattern matches, since a pattern ends in an underscore). -/
def scandir (fs : FileSys) (dir : CStr) : List CStr := fs.filterMap (fun e => child_name dir e.1)

/-- The part of `mtch` before its last slash (`strndup` in `rmfr_match`). -/
def before_last_slash (s : CStr) : CStr :=
  (s.reverse.dropWhile (fun c => decide (c ≠ '/'))).reverse.dropLast

/-- The function `rmfr_match(match)` (fsutils.c l.551-596): every entry of the
directory of `mtch` whose name contains (`strstr`) the last component of `mtch` is
removed with `rmfr`. The list is walked from its end, as in the source. The path
`found` of an existing entry is taken to fit its `PATHMAX` buffer. -/
def rmfr_match (w : World) (mtch : CStr) : Int × World :=
  match after_last_slash mtch with
  | none => (-22, w)
  | some filename =>
    let path := before_last_slash mtch
    if fs_lookup path w.fs = some Node.dir then
      (0, (scandir w.fs path).reverse.foldl (fun (acc : World) (name : CStr) =>
        if strstr name filename then (rmfr acc (path ++ '/' :: name)).2 else acc) w)
    else (- Int.ofNat ENOENT, w)

/-- The system call `mkdir(path, 0777)`: the `errno` (0 on success) and the world. -/
def mkdir (env : Env) (w : World) (path : CStr) : Nat × World :=
  if env.fault Sys.mkdir path ≠ 0 then (env.fault Sys.mkdir path, w)
  else if (fs_lookup path w.fs).isSome then (EEXIST, w)
  else (0, { w with fs := fs_store path Node.dir w.fs })

/-- The function `create_crash_folder(path)` (fsutils.c l.666-687). Ownership is
not part of the model. -/
def create_crash_folder (env : Env) (w : World) (path : CStr) : Int × World :=
  let m := mkdir env w path
  if m.1 ≠ 0 then
    if m.1 = ENOSPC then
      let c := check_partlogfull env m.2 path
      if c.1 then (-1, raise_infoerror c.2 ErrKind.CRASHLOG_ERROR_FULL)
      else (-1, raise_infoerror c.2 ErrKind.CRASHLOG_ERROR_PATH)
    else (-1, raise_infoerror m.2 ErrKind.CRASHLOG_ERROR_PATH)
  else (0, m.2)

/-- The call `history_delete_first_existent_logcrashpath(path)` (the ledger is kept
by a collaborator): recorded in the world. -/
def history_delete (w : World) (path : CStr) : World :=
  { w with history_deleted := w.history_deleted ++ [path] }

/-- The slot prefix `"<dir><current>_"` as `snprintf` leaves it in `path[PATHMAX]`;
`current` is an `unsigned int` printed with `%d`. -/
def slot_match (env : Env) (dir : CStr) (current : Nat) : CStr :=
  snprintf env.PATHMAX (dir ++ fmt_int (toInt32 (Int.ofNat current)) ++ ['_'])

/-- The path after `strncat(path, unique, n)` in `generate_crashlog_dir`, with
`n = sizeof(path) - strlen(path)` when the two lengths reach `sizeof(path)` and
`strlen(unique)` otherwise (fsutils.c l.700-701). -/
def slot_path (env : Env) (dir : CStr) (current : Nat) (unique : CStr) : CStr :=
  slot_match env dir current ++
    unique.take (if (slot_match env dir current).length + unique.length ≥ env.PATHMAX
      then env.PATHMAX - (slot_match env dir current).length else unique.length)

/-- The function `generate_crashlog_dir(mode, unique)` (fsutils.c l.689-712): the
path of the new directory, or `none` for `NULL`. -/
def generate_crashlog_dir (env : Env) (w : World) (mode : e_dir_mode_t) (unique : CStr) :
    Option CStr × World :=
  let r := reserve_crash_folder env w mode
  match r.1 with
  | none => (none, r.2)
  | some (dir, current) =>
    let w2 := (rmfr_match r.2 (slot_match env dir current)).2
    let path := slot_path env dir current unique
    let w3 := if directory_exists w2 path then history_delete w2 path else w2
    let c := create_crash_folder env w3 path
    if c.1 < 0 then (none, c.2) else (some path, c.2)

/-- The function `find_new_crashlog_dir(mode)` (fsutils.c l.714-739): the index as
an `int`, or `-1`. -/
def find_new_crashlog_dir (env : Env) (w : World) (mode : e_dir_mode_t) : Int × World :=
  let r := reserve_crash_folder env w mode
  match r.1 with
  | none => (-1, r.2)
  | some (dir, current) =>
    let path := snprintf env.PATHMAX (dir ++ fmt_int (toInt32 (Int.ofNat current)))
    let w2 := if directory_exists r.2 path then history_delete r.2 path else r.2
    let w3 := (rmfr w2 path).2
    let c := create_crash_folder env w3 path
    if c.1 < 0 then (-1, c.2) else (toInt32 (Int.ofNat current), c.2)

/-! ## DumpstateCoordinator: the ring of pending keys -/

/-- Length of a SHA-1 digest (`openssl/sha.h`). -/
def SHA_DIGEST_LENGTH : Nat := 20

/-- Number of slots, `DIM(gcurrent_key)`. -/
def DIM_gcurrent_key : Nat := 2

/-- The static state of the dumpstate functions: the slots of `gcurrent_key` (each
the C string it holds, empty when its first byte is 0) and the two cursors. -/
structure DumpRing where
  gcurrent_key : List CStr
  index_prod : Nat
  index_cons : Nat
deriving DecidableEq, Repr

/-- The ring at start-up: both slots empty, `index_prod = DIM - 1`, `index_cons = 0`. -/
def DumpRing.initial : DumpRing := ⟨[[], []], DIM_gcurrent_key - 1, 0⟩

/-- What the dumpstate functions ask of the environment. -/
structure DumpEnv where
  /-- The global `logsystemstate_available`. -/
  logsystemstate_available : Bool
  /-- Value of the property `PROP_LOGSYSTEMSTATE` (default `"stopped"`). -/
  dumpstate_prop : CStr
  /-- Whether the marker file `dumpstate_busy` can be opened for writing. -/
  busy_fopen_ok : Bool
  /-- Whether `inotify_add_watch` succeeds. -/
  add_watch_ok : Bool
  /-- Value of the property `PROP_BOOT_STATUS` (default `"-1"`). -/
  boot_state : CStr
  /-- Result of `is_crashreport_available()`. -/
  crashreport_available : Bool

/-- The effects of the dumpstate functions outside the ring. -/
inductive DumpAction where
  | busy_marker (path : CStr) (content : CStr)
  | property_set (name : CStr) (value : CStr)
  | start_daemon (name : CStr)
  | add_watch (dir : CStr)
  | notify_crashreport (key : CStr)
deriving DecidableEq, Repr

/-- Result of a dumpstate function: the C return value, the ring afterwards and
the effects, in order. -/
structure DumpResult where
  ret : Int
  ring : DumpRing
  actions : List DumpAction
deriving DecidableEq, Repr

/-- The function `start_dumpstate_srv(crash_dir, key)` (dropbox.c l.51-96), built
without `__TEST__`; `none` stands for a `NULL` argument. -/
def start_dumpstate_srv (e : DumpEnv) (PATHMAX : Nat) (r : DumpRing)
    (crash_dir key : Option CStr) : DumpResult :=
  match crash_dir, key with
  | some dir, some k =>
    if !e.logsystemstate_available then ⟨0, r, []⟩
    else if e.dumpstate_prop = "running".toList then
      if e.busy_fopen_ok then
        ⟨0, r, [DumpAction.busy_marker (snprintf (PATHMAX - 1) (dir ++ "/dumpstate_busy".toList))
          ("Previous event: ".toList ++ r.gcurrent_key.getD r.index_prod [] ++ ['\n'])]⟩
      else ⟨0, r, []⟩
    else if !e.add_watch_ok then
      ⟨-1, r, [DumpAction.property_set "vendor.crashlogd.storage.path".toList dir,
        DumpAction.start_daemon "vendor.logsystemstate".toList]⟩
    else
      let index_prod := (r.index_prod + 1) % DIM_gcurrent_key
      ⟨1, { r with
          index_prod := index_prod
          gcurrent_key := r.gcurrent_key.set index_prod (k.take SHA_DIGEST_LENGTH) },
        [DumpAction.property_set "vendor.crashlogd.storage.path".toList dir,
          DumpAction.start_daemon "vendor.logsystemstate".toList, DumpAction.add_watch dir]⟩
  | _, _ => ⟨0, r, []⟩

/-- The function `finalize_dropbox_pending_event(event)` (dropbox.c l.118-150); the
event is not read. The key handed to the notification thread is recorded as
`notify_crashreport`. -/
def finalize_dropbox_pending_event (e : DumpEnv) (r : DumpRing) : DumpResult :=
  if r.gcurrent_key.getD r.index_cons [] = [] then ⟨-1, r, []⟩
  else if e.boot_state ≠ "1".toList then ⟨-1, r, []⟩
  else
    ⟨0, { r with
        gcurrent_key := r.gcurrent_key.set r.index_cons []
        index_cons := (r.index_cons + 1) % DIM_gcurrent_key },
      if e.crashreport_available then
        [DumpAction.notify_crashreport
          ((r.gcurrent_key.getD r.index_cons []).take SHA_DIGEST_LENGTH)]
      else []⟩

/-! ## DedupCorrelator: `manage_duplicate_dropbox_events` -/

/-- The fields of `struct inotify_event` the correlator reads; `name` is the C
string in the `len` bytes that follow the header. -/
structure inotify_event where
  mask : Nat
  cookie : Nat
  len : Nat
  name : CStr
deriving DecidableEq, Repr

def IN_MOVED_FROM : Nat := 64
def IN_MOVED_TO : Nat := 128

/-- The static state of the correlator. -/
structure DedupState where
  previous_event_cookie : Nat
  previous_filename : CStr
deriving DecidableEq, Repr

/-- One call `create_infoevent(filename, data0, data1, data2)`. -/
structure InfoEvent where
  filename : CStr
  data0 : CStr
  data1 : CStr
  data2 : CStr
deriving DecidableEq, Repr

/-- Constants of `privconfig.h` the correlator uses, and the rendering of a time
stamp (`localtime` and `PRINT_TIME`, `none` when `localtime` fails). -/
structure DedupEnv where
  DROPBOX_DIR : CStr
  ANR_DUPLICATE_DATA : CStr
  ANR_DUPLICATE_INFOERROR : CStr
  UIWDT_DUPLICATE_DATA : CStr
  UIWDT_DUPLICATE_INFOERROR : CStr
  JAVACRASH_DUPLICATE_DATA : CStr
  JAVACRASH_DUPLICATE_INFOERROR : CStr
  MAXFILESIZE : Int
  TIMESTAMP_MAX_SIZE : Nat
  LONG_MAX : Nat
  print_time : Int → Option CStr

/-- Result of the correlator: the C return value, its static state and the world
afterwards, the informational events it created, and whether the call wrote
outside `previous_filename[PATHMAX]`. When `memory_fault` is set the behaviour of
the C code is undefined (the copy runs off the static buffer): the call is not
expected to return, and the other fields then only record the assignments made
before the faulting write. -/
structure DedupResult where
  ret : Int
  state : DedupState
  world : World
  infoevents : List InfoEvent
  memory_fault : Bool
deriving DecidableEq, Repr

/-- The copy length and terminator index `MIN(event->len, PATHMAX) - 1`, computed
in `unsigned int` (dropbox.c l.252-253). -/
def moved_from_index (PATHMAX len : Nat) : Nat :=
  (min (len % 4294967296) PATHMAX + 4294967296 - 1) % 4294967296

/-- The function `manage_duplicate_dropbox_events(event)` (dropbox.c l.234-321).
In the moved-from branch `strncpy` writes `moved_from_index` bytes and the
terminator goes to that index of `previous_filename[PATHMAX]`: an index of
`PATHMAX` or more (as for `len = 0`, where it wraps) is a write outside the
buffer, recorded as `memory_fault`. -/
def manage_duplicate_dropbox_events (env : Env) (d : DedupEnv) (st : DedupState) (w : World)
    (event : inotify_event) : DedupResult :=
  if event.mask &&& IN_MOVED_FROM ≠ 0 then
    ⟨-1, ⟨event.cookie, event.name.take (moved_from_index env.PATHMAX event.len)⟩, w, [],
      decide (env.PATHMAX ≤ moved_from_index env.PATHMAX event.len)⟩
  else if event.mask &&& IN_MOVED_TO ≠ 0 ∧ st.previous_event_cookie ≠ 0 ∧
      st.previous_event_cookie = event.cookie ∧ event.len ≠ 0 then
    let kind : CStr × CStr :=
      if strstr event.name "anr".toList then (d.ANR_DUPLICATE_DATA, d.ANR_DUPLICATE_INFOERROR)
      else if strstr event.name "system_server_watchdog".toList then
        (d.UIWDT_DUPLICATE_DATA, d.UIWDT_DUPLICATE_INFOERROR)
      else (d.JAVACRASH_DUPLICATE_DATA, d.JAVACRASH_DUPLICATE_INFOERROR)
    let destination0 := snprintf env.PATHMAX (env.LOGS_DIR ++ '/' :: kind.1)
    let info_filename := kind.2
    let origin := snprintf env.PATHMAX (d.DROPBOX_DIR ++ '/' :: event.name)
    -- manages compressed log file
    let destination :=
      if origin.drop (origin.length - 3) = ".gz".toList then destination0 ++ ".gz".toList
      else destination0
    let w1 :=
      match fs_lookup origin w.fs with
      | some n =>
        if node_size n ≠ 0 then (do_copy_tail env w origin destination d.MAXFILESIZE).2 else w
      | none => w
    let timestamp_value :=
      extract_dropbox_timestamp d.TIMESTAMP_MAX_SIZE d.LONG_MAX st.previous_filename
    let human_readable_date : CStr :=
      if timestamp_value ≠ -1 then
        match d.print_time timestamp_value with
        | some date => date
        | none => "timestamp_extract_failed".toList
      else "timestamp_extract_failed".toList
    ⟨-1, ⟨0, []⟩, w1,
      [⟨info_filename, st.previous_filename, event.name, human_readable_date⟩], false⟩
  else ⟨0, st, w, [], false⟩

/-! ## Reordering the tail cache: `quicksort` and `cache_file` -/

/-- The exchange of the entries at `first` and `second` of one array, as `qs_swap`
does it; positions outside the array (undefined in C) leave it as it is. -/
def swap_at {β : Type} (l : List β) (first second : Nat) : List β :=
  match l[first]?, l[second]? with
  | some a, some b => (l.set first b).set second a
  | _, _ => l

/-- The two arrays `quicksort` works on: the records and their index keys. -/
structure SortState (α : Type) where
  array : List α
  indexes : List Int
deriving DecidableEq, Repr

/-- The function `qs_swap(array, indexes, first, second)` (fsutils.c l.1337-1349). -/
def qs_swap {α : Type} (s : SortState α) (first second : Nat) : SortState α :=
  ⟨swap_at s.array first second, swap_at s.indexes first second⟩

/-- The loop `for (i = start; i < end; i++)` of `qs_partition`, with `n` turns
left; the result is the state and `j`. -/
def qs_partition_loop {α : Type} (end_ : Nat) : Nat → Nat → Nat → SortState α → SortState α × Nat
  | 0, _, j, s => (s, j)
  | n + 1, i, j, s =>
    if s.indexes.getD i 0 ≤ s.indexes.getD end_ 0 then
      qs_partition_loop end_ n (i + 1) (j + 1) (qs_swap s i j)
    else qs_partition_loop end_ n (i + 1) j s

/-- The function `qs_partition(array, indexes, start, end, pivot)` (fsutils.c
l.1351-1363): the state afterwards and the returned position `j`. -/
def qs_partition {α : Type} (s : SortState α) (start end_ pivot : Nat) : SortState α × Nat :=
  let r := qs_partition_loop end_ (end_ - start) start start (qs_swap s pivot end_)
  (qs_swap r.1 end_ r.2, r.2)

/-- The function `__quicksort(array, indexes, start, end)` (fsutils.c l.1365-1372);
`start` is never negative, `end` can be `-1`. `fuel` bounds the depth of the
recursion, `none` stands for a run that needs more. -/
def __quicksort {α : Type} : Nat → SortState α → Nat → Int → Option (SortState α)
  | 0, _, _, _ => none
  | fuel + 1, s, start, end_ =>
    if Int.ofNat start < end_ then
      match __quicksort fuel (qs_partition s start end_.toNat start).1 start
          (Int.ofNat (qs_partition s start end_.toNat start).2 - 1) with
      | none => none
      | some s1 => __quicksort fuel s1 ((qs_partition s start end_.toNat start).2 + 1) end_
    else some s

/-- The index keys `quicksort` fills in (fsutils.c l.1398-1403): `diff + i` for
`i < pivot` and `i - pivot` otherwise, with `diff = dim - pivot`. -/
def quicksort_indexes (dim pivot : Nat) : List Int :=
  (List.range dim).map (fun i =>
    if i < pivot then (Int.ofNat dim - Int.ofNat pivot) + Int.ofNat i
    else Int.ofNat i - Int.ofNat pivot)

def ENOMEM : Nat := 12

/-- The function `quicksort(array, dim, pivot)` (fsutils.c l.1392-1421), for
non-negative `dim` and `pivot` below `2^31`; `malloc_ok` tells whether the index
array can be allocated. The result is the C return value and the array afterwards,
`none` when the fuel does not suffice. -/
def quicksort {α : Type} (fuel : Nat) (malloc_ok : Bool) (array : List α) (dim pivot : Nat) :
    Option (Int × List α) :=
  if !malloc_ok then some (- Int.ofNat ENOMEM, array)
  else
    match __quicksort fuel ⟨array, quicksort_indexes dim pivot⟩ 0 (Int.ofNat dim - 1) with
    | none => none
    | some s => some (0, s.array)


/-- The local variables of the `CACHE_TAIL` loop of `cache_file`: the buffer and
the three counters. -/
structure TailState where
  records : List (Option CStr)
  curindex : Nat
  count : Nat
  line_idx : Nat
deriving DecidableEq, Repr

/-- One turn of the loop `while ((res = readline(fd, curline)) > 0)` of
`cache_file` in mode `CACHE_TAIL` (fsutils.c l.1477-1493), for the line `curline`
that `readline` returned. `strdup` is taken to succeed. -/
def cache_tail_step (maxrecords : Nat) (offset : Int) (st : TailState) (curline : CStr) :
    TailState :=
  if offset ≤ Int.ofNat st.line_idx then
    ⟨st.records.set st.curindex (some curline), (st.curindex + 1) % maxrecords,
      if st.count < maxrecords then st.count + 1 else st.count, st.line_idx + 1⟩
  else ⟨st.records, st.curindex, st.count, st.line_idx + 1⟩

/-- The function `cache_file(filename, records, maxrecords, CACHE_TAIL, offset)`
(fsutils.c l.1429-1520, the branch of l.1475-1511). The file is given by what the
system calls answer: `open_errno` is the `errno` of a failing `open` (0 when it
succeeds), `lines` are the strings the successive `readline` calls return with a
positive result, `last_res` is the result of the call that ends the loop (0 at the
end of the file, negative on error), `malloc_ok` tells whether `quicksort` gets its
index array. The result is the C return value with the `maxrecords` entries of the
buffer (`none` for `NULL`; `[]` when the function returns before it touches them),
or `none` when the fuel of `quicksort` does not suffice. -/
def cache_file (fuel : Nat) (open_errno : Nat) (malloc_ok : Bool) (lines : List CStr)
    (last_res : Int) (maxrecords : Nat) (offset : Int) : Option (Int × List (Option CStr)) :=
  if offset < 0 then some (-22, [])
  else if maxrecords = 0 then some (0, [])
  else if open_errno ≠ 0 then some (- Int.ofNat open_errno, [])
  else
    let st := lines.foldl (cache_tail_step maxrecords offset)
      ⟨List.replicate maxrecords none, 0, 0, 0⟩
    if last_res < 0 then some (last_res, List.replicate maxrecords none)
    else if st.count = maxrecords ∧ st.curindex ≠ 0 then
      match quicksort fuel malloc_ok st.records st.count st.curindex with
      | none => none
      | some r =>
        if r.1 < 0 then some (r.1, List.replicate maxrecords none)
        else some (Int.ofNat st.count, r.2)
    else some (Int.ofNat st.count, st.records)

/-! ## Properties of runs, used to state the theorems -/

/-- Every copy of the list was handed the budget left by the copies before it and
copied no more than that. -/
def budget_respected (B : Int) (copies : List CopyRec) : Prop :=
  ∀ (i : Nat) (h : i < copies.length),
    copies[i].budget = B - bytes_copied (copies.take i) ∧ copies[i].rc ≤ copies[i].budget


/-- The name of backup `k` of a log as the specification writes it,
`"{primary_path}.{k zero-padded to index_width}{extension}"`, with no bound on its
length. -/
def backup_path_spec (source extension : CStr) (cnt_len k : Nat) : CStr :=
  source ++ '.' :: fmt_prec_d (precision_of cnt_len) k ++ extension

/-- The destination of backup `k` as the specification writes it,
`"{dest_dir}/{basename}{tag}.{k zero-padded}{extension}"`, with no bound on its
length. -/
def backup_dest_spec (destination file extension extra : CStr) (cnt_len k : Nat) : CStr :=
  destination ++ '/' :: file ++ extra ++ '.' :: fmt_prec_d (precision_of cnt_len) k
    ++ extension

/-- The names of the backups fit the two buffers of `PATHMAX` bytes, terminator
included, for every index an `int` holds: an index has at most ten digits, and is
printed with at least `cnt_len` digits. -/
abbrev names_fit (PATHMAX : Nat) (source destination file extension extra : CStr)
    (cnt_len : Nat) : Prop :=
  source.length + extension.length + precision_of cnt_len + 11 < PATHMAX ∧
  destination.length + file.length + extra.length + extension.length
    + precision_of cnt_len + 12 < PATHMAX

/-- The sources of the copies are the names the loop builds for consecutive values
of its `int` index, starting at `first`. -/
def contiguous_run (PATHMAX : Nat) (source extension : CStr) (cnt_len first : Nat)
    (backups : List CopyRec) : Prop :=
  backups.map (fun c => c.src)
    = (List.range backups.length).map
        (fun j => backup_path PATHMAX source extension cnt_len (toInt32 (Int.ofNat (first + j))))

/-- Every copy but the last one succeeded and left some of the budget: a copy is
followed by another one only then. -/
def continues_after_success (copies : List CopyRec) : Prop :=
  ∀ c ∈ copies.dropLast, 0 ≤ c.rc ∧ c.budget - c.rc ≠ 0

/-- The two ways a run of `do_copy_circular` ends: the last copy failed (its
result is negative, as for a missing file) and its result is returned, or the
budget is used up (the last copy left none, or there was none to begin with). -/
def ended_by_failure_or_budget (limit : Int) (r : CircResult) : Prop :=
  (∃ c, r.copies.getLast? = some c ∧ c.rc < 0 ∧ r.outcome = Outcome.returned c.rc) ∨
  (∃ c, r.copies.getLast? = some c ∧ 0 ≤ c.rc ∧ c.budget - c.rc = 0 ∧
    r.outcome = Outcome.returned c.rc) ∨
  (r.copies = [] ∧ limit = 0 ∧ r.outcome = Outcome.returned 0)

/-- Whether the eviction `rmfr_match(mtch)` can remove path `q`: `q` lies in the
directory of `mtch`, at or below an entry whose name contains the last component
of `mtch`. -/
def evicted_by (mtch q : CStr) : Bool :=
  match after_last_slash mtch with
  | none => false
  | some filename =>
    starts_with q (before_last_slash mtch ++ ['/']) &&
      strstr ((q.drop ((before_last_slash mtch).length + 1)).takeWhile
        (fun c => decide (c ≠ '/'))) filename

/-- A reservation request: `generate_crashlog_dir(mode, unique)` or
`find_new_crashlog_dir(mode)`. -/
inductive Request where
  | generate (unique : CStr)
  | find_new
deriving DecidableEq, Repr

/-- The answer to a reservation request. -/
inductive Reply where
  | dir (path : Option CStr)
  | index (i : Int)
deriving DecidableEq, Repr

/-- Whether a reservation succeeded: a path was returned, or an index other than
the failure value `-1`. -/
def Reply.ok : Reply → Bool
  | Reply.dir p => p.isSome
  | Reply.index i => decide (i ≠ -1)

/-- One reservation request served in world `w`. -/
def serve (env : Env) (mode : e_dir_mode_t) (w : World) : Request → Reply × World
  | Request.generate unique =>
    (Reply.dir (generate_crashlog_dir env w mode unique).1,
      (generate_crashlog_dir env w mode unique).2)
  | Request.find_new =>
    (Reply.index (find_new_crashlog_dir env w mode).1, (find_new_crashlog_dir env w mode).2)

/-- Consecutive reservations of one mode: each request with its answer and the
world after it. -/
def serve_all (env : Env) (mode : e_dir_mode_t) : World → List Request →
    List (Request × Reply × World)
  | _, [] => []
  | w, r :: rs => (r, serve env mode w r) :: serve_all env mode (serve env mode w r).2 rs

/-- The answer a request gets when it is handed slot index `i` of base directory
`dir`. -/
def expected_reply (env : Env) (dir : CStr) (i : Nat) : Request → Reply
  | Request.generate unique => Reply.dir (some (slot_path env dir i unique))
  | Request.find_new => Reply.index (Int.ofNat i)

/-- Well-formedness of a file system: every name that has an entry below it (a
proper, non-empty part of a path that ends before a slash) is a directory. -/
def no_orphans (fs : FileSys) : Bool :=
  fs.all (fun e => (List.range e.1.length).all (fun i =>
    !(decide (0 < i) && decide ((e.1.drop i).head? = some '/')) ||
      decide (fs_lookup (e.1.take i) fs = some Node.dir)))

/-- Every entry of `fs` is still there in `fs1`, with the same content. -/
def keeps_entries (fs fs1 : FileSys) : Prop :=
  ∀ (p : CStr) (n : Node), fs_lookup p fs = some n → fs_lookup p fs1 = some n

/-- Every directory of `fs1` was a directory of `fs` already. -/
def no_new_directory (fs fs1 : FileSys) : Prop :=
  ∀ p : CStr, fs_lookup p fs1 = some Node.dir → fs_lookup p fs = some Node.dir

/-- The copies are those of consecutive backups, starting at index `first`: copy
`j` goes from the name the loop builds for backup `first + j` (an `int`) to the
name it builds for it in the destination. -/
def backup_copies (PATHMAX : Nat) (source destination file extension extra : CStr)
    (cnt_len first : Nat) (l : List CopyRec) : Prop :=
  ∀ (j : Nat) (h : j < l.length),
    l[j].src = backup_path PATHMAX source extension cnt_len (toInt32 (Int.ofNat (first + j))) ∧
    l[j].dest = backup_dest PATHMAX destination file extension extra cnt_len
      (toInt32 (Int.ofNat (first + j)))

/-! ## Concrete inputs for the worked examples -/

/-- An environment in which no system call fails: log root `/logs`, ten slots. -/
def demo_env : Env where
  PATHMAX := 512
  LOGS_DIR := "/logs".toList
  gmaxfiles := 10
  LOGSDIR_MINIMUM_FREESPACE_PERCENT := 5
  EMMC_CRASH_DIR := "/logs/crashlog".toList
  EMMC_APLOGS_DIR := "/logs/aplogs".toList
  EMMC_BZ_DIR := "/logs/bz".toList
  EMMC_STATS_DIR := "/logs/stats".toList
  KDUMP_CRASH_DIR := "/logs/kdump".toList
  CRASH_CURRENT_LOG := "/logs/currentcrashlog".toList
  APLOGS_CURRENT_LOG := "/logs/currentaplogslog".toList
  BZ_CURRENT_LOG := "/logs/currentbzlog".toList
  STATS_CURRENT_LOG := "/logs/currentstatslog".toList
  statfs := fun _ => some ⟨1000, 10000, 4096⟩
  quota := 100
  fault := fun _ _ => 0
  sendfile_xfer := fun _ => Xfer.complete

/-- A world with a primary log of three bytes and one backup of two bytes. -/
def demo_world : World where
  fs := [("/logs".toList, Node.dir), ("/d".toList, Node.dir),
    ("/logs/aplog".toList, Node.file "abc".toList),
    ("/logs/aplog.1".toList, Node.file "de".toList)]
  partlogfull_errorset := false
  infoerrors := []
  history_deleted := []

/-- A world whose only file has 2^31 bytes. -/
def big_file_world : World where
  fs := [("/big".toList, Node.file (List.replicate 2147483648 'x'))]
  partlogfull_errorset := false
  infoerrors := []
  history_deleted := []

/-- An environment of the dumpstate functions in which a dump can be started and
the boot is complete. -/
def demo_dump_env : DumpEnv where
  logsystemstate_available := true
  dumpstate_prop := "stopped".toList
  busy_fopen_ok := true
  add_watch_ok := true
  boot_state := "1".toList
  crashreport_available := true

/-- Constants for the correlator, with a ten-digit time stamp and a 64-bit `long`. -/
def demo_dedup_env : DedupEnv where
  DROPBOX_DIR := "/data/system/dropbox".toList
  ANR_DUPLICATE_DATA := "anr_duplicate_data.txt".toList
  ANR_DUPLICATE_INFOERROR := "anr_duplicate_infoevent".toList
  UIWDT_DUPLICATE_DATA := "uiwdt_duplicate_data.txt".toList
  UIWDT_DUPLICATE_INFOERROR := "uiwdt_duplicate_infoevent".toList
  JAVACRASH_DUPLICATE_DATA := "javacrash_duplicate_data.txt".toList
  JAVACRASH_DUPLICATE_INFOERROR := "javacrash_duplicate_infoevent".toList
  MAXFILESIZE := 10485760
  TIMESTAMP_MAX_SIZE := 10
  LONG_MAX := 9223372036854775807
  print_time := fun t => some (fmt_int t)

/-- A world with the log root, the crash counter at 8 and two old crash slots. -/
def slot_world : World where
  fs := [("/logs".toList, Node.dir),
    ("/logs/currentcrashlog".toList, Node.file "   8".toList),
    ("/logs/crashlog8_old".toList, Node.dir),
    ("/logs/crashlog8_old/log.txt".toList, Node.file "x".toList),
    ("/logs/crashlog9".toList, Node.dir)]
  partlogfull_errorset := false
  infoerrors := []
  history_deleted := []

/-- The environment of the examples with the property `PROP_DATA_QUOTA` at 0: no
space is reserved for crash logging. -/
def no_quota_env : Env := { demo_env with quota := 0 }

/-- The environment of the examples with a failing `statfs`. -/
def statfs_fail_env : Env := { demo_env with statfs := fun _ => none }

/-- The environment of the examples with every `mkdir` failing with `ENOSPC`. -/
def disk_full_env : Env := { demo_env with fault := fun s _ => if s = Sys.mkdir then 28 else 0 }

/-- The environment of the examples with every `fopen` for reading failing with
`EACCES`. -/
def unreadable_counter_env : Env :=
  { demo_env with fault := fun s _ => if s = Sys.fopen_r then 13 else 0 }

/-- A world whose crash counter holds 9999, a value left by a larger `gmaxfiles`. -/
def stale_counter_world : World :=
  { slot_world with fs := [("/logs".toList, Node.dir),
      ("/logs/currentcrashlog".toList, Node.file "9999".toList)] }

/-- The environment of the examples with a crash directory of its own,
`/logs/crash/`: slot `i` is the entry `<i>_<unique>` of that directory. -/
def flat_dir_env : Env := { demo_env with EMMC_CRASH_DIR := "/logs/crash/".toList }

/-- A world with slots 1, 2, 5 and 11 in `/logs/crash` and a directory next to the
crash slots of `/logs/crashlog`. -/
def flat_slot_world : World :=
  { slot_world with fs := [("/logs".toList, Node.dir), ("/logs/crash".toList, Node.dir),
      ("/logs/crash/1_old".toList, Node.dir), ("/logs/crash/11_live".toList, Node.dir),
      ("/logs/crash/11_live/log.txt".toList, Node.file "x".toList),
      ("/logs/crash/5_ab1_cd".toList, Node.dir), ("/logs/crash/2_live".toList, Node.dir),
      ("/logs/mycrashlog1_bak".toList, Node.dir)] }

/-- A world in which the primary log exists under its bare name and with the
extension `.gz`. -/
def both_names_world : World :=
  { demo_world with fs := [("/logs".toList, Node.dir), ("/d".toList, Node.dir),
      ("/logs/aplog".toList, Node.file "abc".toList),
      ("/logs/aplog.gz".toList, Node.file "zz".toList)] }

/-- The environment of the dumpstate examples before the boot is complete. -/
def booting_dump_env : DumpEnv := { demo_dump_env with boot_state := "0".toList }

/-- The environment of the dumpstate examples while a dump is running. -/
def running_dump_env : DumpEnv := { demo_dump_env with dumpstate_prop := "running".toList }

/-- A world with the crash counter at 9 and an old directory at the bare slot path
`/logs/crashlog9`. -/
def bare_slot_world : World :=
  { slot_world with fs := [("/logs".toList, Node.dir),
      ("/logs/currentcrashlog".toList, Node.file "   9".toList),
      ("/logs/crashlog9".toList, Node.dir),
      ("/logs/crashlog9/log.txt".toList, Node.file "x".toList)] }

/-- A world whose only file has one byte more than `MAX_RW_COUNT`. -/
def capped_file_world : World where
  fs := [("/big".toList, Node.file (List.replicate 2147479553 'x'))]
  partlogfull_errorset := false
  infoerrors := []
  history_deleted := []

/-! ## Lemmas -/

theorem digitVal_ofNat (d : Nat) (h : d < 10) : digitVal (Char.ofNat (48 + d)) = d := by
  interval_cases d <;> rfl

theorem isdigit_ofNat (d : Nat) (h : d < 10) : isdigit (Char.ofNat (48 + d)) = true := by
  interval_cases d <;> rfl

theorem decValue_aux (fuel : Nat) : ∀ (n : Nat) (acc : List Char), n ≤ fuel →
    (decDigitsAux fuel n acc).foldl (fun a c => a * 10 + digitVal c) 0
      = acc.foldl (fun a c => a * 10 + digitVal c) n := by
  induction fuel with
  | zero =>
    intro n acc h
    have : n = 0 := by omega
    subst this
    simp [decDigitsAux]
  | succ f ih =>
    intro n acc h
    unfold decDigitsAux
    by_cases hn : n = 0
    · subst hn; simp
    · rw [if_neg hn, ih (n / 10) _ (by omega)]
      simp only [List.foldl_cons]
      rw [digitVal_ofNat _ (Nat.mod_lt _ (by decide))]
      congr 1
      omega

theorem decValue_decDigits (n : Nat) : decValue (decDigits n) = n := by
  unfold decValue decDigits
  rw [decValue_aux n n [] (le_refl _)]
  rfl

theorem decDigitsAux_all_digits (fuel : Nat) : ∀ (n : Nat) (acc : List Char),
    (∀ c ∈ acc, isdigit c = true) → ∀ c ∈ decDigitsAux fuel n acc, isdigit c = true := by
  induction fuel with
  | zero => intro n acc h; simpa [decDigitsAux] using h
  | succ f ih =>
    intro n acc h
    unfold decDigitsAux
    by_cases hn : n = 0
    · rw [if_pos hn]; exact h
    · rw [if_neg hn]
      apply ih
      intro c hc
      rcases List.mem_cons.mp hc with rfl | hc
      · exact isdigit_ofNat _ (Nat.mod_lt _ (by decide))
      · exact h c hc

theorem fmt_prec_d_all_digits (prec n : Nat) : ∀ c ∈ fmt_prec_d prec n, isdigit c = true := by
  intro c hc
  unfold fmt_prec_d at hc
  rcases List.mem_append.mp hc with h | h
  · rw [List.eq_of_mem_replicate h]; rfl
  · exact decDigitsAux_all_digits n n [] (by simp) c h

theorem decValue_zeros (k : Nat) (s : List Char) :
    decValue (List.replicate k '0' ++ s) = decValue s := by
  unfold decValue
  rw [List.foldl_append]
  congr 1
  induction k with
  | zero => rfl
  | succ k ih => simpa [List.replicate_succ, digitVal] using ih

theorem decValue_fmt_prec_d (prec n : Nat) : decValue (fmt_prec_d prec n) = n := by
  unfold fmt_prec_d
  rw [decValue_zeros, decValue_decDigits]

theorem fmt_prec_d_injective (prec : Nat) {i j : Nat} (h : fmt_prec_d prec i = fmt_prec_d prec j) :
    i = j := by
  have := congrArg decValue h
  rwa [decValue_fmt_prec_d, decValue_fmt_prec_d] at this

theorem append_sep_cancel {a : Char} : ∀ (l1 l2 x y : List Char),
    l1 ++ a :: x = l2 ++ a :: y → a ∉ x → a ∉ y → x = y := by
  intro l1
  induction l1 with
  | nil =>
    intro l2 x y h hx hy
    cases l2 with
    | nil => simpa using h
    | cons b l2 =>
      simp only [List.nil_append, List.cons_append, List.cons.injEq] at h
      exact absurd (by rw [h.2]; simp) hx
  | cons b l1 ih =>
    intro l2 x y h hx hy
    cases l2 with
    | nil =>
      simp only [List.nil_append, List.cons_append, List.cons.injEq] at h
      exact absurd (by rw [← h.2]; simp) hy
    | cons c l2 =>
      simp only [List.cons_append, List.cons.injEq] at h
      exact ih l2 x y h.2 hx hy

theorem dot_not_in_fmt (prec n : Nat) : '.' ∉ fmt_prec_d prec n := by
  intro h
  have := fmt_prec_d_all_digits prec n '.' h
  exact absurd this (by decide)

theorem backup_dest_ne_backup_path (source destination file extension extra : CStr)
    (cnt_len : Nat) {i k : Nat} (h : k ≠ i) :
    backup_path_spec source extension cnt_len k ≠
      backup_dest_spec destination file extension extra cnt_len i := by
  intro he
  unfold backup_path_spec backup_dest_spec at he
  have he2 : (source ++ '.' :: fmt_prec_d (precision_of cnt_len) k) ++ extension
      = (destination ++ '/' :: file ++ extra ++ '.' :: fmt_prec_d (precision_of cnt_len) i)
        ++ extension := by
    simpa [List.append_assoc] using he
  have he3 := List.append_cancel_right he2
  have he4 : source ++ '.' :: fmt_prec_d (precision_of cnt_len) k
      = (destination ++ '/' :: file ++ extra) ++ '.' :: fmt_prec_d (precision_of cnt_len) i := by
    simpa [List.append_assoc] using he3
  exact h (fmt_prec_d_injective _ (append_sep_cancel _ _ _ _ he4 (dot_not_in_fmt _ _)
    (dot_not_in_fmt _ _)))

theorem backup_path_injective (source extension : CStr) (cnt_len : Nat) {i k : Nat}
    (h : backup_path_spec source extension cnt_len i
      = backup_path_spec source extension cnt_len k) :
    i = k := by
  unfold backup_path_spec at h
  have h2 := List.append_cancel_left (List.append_cancel_right h)
  simp only [List.cons.injEq, true_and] at h2
  exact fmt_prec_d_injective _ h2

theorem fs_lookup_isSome_mem (p : CStr) (fs : FileSys) (h : fs_lookup p fs ≠ none) :
    p ∈ fs.map Prod.fst := by
  induction fs with
  | nil => exact absurd rfl h
  | cons e r ih =>
    by_cases he : e.1 = p
    · rw [List.map_cons, he]
      exact List.mem_cons_self _ _
    · simp only [fs_lookup, if_neg he] at h
      rw [List.map_cons]
      exact List.mem_cons_of_mem _ (ih h)

theorem absent_within (g : Nat → CStr) (hg : ∀ i j, g i = g j → i = j) (fs : FileSys)
    (a : Nat) :
    ∃ k, a ≤ k ∧ k ≤ a + fs.length ∧ fs_lookup (g k) fs = none := by
  by_contra hcon
  have hall : ∀ k, a ≤ k → k ≤ a + fs.length → fs_lookup (g k) fs ≠ none := by
    intro k h1 h2 h3
    exact hcon ⟨k, h1, h2, h3⟩
  have hnd : ((List.range (fs.length + 1)).map (fun i => g (a + i))).Nodup := by
    apply List.Nodup.map _ (List.nodup_range _)
    intro i j hij
    have := hg _ _ hij
    omega
  have hsub : (List.range (fs.length + 1)).map (fun i => g (a + i)) ⊆ fs.map Prod.fst := by
    intro x hx
    simp only [List.mem_map, List.mem_range] at hx
    obtain ⟨i, hi, rfl⟩ := hx
    exact fs_lookup_isSome_mem _ _ (hall (a + i) (by omega) (by omega))
  have hlen := (List.Nodup.subperm hnd hsub).length_le
  simp only [List.length_map, List.length_range] at hlen
  omega

theorem toInt32_of_range {x : Int} (h1 : -2147483648 ≤ x) (h2 : x < 2147483648) :
    toInt32 x = x := by
  unfold toInt32; omega

theorem toU64_of_nonneg {x : Int} (h1 : 0 ≤ x) (h2 : x < 18446744073709551616) :
    Int.ofNat (toU64 x) = x := by
  unfold toU64
  have : x % 18446744073709551616 = x := Int.emod_eq_of_lt h1 h2
  rw [this]; simp [Int.toNat_of_nonneg h1]

theorem fs_lookup_remove_self (p : CStr) (fs : FileSys) : fs_lookup p (fs_remove p fs) = none := by
  induction fs with
  | nil => rfl
  | cons e r ih =>
    by_cases h : e.1 = p
    · simp [fs_remove, h, ih]
    · simp [fs_remove, h, fs_lookup, ih]

theorem fs_lookup_remove_other {p q : CStr} (h : q ≠ p) (fs : FileSys) :
    fs_lookup q (fs_remove p fs) = fs_lookup q fs := by
  induction fs with
  | nil => rfl
  | cons e r ih =>
    by_cases h1 : e.1 = p
    · have h2 : ¬ p = q := fun h3 => h h3.symm
      simp [fs_remove, h1, fs_lookup, ih, h2]
    · by_cases h2 : e.1 = q
      · have h3 : ¬ q = p := h
        simp [fs_remove, h1, fs_lookup, h2, h3]
      · simp [fs_remove, h1, fs_lookup, h2, ih]

theorem fs_lookup_store_self (p : CStr) (n : Node) (fs : FileSys) :
    fs_lookup p (fs_store p n fs) = some n := by
  simp [fs_store, fs_lookup]

theorem fs_lookup_store_other {p q : CStr} (h : q ≠ p) (n : Node) (fs : FileSys) :
    fs_lookup q (fs_store p n fs) = fs_lookup q fs := by
  have h2 : p ≠ q := fun h3 => h h3.symm
  simp [fs_store, fs_lookup, h2, fs_lookup_remove_other h]

theorem sendfile_bounds (env : Env) (fs : FileSys) (dest src : CStr) (offset count : Nat) :
    -1 ≤ (sendfile env fs dest src offset count).1 ∧
    (sendfile env fs dest src offset count).1 ≤ Int.ofNat count ∧
    (sendfile env fs dest src offset count).1 ≤ Int.ofNat MAX_RW_COUNT := by
  unfold sendfile MAX_RW_COUNT
  split
  · split
    · simp only [Int.ofNat_eq_coe]; omega
    · split
      · simp only [Int.ofNat_eq_coe]; omega
      · simp only [Int.ofNat_eq_coe, List.length_take, List.length_drop]
        omega
      · simp only [Int.ofNat_eq_coe, List.length_take, List.length_drop]
        omega
  · simp only [Int.ofNat_eq_coe]; omega

theorem sendfile_lookup_other (env : Env) (fs : FileSys) (dest src : CStr) (offset count : Nat)
    {q : CStr} (h : q ≠ dest) :
    fs_lookup q (sendfile env fs dest src offset count).2 = fs_lookup q fs := by
  unfold sendfile
  split
  · split
    · rfl
    · split <;> simp [fs_lookup_store_other h]
  · rfl

theorem do_copy_tail_lookup_other (env : Env) (w : World) (src dest : CStr) (limit : Int)
    {q : CStr} (h : q ≠ dest) :
    fs_lookup q (do_copy_tail env w src dest limit).2.fs = fs_lookup q w.fs := by
  unfold do_copy_tail
  split
  · rfl
  · simp only
    split_ifs <;>
      simp [check_partlogfull, raise_infoerror, sendfile_lookup_other, fs_lookup_store_other, h]
    all_goals (split_ifs <;> simp [sendfile_lookup_other, fs_lookup_store_other, h])

theorem do_copy_tail_missing (env : Env) (w : World) (src dest : CStr) (limit : Int)
    (h : fs_lookup src w.fs = none) :
    do_copy_tail env w src dest limit = (- Int.ofNat ENOENT, w) := by
  unfold do_copy_tail; simp [h]

theorem fst_ite3 {α β : Type} (P Q : Prop) [Decidable P] [Decidable Q] (a : α) (x y z : β) :
    (if P then (if Q then (a, x) else (a, y)) else (a, z)).1 = a := by
  split_ifs <;> rfl

theorem do_copy_tail_rc_le (env : Env) (w : World) (src dest : CStr) (limit : Int)
    (h0 : 0 < limit) (h1 : limit < 2147483648) :
    (do_copy_tail env w src dest limit).1 ≤ limit := by
  unfold do_copy_tail
  split
  · simp; omega
  · rename_i nsrc _
    simp only
    have hsz : (0 : Int) ≤ Int.ofNat (node_size nsrc) := Int.ofNat_nonneg _
    generalize Int.ofNat (node_size nsrc) = sz at hsz
    have hl : ∀ l1 : Int, (if limit = 0 ∨ sz < limit then toInt32 sz else limit) = l1 →
        0 ≤ l1 ∧ l1 ≤ limit := by
      intro l1 h
      split_ifs at h with hc
      · rcases hc with hc | hc
        · omega
        · rw [toInt32_of_range (by omega) (by omega)] at h; omega
      · omega
    generalize hl1 : (if limit = 0 ∨ sz < limit then toInt32 sz else limit) = l1
    have hl' := hl l1 hl1
    generalize (if sz > l1 then sz - l1 else 0).toNat = off
    have hs := sendfile_bounds env (fs_store dest (Node.file []) w.fs) dest src off (toU64 l1)
    have hu := toU64_of_nonneg hl'.1 (by omega)
    rw [hu] at hs
    have key : toInt32 (sendfile env (fs_store dest (Node.file []) w.fs) dest src off
        (toU64 l1)).1 ≤ limit := by
      rw [toInt32_of_range (by omega) (by omega)]
      omega
    by_cases hA : env.fault Sys.open_rd src ≠ 0
    · rw [if_pos hA]; simp only [Int.ofNat_eq_coe]; omega
    · rw [if_neg hA]
      by_cases hB : fs_lookup dest w.fs = some Node.dir
      · rw [if_pos hB]; simp only [Int.ofNat_eq_coe]; omega
      · rw [if_neg hB]
        by_cases hC : env.fault Sys.open_wr dest ≠ 0
        · rw [if_pos hC]; simp only [Int.ofNat_eq_coe]; omega
        · rw [if_neg hC, fst_ite3]
          exact key

theorem bytes_copied_snoc (l : List CopyRec) (c : CopyRec) :
    bytes_copied (l ++ [c]) = bytes_copied l + max c.rc 0 := by
  simp [bytes_copied, List.sum_append]

theorem budget_respected_snoc {B : Int} {l : List CopyRec} {c : CopyRec}
    (hl : budget_respected B l) (h1 : c.budget = B - bytes_copied l) (h2 : c.rc ≤ c.budget) :
    budget_respected B (l ++ [c]) := by
  intro i h
  by_cases hi : i < l.length
  · have := hl i hi
    rw [List.getElem_append_left hi, List.take_append_of_le_length (Nat.le_of_lt hi)]
    exact this
  · have hi2 : i = l.length := by
      simp at h; omega
    subst hi2
    have e1 : (l ++ [c])[l.length] = c := by simp
    have e2 : List.take l.length (l ++ [c]) = l := by simp
    rw [e1, e2]
    exact ⟨h1, h2⟩

theorem loop_budget (env : Env) (source destination file extension extra : CStr)
    (cnt_len : Nat) (B : Int) (hB : B < 2147483648) :
    ∀ (fuel : Nat) (w : World) (limit : Int) (index : Int) (rc : Int) (copies : List CopyRec),
      0 ≤ limit → limit = B - bytes_copied copies → budget_respected B copies →
      bytes_copied (do_copy_circular_loop env source destination file extension extra cnt_len
        fuel w limit index rc copies).copies ≤ B ∧
      budget_respected B (do_copy_circular_loop env source destination file extension extra
        cnt_len fuel w limit index rc copies).copies := by
  intro fuel
  induction fuel with
  | zero =>
    intro w limit index rc copies h0 h1 h2
    simp only [do_copy_circular_loop]
    exact ⟨by omega, h2⟩
  | succ n ih =>
    intro w limit index rc copies h0 h1 h2
    simp only [do_copy_circular_loop]
    by_cases hz : limit = 0
    · rw [if_pos hz]; exact ⟨by simp only; omega, h2⟩
    · rw [if_neg hz]
      have hpos : 0 < limit := by omega
      have hb : 0 ≤ bytes_copied copies := by
        unfold bytes_copied
        apply List.sum_nonneg
        intro x hx
        simp only [List.mem_map] at hx
        obtain ⟨c, _, rfl⟩ := hx
        exact le_max_right _ _
      have hlt : limit < 2147483648 := by omega
      have h32 : toInt32 limit = limit := toInt32_of_range (by omega) hlt
      rw [h32]
      have hrc := do_copy_tail_rc_le env w
        (backup_path env.PATHMAX source extension cnt_len index)
        (backup_dest env.PATHMAX destination file extension extra cnt_len index) limit hpos hlt
      generalize do_copy_tail env w (backup_path env.PATHMAX source extension cnt_len index)
        (backup_dest env.PATHMAX destination file extension extra cnt_len index) limit = r at hrc
      have hsnoc := budget_respected_snoc (c := ⟨backup_path env.PATHMAX source extension cnt_len index,
        backup_dest env.PATHMAX destination file extension extra cnt_len index, limit, r.1⟩) h2 h1 hrc
      by_cases hneg : r.1 < 0
      · rw [if_pos hneg]
        refine ⟨?_, hsnoc⟩
        rw [bytes_copied_snoc]
        simp only
        rw [max_eq_right (by omega)]
        omega
      · rw [if_neg hneg]
        apply ih
        · omega
        · rw [bytes_copied_snoc]
          simp only
          rw [max_eq_left (by omega)]
          omega
        · exact hsnoc


theorem mem_dropLast_or_getLast {α : Type} (l : List α) (c : α) (h : c ∈ l) :
    c ∈ l.dropLast ∨ l.getLast? = some c := by
  rcases List.eq_nil_or_concat l with rfl | ⟨l1, a, rfl⟩
  · simp at h
  · simp only [List.concat_eq_append] at h ⊢
    rw [List.dropLast_concat]
    rcases List.mem_append.mp h with h | h
    · exact Or.inl h
    · right; simp at h; simp [h]

theorem toInt32_succ (x : Int) : toInt32 (toInt32 x + 1) = toInt32 (x + 1) := by
  unfold toInt32; omega

theorem contiguous_run_snoc {PATHMAX : Nat} {source extension : CStr} {cnt_len first : Nat}
    {l : List CopyRec} (h : contiguous_run PATHMAX source extension cnt_len first l)
    (c : CopyRec)
    (hc : c.src = backup_path PATHMAX source extension cnt_len
      (toInt32 (Int.ofNat (first + l.length)))) :
    contiguous_run PATHMAX source extension cnt_len first (l ++ [c]) := by
  unfold contiguous_run at h ⊢
  rw [List.map_append, h]
  simp [List.range_succ, hc]

theorem loop_shape (env : Env) (source destination file extension extra : CStr)
    (cnt_len np first : Nat) (limit0 : Int) :
    ∀ (fuel : Nat) (w : World) (limit : Int) (index : Int) (rc : Int) (copies : List CopyRec),
      np ≤ copies.length →
      contiguous_run env.PATHMAX source extension cnt_len first (copies.drop np) →
      index = toInt32 (Int.ofNat (first + (copies.length - np))) →
      continues_after_success copies →
      (∀ c, copies.getLast? = some c → 0 ≤ c.rc ∧ c.budget - c.rc = limit ∧ rc = c.rc) →
      (copies = [] → rc = 0 ∧ limit = limit0) →
      contiguous_run env.PATHMAX source extension cnt_len first
        ((do_copy_circular_loop env source destination file extension extra cnt_len
          fuel w limit index rc copies).copies.drop np) ∧
      continues_after_success (do_copy_circular_loop env source destination file extension
        extra cnt_len fuel w limit index rc copies).copies ∧
      ((do_copy_circular_loop env source destination file extension extra cnt_len
          fuel w limit index rc copies).outcome ≠ Outcome.fuel_exhausted →
        ended_by_failure_or_budget limit0 (do_copy_circular_loop env source destination file
          extension extra cnt_len fuel w limit index rc copies)) := by
  intro fuel
  induction fuel with
  | zero =>
    intro w limit index rc copies hnp hcont hidx hsucc hlast hnil
    simp only [do_copy_circular_loop]
    exact ⟨hcont, hsucc, fun h => absurd rfl h⟩
  | succ n ih =>
    intro w limit index rc copies hnp hcont hidx hsucc hlast hnil
    simp only [do_copy_circular_loop]
    by_cases hz : limit = 0
    · rw [if_pos hz]
      refine ⟨hcont, hsucc, fun _ => ?_⟩
      unfold ended_by_failure_or_budget
      rcases List.eq_nil_or_concat copies with he | ⟨l1, a, he⟩
      · right; right
        obtain ⟨h1, h2⟩ := hnil he
        exact ⟨he, by omega, by rw [h1]⟩
      · right; left
        have hl : copies.getLast? = some a := by
          rw [he]; simp
        obtain ⟨h1, h2, h3⟩ := hlast a hl
        exact ⟨a, hl, h1, by omega, by rw [h3]⟩
    · rw [if_neg hz]
      generalize do_copy_tail env w (backup_path env.PATHMAX source extension cnt_len index)
        (backup_dest env.PATHMAX destination file extension extra cnt_len index) (toInt32 limit) = r
      have hcont2 : contiguous_run env.PATHMAX source extension cnt_len first
          ((copies ++ [(⟨backup_path env.PATHMAX source extension cnt_len index,
            backup_dest env.PATHMAX destination file extension extra cnt_len index, limit, r.1⟩ :
            CopyRec)]).drop np) := by
        rw [List.drop_append_of_le_length hnp]
        exact contiguous_run_snoc hcont ⟨backup_path env.PATHMAX source extension cnt_len index,
            backup_dest env.PATHMAX destination file extension extra cnt_len index, limit, r.1⟩
          (by simp only [List.length_drop, hidx])
      have hsucc2 : continues_after_success
          (copies ++ [(⟨backup_path env.PATHMAX source extension cnt_len index,
            backup_dest env.PATHMAX destination file extension extra cnt_len index, limit, r.1⟩ :
            CopyRec)]) := by
        intro c hc
        rw [List.dropLast_concat] at hc
        rcases mem_dropLast_or_getLast copies c hc with h | h
        · exact hsucc c h
        · obtain ⟨h1, h2, _⟩ := hlast c h
          exact ⟨h1, by omega⟩
      have hlast2 : (copies ++ [(⟨backup_path env.PATHMAX source extension cnt_len index,
            backup_dest env.PATHMAX destination file extension extra cnt_len index, limit, r.1⟩ :
            CopyRec)]).getLast? = some ⟨backup_path env.PATHMAX source extension cnt_len index,
            backup_dest env.PATHMAX destination file extension extra cnt_len index, limit, r.1⟩ := by
        simp
      by_cases hneg : r.1 < 0
      · rw [if_pos hneg]
        refine ⟨hcont2, hsucc2, fun _ => ?_⟩
        unfold ended_by_failure_or_budget
        left
        exact ⟨_, hlast2, hneg, rfl⟩
      · rw [if_neg hneg]
        apply ih
        · simp; omega
        · exact hcont2
        · rw [hidx, toInt32_succ]
          congr 1
          simp only [List.length_append, List.length_singleton, Int.ofNat_eq_coe]
          omega
        · exact hsucc2
        · intro c hc
          rw [hlast2] at hc
          cases hc
          exact ⟨by simp only; omega, rfl, rfl⟩
        · intro h; simp at h

theorem after_last_slash_isSome {s : CStr} (h : '/' ∈ s) :
    ∃ file, after_last_slash s = some file := by
  unfold after_last_slash
  rw [if_pos h]
  exact ⟨_, rfl⟩

theorem do_copy_circular_shape (env : Env) (fuel : Nat) (w : World)
    (source destination extension extra : CStr) (limit : Int) (start_index cnt_len : Nat)
    (hsrc : '/' ∈ source) :
    contiguous_run env.PATHMAX source extension cnt_len
      (if toInt32 (Int.ofNat start_index) = 0 then 1 else start_index)
      ((do_copy_circular env fuel w source destination extension extra limit start_index
        cnt_len).copies.drop (if toInt32 (Int.ofNat start_index) = 0 then 1 else 0)) ∧
    continues_after_success (do_copy_circular env fuel w source destination extension extra
      limit start_index cnt_len).copies ∧
    ((do_copy_circular env fuel w source destination extension extra limit start_index
        cnt_len).outcome ≠ Outcome.fuel_exhausted →
      ended_by_failure_or_budget limit (do_copy_circular env fuel w source destination
        extension extra limit start_index cnt_len)) := by
  obtain ⟨file, hfile⟩ := after_last_slash_isSome hsrc
  have hnilc : ∀ first, contiguous_run env.PATHMAX source extension cnt_len first [] := by
    intro first; simp [contiguous_run]
  have hnils : continues_after_success [] := by
    intro c hc; simp at hc
  unfold do_copy_circular
  by_cases hz : limit = 0
  · rw [if_pos hz]
    refine ⟨by simpa using hnilc _, hnils, fun _ => ?_⟩
    unfold ended_by_failure_or_budget
    right; right
    exact ⟨rfl, hz, rfl⟩
  · rw [if_neg hz]
    simp only [hfile]
    by_cases hs : toInt32 (Int.ofNat start_index) = 0
    · simp only [if_pos hs]
      generalize (snprintf_at env.PATHMAX (snprintf env.PATHMAX (destination ++ '/' :: file))
        (extra ++ extension)) = d0
      generalize (if file_exists w source = true then snprintf env.PATHMAX source
        else snprintf_at env.PATHMAX (snprintf env.PATHMAX source) extension) = p0
      generalize do_copy_tail env w p0 d0 (toInt32 limit) = r
      have hsing : continues_after_success [(⟨p0, d0, limit, r.1⟩ : CopyRec)] := by
        intro c hc; simp at hc
      by_cases hneg : r.1 < 0
      · rw [if_pos hneg]
        refine ⟨by simpa using hnilc _, hsing, fun _ => ?_⟩
        unfold ended_by_failure_or_budget
        left
        exact ⟨_, rfl, hneg, rfl⟩
      · rw [if_neg hneg]
        apply loop_shape env source destination file extension extra cnt_len 1 1 limit
        · simp
        · simpa using hnilc _
        · simp [toInt32]
        · exact hsing
        · intro c hc
          simp only [List.getLast?_singleton, Option.some.injEq] at hc
          subst hc
          exact ⟨by simp only; omega, rfl, rfl⟩
        · intro h; simp at h
    · simp only [if_neg hs]
      apply loop_shape env source destination file extension extra cnt_len 0 start_index limit
      · simp
      · simpa using hnilc _
      · simp
      · exact hnils
      · intro c hc; simp at hc
      · intro _; exact ⟨rfl, rfl⟩

theorem toU64_natCast (n : Nat) (h : n < 18446744073709551616) : toU64 (n : Int) = n := by
  unfold toU64; omega

theorem sendfile_large_count (env : Env) (fs : FileSys) (dest src : CStr) (offset count : Nat)
    (h : 9223372036854775808 ≤ count) :
    sendfile env fs dest src offset count = (-1, fs) := by
  unfold sendfile
  split
  · rw [if_pos (Or.inl h)]
  · rfl

theorem sendfile_complete (env : Env) (fs : FileSys) (dest src : CStr) (offset count : Nat)
    (d : List Char) (hsrc : fs_lookup src fs = some (Node.file d))
    (hx : env.sendfile_xfer dest = Xfer.complete)
    (h1 : count < 9223372036854775808) (h2 : offset + count < 9223372036854775808) :
    sendfile env fs dest src offset count
      = (Int.ofNat ((d.drop offset).take (min count MAX_RW_COUNT)).length,
          fs_store dest (Node.file ((d.drop offset).take (min count MAX_RW_COUNT))) fs) := by
  unfold sendfile
  simp only [hsrc, hx]
  rw [if_neg (by omega)]

theorem do_copy_tail_fs_after (env : Env) (dest : CStr) (rc l1 : Int) (w1 : World) :
    fs_lookup dest (if rc ≠ -1 ∧ rc ≠ l1 then
      (if (check_partlogfull env w1 dest).1 = true then
        (rc, raise_infoerror (check_partlogfull env w1 dest).2 ErrKind.CRASHLOG_ERROR_FULL)
      else (rc, (check_partlogfull env w1 dest).2)) else (rc, w1)).2.fs
      = fs_lookup dest w1.fs := by
  unfold check_partlogfull raise_infoerror
  split_ifs <;> rfl

theorem do_copy_tail_narrowed_size (env : Env) (w : World) (src dest : CStr)
    (data : List Char)
    (hsrc : fs_lookup src w.fs = some (Node.file data))
    (hdest : fs_lookup dest w.fs ≠ some Node.dir)
    (hrd : env.fault Sys.open_rd src = 0)
    (hwr : env.fault Sys.open_wr dest = 0)
    (hlo : 2147483648 ≤ data.length) (hhi : data.length < 4294967296) :
    (do_copy_tail env w src dest 0).1 = -1 ∧
    fs_lookup dest (do_copy_tail env w src dest 0).2.fs = some (Node.file []) := by
  have e1 : toInt32 (data.length : Int) = (data.length : Int) - 4294967296 := by
    unfold toInt32; omega
  have e2 : 9223372036854775808 ≤ toU64 ((data.length : Int) - 4294967296) := by
    unfold toU64; omega
  have e5 : toInt32 (-1) = -1 := by decide
  unfold do_copy_tail
  simp only [hsrc, hrd, hwr, hdest, node_size, ne_eq, not_true_eq_false, if_false,
    Int.ofNat_eq_coe, true_or, if_true, e1, sendfile_large_count _ _ _ _ _ _ e2, e5,
    false_and, fs_lookup_store_self]
  exact ⟨trivial, trivial⟩

theorem take_ne_nil {α : Type} {l : List α} (h : l ≠ []) (n : Nat) : l.take (n + 1) ≠ [] := by
  cases l with
  | nil => exact absurd rfl h
  | cons a r => simp

theorem decDigitsAux_length_le (fuel : Nat) : ∀ (k n : Nat) (acc : List Char), n < 10 ^ k →
    (decDigitsAux fuel n acc).length ≤ acc.length + k := by
  induction fuel with
  | zero => intro k n acc _; simp [decDigitsAux]
  | succ f ih =>
    intro k n acc h
    unfold decDigitsAux
    by_cases hn : n = 0
    · rw [if_pos hn]; omega
    · rw [if_neg hn]
      cases k with
      | zero => simp at h; omega
      | succ k =>
        have h2 : n / 10 < 10 ^ k := by
          rw [Nat.div_lt_iff_lt_mul (by decide)]
          rw [pow_succ] at h; exact h
        have := ih k (n / 10) (Char.ofNat (48 + n % 10) :: acc) h2
        simp only [List.length_cons] at this
        omega

theorem fmt_d_ne_nil (n : Nat) : fmt_d n ≠ [] := by
  unfold fmt_d fmt_prec_d
  intro h
  have h2 := congrArg List.length h
  simp only [List.length_append, List.length_replicate, List.length_nil] at h2
  omega

theorem fmt_d_length_le (n : Nat) (h : n < 10000) : (fmt_d n).length ≤ 4 := by
  unfold fmt_d fmt_prec_d
  have := decDigitsAux_length_le n 4 n [] (by simpa using h)
  simp only [List.length_nil, zero_add] at this
  simp only [List.length_append, List.length_replicate]
  unfold decDigits
  omega

theorem fmt_4u_length (n : Nat) (h : n < 10000) : (fmt_4u n).length = 4 := by
  unfold fmt_4u
  have := fmt_d_length_le n h
  simp only [List.length_append, List.length_replicate]
  omega

theorem dropWhile_isspace_blanks (k : Nat) (s : List Char)
    (hs : ∀ c ∈ s, isdigit c = true) :
    (List.replicate k ' ' ++ s).dropWhile isspace = s := by
  induction k with
  | zero =>
    simp only [List.replicate_zero, List.nil_append]
    cases s with
    | nil => rfl
    | cons c r =>
      have hc := hs c (by simp)
      have : isspace c = false := by
        unfold isdigit at hc
        unfold isspace
        simp only [decide_eq_true_eq] at hc
        have h1 : c.toNat ≠ 32 := by omega
        have h2 : ¬ c.toNat ≤ 13 := by omega
        simp [h1, h2]
      simp [List.dropWhile, this]
  | succ k ih =>
    have : isspace ' ' = true := by decide
    simp [List.replicate_succ, List.dropWhile, this, ih]

theorem scan_4u_fmt_4u (n : Nat) (h : n < 10000) : scan_4u (fmt_4u n) = some n := by
  have hdig : ∀ c ∈ fmt_d n, isdigit c = true := fmt_prec_d_all_digits 1 n
  have hval : decValue (fmt_d n) = n := decValue_fmt_prec_d 1 n
  have h1 : ((fmt_4u n).dropWhile isspace).take 4 = fmt_d n := by
    unfold fmt_4u
    rw [dropWhile_isspace_blanks _ _ hdig]
    exact List.take_of_length_le (fmt_d_length_le n h)
  have htw : (fmt_d n).takeWhile isdigit = fmt_d n := by
    rw [List.takeWhile_eq_self_iff]
    exact hdig
  unfold scan_4u
  rw [h1]
  split
  · rename_i r heq
    have := hdig '-' (by rw [heq]; simp)
    exact absurd this (by decide)
  · rename_i r heq
    have := hdig '+' (by rw [heq]; simp)
    exact absurd this (by decide)
  · rw [htw, if_neg (fmt_d_ne_nil n), hval]

/-! ## Lemmas about names that fit their buffer, and termination of the copy loop -/

theorem fmt_prec_d_length_le (prec n : Nat) (h : n < 2147483648) :
    (fmt_prec_d prec n).length ≤ prec + 10 := by
  unfold fmt_prec_d
  have := decDigitsAux_length_le n 10 n [] (by omega)
  simp only [List.length_nil, zero_add] at this
  simp only [List.length_append, List.length_replicate]
  unfold decDigits
  omega

theorem snprintf_at_fits {size : Nat} {base s : CStr} (h : base.length + s.length < size) :
    snprintf_at size (snprintf size base) s = base ++ s := by
  unfold snprintf_at snprintf
  rw [List.take_of_length_le (by omega), List.take_of_length_le (by omega)]

theorem toInt32_ofNat (k : Nat) (h : k < 2147483648) : toInt32 (Int.ofNat k) = Int.ofNat k := by
  unfold toInt32
  simp only [Int.ofNat_eq_coe]
  omega

theorem fmt_prec_int_ofNat (prec k : Nat) : fmt_prec_int prec (Int.ofNat k) = fmt_prec_d prec k := by
  unfold fmt_prec_int
  rw [if_neg (by simp)]
  rfl

theorem backup_path_fits (PATHMAX : Nat) (source extension : CStr) (cnt_len k : Nat)
    (hfit : source.length + extension.length + precision_of cnt_len + 11 < PATHMAX)
    (hk : k < 2147483648) :
    backup_path PATHMAX source extension cnt_len (Int.ofNat k)
      = backup_path_spec source extension cnt_len k := by
  unfold backup_path backup_path_spec
  have hl := fmt_prec_d_length_le (precision_of cnt_len) k hk
  have hlen : source.length
      + ('.' :: fmt_prec_d (precision_of cnt_len) k ++ extension).length < PATHMAX := by
    simp only [List.length_cons, List.length_append]
    omega
  rw [fmt_prec_int_ofNat, snprintf_at_fits hlen]
  simp only [List.append_assoc, List.cons_append]

theorem backup_dest_fits (PATHMAX : Nat) (destination file extension extra : CStr)
    (cnt_len k : Nat)
    (hfit : destination.length + file.length + extra.length + extension.length
      + precision_of cnt_len + 12 < PATHMAX)
    (hk : k < 2147483648) :
    backup_dest PATHMAX destination file extension extra cnt_len (Int.ofNat k)
      = backup_dest_spec destination file extension extra cnt_len k := by
  unfold backup_dest backup_dest_spec
  have hl := fmt_prec_d_length_le (precision_of cnt_len) k hk
  have hlen : (destination ++ '/' :: file).length
      + (extra ++ '.' :: fmt_prec_d (precision_of cnt_len) k ++ extension).length
      < PATHMAX := by
    simp only [List.length_cons, List.length_append]
    omega
  rw [fmt_prec_int_ofNat, snprintf_at_fits hlen]
  simp only [List.append_assoc, List.cons_append]

theorem fs_remove_length_le (p : CStr) (fs : FileSys) : (fs_remove p fs).length ≤ fs.length := by
  induction fs with
  | nil => exact Nat.le_refl _
  | cons e r ih =>
    unfold fs_remove
    split_ifs
    · simp only [List.length_cons]; omega
    · simp only [List.length_cons]; omega

theorem fs_store_store_length_le (p : CStr) (n m : Node) (fs : FileSys) :
    (fs_store p n (fs_store p m fs)).length ≤ fs.length + 1 := by
  have h1 := fs_remove_length_le p fs
  have h2 := fs_remove_length_le p (fs_remove p fs)
  simp only [fs_store, fs_remove, if_true, List.length_cons]
  omega

theorem fs_store_length_le (p : CStr) (n : Node) (fs : FileSys) :
    (fs_store p n fs).length ≤ fs.length + 1 := by
  have h1 := fs_remove_length_le p fs
  simp only [fs_store, List.length_cons]
  omega

theorem sendfile_store_length_le (env : Env) (fs : FileSys) (dest src : CStr) (m : Node)
    (offset count : Nat) :
    (sendfile env (fs_store dest m fs) dest src offset count).2.length ≤ fs.length + 1 := by
  have h0 := fs_store_length_le dest m fs
  unfold sendfile
  split
  · split
    · exact h0
    · split
      · exact h0
      · exact fs_store_store_length_le _ _ _ _
      · exact fs_store_store_length_le _ _ _ _
  · exact h0

theorem do_copy_tail_fs_length (env : Env) (w : World) (src dest : CStr) (limit : Int) :
    (do_copy_tail env w src dest limit).2.fs.length ≤ w.fs.length + 1 := by
  unfold do_copy_tail
  split
  · simp
  · simp only
    have hs := fun off cnt => sendfile_store_length_le env w.fs dest src (Node.file []) off cnt
    split_ifs <;> simp [check_partlogfull, raise_infoerror, hs]
    all_goals (split_ifs <;> simp [hs])

theorem loop_copies_length (env : Env) (source destination file extension extra : CStr)
    (cnt_len : Nat) :
    ∀ (fuel : Nat) (w : World) (limit index rc : Int) (copies : List CopyRec),
      (do_copy_circular_loop env source destination file extension extra cnt_len
        fuel w limit index rc copies).copies.length ≤ copies.length + fuel := by
  intro fuel
  induction fuel with
  | zero => intro w limit index rc copies; simp [do_copy_circular_loop]
  | succ n ih =>
    intro w limit index rc copies
    simp only [do_copy_circular_loop]
    split_ifs
    · simp only; omega
    · simp only [List.length_append, List.length_singleton]; omega
    · refine le_trans (ih _ _ _ _ _) ?_
      simp only [List.length_append, List.length_singleton]; omega

theorem loop_terminates (env : Env) (source destination file extension extra : CStr)
    (cnt_len : Nat)
    (hfit : names_fit env.PATHMAX source destination file extension extra cnt_len) :
    ∀ (d : Nat) (w : World) (limit : Int) (i : Nat) (rc : Int) (copies : List CopyRec),
      i + d < 2147483648 →
      fs_lookup (backup_path_spec source extension cnt_len (i + d)) w.fs = none →
      ∀ fuel, d + 1 ≤ fuel →
        (∃ r, (do_copy_circular_loop env source destination file extension extra cnt_len
          fuel w limit (Int.ofNat i) rc copies).outcome = Outcome.returned r) ∧
        do_copy_circular_loop env source destination file extension extra cnt_len
          fuel w limit (Int.ofNat i) rc copies =
        do_copy_circular_loop env source destination file extension extra cnt_len
          (d + 1) w limit (Int.ofNat i) rc copies := by
  intro d
  induction d with
  | zero =>
    intro w limit i rc copies hi habs fuel hfuel
    obtain ⟨f, rfl⟩ : ∃ f, fuel = f + 1 := ⟨fuel - 1, by omega⟩
    have hp := backup_path_fits env.PATHMAX source extension cnt_len i hfit.1 (by omega)
    have hmiss := do_copy_tail_missing env w (backup_path_spec source extension cnt_len i)
      (backup_dest env.PATHMAX destination file extension extra cnt_len (Int.ofNat i))
      (toInt32 limit) habs
    simp only [do_copy_circular_loop, hp, hmiss]
    by_cases hz : limit = 0
    · simp [hz]
    · simp [hz, ENOENT]
  | succ d ih =>
    intro w limit i rc copies hi habs fuel hfuel
    obtain ⟨f, rfl⟩ : ∃ f, fuel = f + 1 := ⟨fuel - 1, by omega⟩
    have hp := backup_path_fits env.PATHMAX source extension cnt_len i hfit.1 (by omega)
    have hd := backup_dest_fits env.PATHMAX destination file extension extra cnt_len i hfit.2
      (by omega)
    have hnext : toInt32 (Int.ofNat i + 1) = Int.ofNat (i + 1) := by
      unfold toInt32
      simp only [Int.ofNat_eq_coe]
      omega
    simp only [do_copy_circular_loop, hp, hd, hnext]
    by_cases hz : limit = 0
    · simp [hz]
    · simp only [if_neg hz]
      by_cases hneg : (do_copy_tail env w (backup_path_spec source extension cnt_len i)
          (backup_dest_spec destination file extension extra cnt_len i) (toInt32 limit)).1 < 0
      · simp [hneg]
      · simp only [if_neg hneg]
        apply ih
        · omega
        · rw [do_copy_tail_lookup_other env w _ _ _
            (backup_dest_ne_backup_path source destination file extension extra cnt_len
              (by omega : i + 1 + d ≠ i))]
          rw [show i + 1 + d = i + (d + 1) by omega]
          exact habs
        · omega

theorem do_copy_circular_terminates (env : Env) (w : World)
    (source destination extension extra file : CStr) (limit : Int) (start_index cnt_len : Nat)
    (hfile : after_last_slash source = some file)
    (hfit : names_fit env.PATHMAX source destination file extension extra cnt_len)
    (hwrap : start_index + w.fs.length + 2 < 2147483648) :
    ∀ fuel, w.fs.length + 3 ≤ fuel →
      (∃ r, (do_copy_circular env fuel w source destination extension extra limit start_index
        cnt_len).outcome = Outcome.returned r) ∧
      do_copy_circular env fuel w source destination extension extra limit start_index cnt_len
        = do_copy_circular env (w.fs.length + 3) w source destination extension extra limit
          start_index cnt_len ∧
      max start_index 1 + ((do_copy_circular env fuel w source destination extension extra
        limit start_index cnt_len).copies.drop (if start_index = 0 then 1 else 0)).length
        ≤ 2147483648 := by
  intro fuel hfuel
  have hinj : ∀ i j, backup_path_spec source extension cnt_len i
      = backup_path_spec source extension cnt_len j → i = j :=
    fun i j h => backup_path_injective source extension cnt_len h
  have hs32 : toInt32 (Int.ofNat start_index) = Int.ofNat start_index :=
    toInt32_ofNat _ (by omega)
  unfold do_copy_circular
  by_cases hz : limit = 0
  · simp only [if_pos hz, List.drop_nil, List.length_nil]
    exact ⟨⟨_, rfl⟩, trivial, by omega⟩
  · simp only [if_neg hz, hfile, hs32]
    by_cases hs : start_index = 0
    · subst hs
      simp only [Int.ofNat_eq_coe, Nat.cast_zero, if_true]
      generalize (snprintf_at env.PATHMAX (snprintf env.PATHMAX (destination ++ '/' :: file))
        (extra ++ extension)) = d0
      generalize (if file_exists w source = true then snprintf env.PATHMAX source
        else snprintf_at env.PATHMAX (snprintf env.PATHMAX source) extension) = p0
      have hlen := do_copy_tail_fs_length env w p0 d0 (toInt32 limit)
      generalize do_copy_tail env w p0 d0 (toInt32 limit) = r at hlen
      by_cases hneg : r.1 < 0
      · simp only [if_pos hneg, List.drop_succ_cons, List.drop_zero, List.length_nil]
        exact ⟨⟨_, rfl⟩, trivial, by omega⟩
      · simp only [if_neg hneg]
        obtain ⟨k, hk1, hk2, hk3⟩ := absent_within _ hinj r.2.fs 1
        obtain ⟨d, rfl⟩ : ∃ d, k = 1 + d := ⟨k - 1, by omega⟩
        have h1 := loop_terminates env source destination file extension extra cnt_len hfit d
          r.2 (limit - r.1) 1 r.1 [⟨p0, d0, limit, r.1⟩] (by omega) hk3
        have hone : ((1 : Nat) : Int) = 1 := rfl
        simp only [Int.ofNat_eq_coe, hone] at h1
        have ha := h1 fuel (by omega)
        have hb := h1 (w.fs.length + 3) (by omega)
        refine ⟨ha.1, ha.2.trans hb.2.symm, ?_⟩
        rw [ha.2]
        have hc := loop_copies_length env source destination file extension extra cnt_len
          (d + 1) r.2 (limit - r.1) 1 r.1 [⟨p0, d0, limit, r.1⟩]
        simp only [List.length_singleton] at hc
        simp only [List.length_drop]
        omega
    · have hs2 : ¬ ((start_index : Int) = 0) := by omega
      simp only [Int.ofNat_eq_coe, if_neg hs2, if_neg hs]
      obtain ⟨k, hk1, hk2, hk3⟩ := absent_within _ hinj w.fs start_index
      obtain ⟨d, rfl⟩ : ∃ d, k = start_index + d := ⟨k - start_index, by omega⟩
      have h1 := loop_terminates env source destination file extension extra cnt_len hfit d
        w limit start_index 0 [] (by omega) hk3
      simp only [Int.ofNat_eq_coe] at h1
      have ha := h1 fuel (by omega)
      have hb := h1 (w.fs.length + 3) (by omega)
      refine ⟨ha.1, ha.2.trans hb.2.symm, ?_⟩
      rw [ha.2]
      have hc := loop_copies_length env source destination file extension extra cnt_len
        (d + 1) w limit start_index 0 []
      simp only [List.length_nil] at hc
      simp only [List.drop_zero]
      omega

theorem fs_lookup_filter (f : CStr → Bool) (q : CStr) (fs : FileSys) :
    fs_lookup q (fs.filter (fun e => f e.1)) = if f q = true then fs_lookup q fs else none := by
  induction fs with
  | nil => simp [fs_lookup]
  | cons e r ih =>
    by_cases he : f e.1 = true
    · simp only [List.filter_cons, he, if_true]
      by_cases hq : e.1 = q
      · simp only [fs_lookup, if_pos hq]
        rw [← hq, if_pos he]
      · simp only [fs_lookup, if_neg hq, ih]
    · have he2 : f e.1 = false := by simpa using he
      simp only [List.filter_cons, he2, Bool.false_eq_true, if_false]
      by_cases hq : e.1 = q
      · rw [ih, ← hq, he2]
        simp
      · simp only [fs_lookup, if_neg hq, ih]

theorem rmfr_lookup (w : World) (p q : CStr) :
    fs_lookup q (rmfr w p).2.fs =
      if (fs_lookup p w.fs).isSome = true ∧ is_under p q = true then none
      else fs_lookup q w.fs := by
  unfold rmfr
  by_cases hp : (fs_lookup p w.fs).isSome = true
  · rw [if_pos hp]
    simp only [hp, true_and]
    rw [fs_lookup_filter (fun k => !is_under p k)]
    by_cases hu : is_under p q = true
    · simp [hu]
    · simp [hu]
  · rw [if_neg hp]
    simp [hp]

theorem rmfr_lookup_keep (w : World) (p q : CStr) (h : is_under p q = false) :
    fs_lookup q (rmfr w p).2.fs = fs_lookup q w.fs := by
  rw [rmfr_lookup]; simp [h]

theorem rmfr_frame (w : World) (p : CStr) :
    (rmfr w p).2.partlogfull_errorset = w.partlogfull_errorset ∧
    (rmfr w p).2.infoerrors = w.infoerrors ∧
    (rmfr w p).2.history_deleted = w.history_deleted := by
  unfold rmfr; split_ifs <;> exact ⟨rfl, rfl, rfl⟩

theorem child_name_spec {dir p name : CStr} (h : child_name dir p = some name) :
    p = dir ++ '/' :: name ∧ name ≠ [] ∧ '/' ∉ name := by
  unfold child_name at h
  split_ifs at h with hc
  obtain ⟨h1, h2, h3⟩ := hc
  simp only [Option.some.injEq] at h
  subst h
  refine ⟨?_, h2, h3⟩
  unfold starts_with at h1
  simp only [decide_eq_true_eq, List.length_append, List.length_singleton] at h1
  have := List.take_append_drop (dir.length + 1) p
  rw [h1] at this
  simpa using this.symm

theorem mem_scandir {fs : FileSys} {dir name : CStr} (h : name ∈ scandir fs dir) :
    name ≠ [] ∧ '/' ∉ name := by
  unfold scandir at h
  rw [List.mem_filterMap] at h
  obtain ⟨e, _, he⟩ := h
  exact (child_name_spec he).2

theorem starts_with_append (p s : CStr) : starts_with (p ++ s) p = true := by
  unfold starts_with; simp

theorem starts_with_iff (s p : CStr) : starts_with s p = true ↔ ∃ r, s = p ++ r := by
  unfold starts_with
  simp only [decide_eq_true_eq]
  constructor
  · intro h
    refine ⟨s.drop p.length, ?_⟩
    conv_lhs => rw [← List.take_append_drop p.length s]
    rw [h]
  · rintro ⟨r, rfl⟩; simp

theorem is_under_iff (root p : CStr) :
    is_under root p = true ↔ p = root ∨ ∃ r, p = root ++ '/' :: r := by
  unfold is_under
  simp only [Bool.or_eq_true, decide_eq_true_eq, starts_with_iff]
  constructor
  · rintro (h | ⟨r, h⟩)
    · exact Or.inl h
    · exact Or.inr ⟨r, by simpa using h⟩
  · rintro (h | ⟨r, h⟩)
    · exact Or.inl h
    · exact Or.inr ⟨r, by simpa using h⟩

theorem takeWhile_not_slash (name r : List Char) (h : '/' ∉ name) :
    (name ++ '/' :: r).takeWhile (fun c => decide (c ≠ '/')) = name := by
  induction name with
  | nil => simp [List.takeWhile]
  | cons a t ih =>
    have ha : a ≠ '/' := fun h2 => h (by simp [h2])
    have ht : '/' ∉ t := fun h2 => h (by simp [h2])
    have hd : decide (a ≠ '/') = true := by simpa using ha
    rw [List.cons_append, List.takeWhile_cons]
    simp only [hd, if_true, ih ht]

theorem takeWhile_not_slash_self (name : List Char) (h : '/' ∉ name) :
    name.takeWhile (fun c => decide (c ≠ '/')) = name := by
  rw [List.takeWhile_eq_self_iff]
  intro c hc
  simp only [decide_eq_true_eq]
  exact fun h2 => h (h2 ▸ hc)

theorem evicted_by_of_under {mtch filename name q : CStr}
    (hf : after_last_slash mtch = some filename)
    (hname : '/' ∉ name) (hstr : strstr name filename = true)
    (hu : is_under (before_last_slash mtch ++ '/' :: name) q = true) :
    evicted_by mtch q = true := by
  unfold evicted_by
  simp only [hf, Bool.and_eq_true]
  rw [is_under_iff] at hu
  rcases hu with rfl | ⟨r, rfl⟩
  · constructor
    · rw [starts_with_iff]; exact ⟨name, by simp⟩
    · have : List.drop ((before_last_slash mtch).length + 1)
          (before_last_slash mtch ++ '/' :: name) = name := by
        rw [List.drop_append_eq_append_drop]
        simp
      rw [this, takeWhile_not_slash_self name hname]
      exact hstr
  · constructor
    · rw [starts_with_iff]; exact ⟨name ++ '/' :: r, by simp⟩
    · have : List.drop ((before_last_slash mtch).length + 1)
          (before_last_slash mtch ++ '/' :: name ++ '/' :: r) = name ++ '/' :: r := by
        rw [List.append_assoc, List.drop_append_eq_append_drop]
        simp
      rw [this, takeWhile_not_slash name r hname]
      exact hstr

theorem rmfr_match_loop_keep (path filename q : CStr) (names : List CStr)
    (hnames : ∀ name ∈ names, strstr name filename = true →
      is_under (path ++ '/' :: name) q = false) :
    ∀ w : World, fs_lookup q (names.foldl (fun (acc : World) (name : CStr) =>
        if strstr name filename then (rmfr acc (path ++ '/' :: name)).2 else acc) w).fs
      = fs_lookup q w.fs := by
  induction names with
  | nil => intro w; rfl
  | cons n rest ih =>
    intro w
    simp only [List.foldl_cons]
    rw [ih (fun name hn => hnames name (List.mem_cons_of_mem _ hn))]
    by_cases hs : strstr n filename = true
    · rw [if_pos hs]
      exact rmfr_lookup_keep w _ q (hnames n (List.mem_cons_self _ _) hs)
    · rw [if_neg hs]

theorem rmfr_match_keep (w : World) (mtch q : CStr) (h : evicted_by mtch q = false) :
    fs_lookup q (rmfr_match w mtch).2.fs = fs_lookup q w.fs := by
  unfold rmfr_match
  cases hf : after_last_slash mtch with
  | none => rfl
  | some filename =>
    simp only
    split_ifs with hd
    · simp only
      apply rmfr_match_loop_keep
      intro name hn hs
      rw [List.mem_reverse] at hn
      by_contra hcon
      have hu : is_under (before_last_slash mtch ++ '/' :: name) q = true := by
        simpa using hcon
      have := evicted_by_of_under hf (mem_scandir hn).2 hs hu
      rw [h] at this
      exact absurd this (by decide)
    · rfl

theorem create_crash_folder_keep (env : Env) (w : World) (p q : CStr)
    (h : (fs_lookup q w.fs).isSome = true) :
    fs_lookup q (create_crash_folder env w p).2.fs = fs_lookup q w.fs := by
  have hm : fs_lookup q (mkdir env w p).2.fs = fs_lookup q w.fs := by
    unfold mkdir
    split_ifs with h1 h2
    · rfl
    · rfl
    · simp only
      have hne : q ≠ p := by
        intro heq; subst heq; exact h2 h
      exact fs_lookup_store_other hne _ _
  unfold create_crash_folder
  simp only [check_partlogfull, raise_infoerror]
  split_ifs <;> simp only [hm]

theorem read_file_counter (env : Env) (w : World) (filename : CStr) (c : Nat)
    (hc : c < 10000)
    (hcnt : fs_lookup filename w.fs = some (Node.file (fmt_4u c)))
    (h : ¬ (read_file env w filename).1 < 0) :
    read_file env w filename = (0, c, w) := by
  unfold read_file at h ⊢
  simp only [hcnt] at h ⊢
  by_cases hf : env.fault Sys.fopen_r filename ≠ 0
  · rw [if_pos hf] at h
    simp at h
  · rw [if_neg hf] at h ⊢
    simp only [scan_4u_fmt_4u c hc, Option.getD_some] at h ⊢
    unfold close_file at h ⊢
    by_cases hcl : env.fault Sys.fclose filename ≠ 0
    · rw [if_pos hcl] at h
      simp at h
    · rw [if_neg hcl]

theorem update_file_counter (env : Env) (w : World) (filename : CStr) (c : Nat)
    (hm : env.gmaxfiles ≤ 10000) (hc : c < env.gmaxfiles)
    (hcnt : fs_lookup filename w.fs = some (Node.file (fmt_4u c)))
    (h : ¬ (update_file env w filename c).1 < 0) :
    update_file env w filename c
      = (0, { w with
          fs := fs_store filename (Node.file (fmt_4u ((c + 1) % env.gmaxfiles))) w.fs }) := by
  have hmod : (c + 1) % 4294967296 % env.gmaxfiles = (c + 1) % env.gmaxfiles := by
    rw [Nat.mod_eq_of_lt (show c + 1 < 4294967296 by omega)]
  have hlt : (c + 1) % env.gmaxfiles < 10000 :=
    lt_of_lt_of_le (Nat.mod_lt _ (by omega)) hm
  have hdrop : (fmt_4u c).drop (fmt_4u ((c + 1) % env.gmaxfiles)).length = [] := by
    apply List.drop_eq_nil_of_le
    rw [fmt_4u_length _ hlt, fmt_4u_length _ (by omega)]
  unfold update_file at h ⊢
  simp only [hcnt, hmod] at h ⊢
  by_cases h1 : env.fault Sys.fopen_rw filename ≠ 0
  · rw [if_pos h1] at h; simp at h
  · rw [if_neg h1] at h ⊢
    by_cases h2 : env.fault Sys.fprintf filename ≠ 0
    · rw [if_pos h2] at h; simp at h
    · rw [if_neg h2] at h ⊢
      by_cases h3 : close_file env filename ≠ 0
      · rw [if_pos h3] at h
        exfalso; apply h
        unfold close_file at h3 ⊢
        split_ifs at h3 ⊢ with h4
        · simp
        · exact absurd rfl h3
      · rw [if_neg h3, hdrop, List.append_nil]

theorem reserve_crash_folder_counter (env : Env) (w : World) (mode : e_dir_mode_t) (c : Nat)
    (x : CStr × Nat) (w1 : World)
    (hm : env.gmaxfiles ≤ 10000) (hc : c < env.gmaxfiles)
    (hcnt : fs_lookup (mode_paths env mode).1 w.fs = some (Node.file (fmt_4u c)))
    (h : reserve_crash_folder env w mode = (some x, w1)) :
    x = ((mode_paths env mode).2, c) ∧
    w1 = { w with
      fs := fs_store (mode_paths env mode).1
        (Node.file (fmt_4u ((c + 1) % env.gmaxfiles))) w.fs } := by
  unfold reserve_crash_folder at h
  simp only at h
  split_ifs at h with h1 h2 h3
  · simp at h
  · simp at h
  · simp at h
  · have hr := read_file_counter env w (mode_paths env mode).1 c (by omega) hcnt h2
    rw [hr] at h3 h
    simp only at h3 h
    have hu := update_file_counter env w (mode_paths env mode).1 c hm hc hcnt h3
    rw [hu] at h
    simp only [Prod.mk.injEq, Option.some.injEq] at h
    exact ⟨h.1.symm, h.2.symm⟩

theorem history_step_fs (w : World) (path : CStr) :
    (if directory_exists w path = true then history_delete w path else w).fs = w.fs := by
  split_ifs <;> rfl

theorem generate_crashlog_dir_step (env : Env) (w : World) (mode : e_dir_mode_t)
    (unique : CStr) (c : Nat)
    (hm : env.gmaxfiles ≤ 10000) (hc : c < env.gmaxfiles)
    (hcnt : fs_lookup (mode_paths env mode).1 w.fs = some (Node.file (fmt_4u c)))
    (hsafe : evicted_by (slot_match env (mode_paths env mode).2 c) (mode_paths env mode).1
      = false)
    (hok : (generate_crashlog_dir env w mode unique).1.isSome = true) :
    (generate_crashlog_dir env w mode unique).1
      = some (slot_path env (mode_paths env mode).2 c unique) ∧
    fs_lookup (mode_paths env mode).1 (generate_crashlog_dir env w mode unique).2.fs
      = some (Node.file (fmt_4u ((c + 1) % env.gmaxfiles))) := by
  unfold generate_crashlog_dir at hok ⊢
  generalize hr : reserve_crash_folder env w mode = r at hok ⊢
  match r, hr with
  | (o, w1), hr =>
    cases o with
    | none => simp at hok
    | some x =>
      obtain ⟨hx, hw1⟩ := reserve_crash_folder_counter env w mode c x w1 hm hc hcnt hr
      subst hx
      simp only at hok ⊢
      have hc1 : fs_lookup (mode_paths env mode).1 w1.fs
          = some (Node.file (fmt_4u ((c + 1) % env.gmaxfiles))) := by
        rw [hw1]; exact fs_lookup_store_self _ _ _
      have hc2 : fs_lookup (mode_paths env mode).1
          (rmfr_match w1 (slot_match env (mode_paths env mode).2 c)).2.fs
          = some (Node.file (fmt_4u ((c + 1) % env.gmaxfiles))) := by
        rw [rmfr_match_keep _ _ _ hsafe]; exact hc1
      have hc3 := create_crash_folder_keep env
        (if directory_exists (rmfr_match w1 (slot_match env (mode_paths env mode).2 c)).2
            (slot_path env (mode_paths env mode).2 c unique) = true
          then history_delete (rmfr_match w1 (slot_match env (mode_paths env mode).2 c)).2
            (slot_path env (mode_paths env mode).2 c unique)
          else (rmfr_match w1 (slot_match env (mode_paths env mode).2 c)).2)
        (slot_path env (mode_paths env mode).2 c unique) (mode_paths env mode).1
        (by rw [history_step_fs, hc2]; rfl)
      rw [history_step_fs, hc2] at hc3
      generalize (if directory_exists (rmfr_match w1 (slot_match env (mode_paths env mode).2 c)).2
            (slot_path env (mode_paths env mode).2 c unique) = true
          then history_delete (rmfr_match w1 (slot_match env (mode_paths env mode).2 c)).2
            (slot_path env (mode_paths env mode).2 c unique)
          else (rmfr_match w1 (slot_match env (mode_paths env mode).2 c)).2) = w3 at hok hc3 ⊢
      by_cases hneg : (create_crash_folder env w3
          (slot_path env (mode_paths env mode).2 c unique)).1 < 0
      · rw [if_pos hneg] at hok; simp at hok
      · rw [if_neg hneg]; exact ⟨rfl, hc3⟩

theorem find_new_crashlog_dir_step (env : Env) (w : World) (mode : e_dir_mode_t) (c : Nat)
    (hm : env.gmaxfiles ≤ 10000) (hc : c < env.gmaxfiles)
    (hcnt : fs_lookup (mode_paths env mode).1 w.fs = some (Node.file (fmt_4u c)))
    (hsafe : is_under (snprintf env.PATHMAX
      ((mode_paths env mode).2 ++ fmt_int (toInt32 (Int.ofNat c)))) (mode_paths env mode).1
      = false)
    (hok : (find_new_crashlog_dir env w mode).1 ≠ -1) :
    (find_new_crashlog_dir env w mode).1 = Int.ofNat c ∧
    fs_lookup (mode_paths env mode).1 (find_new_crashlog_dir env w mode).2.fs
      = some (Node.file (fmt_4u ((c + 1) % env.gmaxfiles))) := by
  unfold find_new_crashlog_dir at hok ⊢
  generalize hr : reserve_crash_folder env w mode = r at hok ⊢
  match r, hr with
  | (o, w1), hr =>
    cases o with
    | none => simp at hok
    | some x =>
      obtain ⟨hx, hw1⟩ := reserve_crash_folder_counter env w mode c x w1 hm hc hcnt hr
      subst hx
      simp only at hok ⊢
      have hc1 : fs_lookup (mode_paths env mode).1 w1.fs
          = some (Node.file (fmt_4u ((c + 1) % env.gmaxfiles))) := by
        rw [hw1]; exact fs_lookup_store_self _ _ _
      generalize hp : snprintf env.PATHMAX
        ((mode_paths env mode).2 ++ fmt_int (toInt32 (Int.ofNat c))) = path at hsafe hok ⊢
      have hc2 : fs_lookup (mode_paths env mode).1
          (rmfr (if directory_exists w1 path = true then history_delete w1 path else w1)
            path).2.fs = some (Node.file (fmt_4u ((c + 1) % env.gmaxfiles))) := by
        rw [rmfr_lookup_keep _ _ _ hsafe, history_step_fs]; exact hc1
      have hc3 := create_crash_folder_keep env
        (rmfr (if directory_exists w1 path = true then history_delete w1 path else w1) path).2
        path (mode_paths env mode).1 (by rw [hc2]; rfl)
      rw [hc2] at hc3
      have h32 : toInt32 (Int.ofNat c) = Int.ofNat c :=
        toInt32_of_range (by simp only [Int.ofNat_eq_coe]; omega)
          (by simp only [Int.ofNat_eq_coe]; omega)
      generalize (rmfr (if directory_exists w1 path = true then history_delete w1 path
        else w1) path).2 = w3 at hok hc3 ⊢
      by_cases hneg : (create_crash_folder env w3 path).1 < 0
      · rw [if_pos hneg] at hok; simp at hok
      · rw [if_neg hneg]; exact ⟨h32, hc3⟩

theorem serve_step (env : Env) (w : World) (mode : e_dir_mode_t) (req : Request) (c : Nat)
    (hm : env.gmaxfiles ≤ 10000) (hc : c < env.gmaxfiles)
    (hcnt : fs_lookup (mode_paths env mode).1 w.fs = some (Node.file (fmt_4u c)))
    (hsafe1 : evicted_by (slot_match env (mode_paths env mode).2 c) (mode_paths env mode).1
      = false)
    (hsafe2 : is_under (snprintf env.PATHMAX
      ((mode_paths env mode).2 ++ fmt_int (toInt32 (Int.ofNat c)))) (mode_paths env mode).1
      = false)
    (hok : (serve env mode w req).1.ok = true) :
    (serve env mode w req).1 = expected_reply env (mode_paths env mode).2 c req ∧
    fs_lookup (mode_paths env mode).1 (serve env mode w req).2.fs
      = some (Node.file (fmt_4u ((c + 1) % env.gmaxfiles))) := by
  cases req with
  | generate unique =>
    simp only [serve, Reply.ok] at hok ⊢
    obtain ⟨h1, h2⟩ := generate_crashlog_dir_step env w mode unique c hm hc hcnt hsafe1 hok
    exact ⟨by rw [h1]; rfl, h2⟩
  | find_new =>
    simp only [serve, Reply.ok, decide_eq_true_eq] at hok ⊢
    obtain ⟨h1, h2⟩ := find_new_crashlog_dir_step env w mode c hm hc hcnt hsafe2 hok
    exact ⟨by rw [h1]; rfl, h2⟩

theorem serve_all_requests (env : Env) (mode : e_dir_mode_t) (reqs : List Request) :
    ∀ w : World, (serve_all env mode w reqs).map (fun t => t.1) = reqs := by
  induction reqs with
  | nil => intro w; rfl
  | cons r rs ih => intro w; simp [serve_all, ih]

theorem round_robin_steps (env : Env) (mode : e_dir_mode_t) (reqs : List Request)
    (hm1 : 1 ≤ env.gmaxfiles) (hm2 : env.gmaxfiles ≤ 10000)
    (hsafe1 : ∀ i, i < env.gmaxfiles →
      evicted_by (slot_match env (mode_paths env mode).2 i) (mode_paths env mode).1 = false)
    (hsafe2 : ∀ i, i < env.gmaxfiles →
      is_under (snprintf env.PATHMAX
        ((mode_paths env mode).2 ++ fmt_int (toInt32 (Int.ofNat i)))) (mode_paths env mode).1
        = false) :
    ∀ (w : World) (c : Nat), c < env.gmaxfiles →
      fs_lookup (mode_paths env mode).1 w.fs = some (Node.file (fmt_4u c)) →
      (∀ t ∈ serve_all env mode w reqs, t.2.1.ok = true) →
      (serve_all env mode w reqs).map (fun t => t.1) = reqs ∧
      ∀ (k : Nat) (h : k < (serve_all env mode w reqs).length),
        ((serve_all env mode w reqs)[k]).2.1
          = expected_reply env (mode_paths env mode).2 ((c + k) % env.gmaxfiles)
              ((serve_all env mode w reqs)[k]).1 ∧
        fs_lookup (mode_paths env mode).1 ((serve_all env mode w reqs)[k]).2.2.fs
          = some (Node.file (fmt_4u ((c + k + 1) % env.gmaxfiles))) ∧
        (fmt_4u ((c + k + 1) % env.gmaxfiles)).length = 4 ∧
        scan_4u (fmt_4u ((c + k + 1) % env.gmaxfiles)) = some ((c + k + 1) % env.gmaxfiles) ∧
        (¬ (read_file env ((serve_all env mode w reqs)[k]).2.2 (mode_paths env mode).1).1 < 0 →
          read_file env ((serve_all env mode w reqs)[k]).2.2 (mode_paths env mode).1
            = (0, (c + k + 1) % env.gmaxfiles, ((serve_all env mode w reqs)[k]).2.2)) := by
  induction reqs with
  | nil =>
    intro w c _ _ _
    exact ⟨rfl, fun k h => absurd h (by simp [serve_all])⟩
  | cons r rs ih =>
    intro w c hc hcnt hok
    refine ⟨serve_all_requests env mode (r :: rs) w, ?_⟩
    have hok0 : (serve env mode w r).1.ok = true :=
      hok (r, serve env mode w r) (by simp [serve_all])
    obtain ⟨h1, h2⟩ := serve_step env w mode r c hm2 hc hcnt (hsafe1 c hc) (hsafe2 c hc) hok0
    have hc' : (c + 1) % env.gmaxfiles < env.gmaxfiles := Nat.mod_lt _ (by omega)
    have hrest := (ih (serve env mode w r).2 ((c + 1) % env.gmaxfiles) hc' h2
      (fun t ht => hok t (by simp [serve_all, ht]))).2
    intro k h
    have hlt : ∀ v, v % env.gmaxfiles < 10000 := fun v =>
      lt_of_lt_of_le (Nat.mod_lt _ (by omega)) hm2
    cases k with
    | zero =>
      simp only [serve_all, List.getElem_cons_zero, Nat.add_zero]
      rw [Nat.mod_eq_of_lt hc]
      exact ⟨h1, h2, fmt_4u_length _ (hlt _), scan_4u_fmt_4u _ (hlt _),
        fun hrd => read_file_counter env _ _ _ (hlt _) h2 hrd⟩
    | succ k =>
      simp only [serve_all, List.getElem_cons_succ]
      have hk : k < (serve_all env mode (serve env mode w r).2 rs).length := by
        simpa [serve_all] using h
      have e1 : ((c + 1) % env.gmaxfiles + k) % env.gmaxfiles = (c + (k + 1)) % env.gmaxfiles := by
        rw [Nat.add_mod, Nat.mod_mod, ← Nat.add_mod]; congr 1; omega
      have e2 : ((c + 1) % env.gmaxfiles + k + 1) % env.gmaxfiles
          = (c + (k + 1) + 1) % env.gmaxfiles := by
        rw [Nat.add_assoc, Nat.add_mod, Nat.mod_mod, ← Nat.add_mod]; congr 1; omega
      have := hrest k hk
      rw [e1, e2] at this
      exact this

theorem fs_lookup_some_mem {q : CStr} {fs : FileSys} (h : (fs_lookup q fs).isSome = true) :
    ∃ e ∈ fs, e.1 = q := by
  induction fs with
  | nil => simp [fs_lookup] at h
  | cons e r ih =>
    by_cases he : e.1 = q
    · exact ⟨e, List.mem_cons_self _ _, he⟩
    · simp only [fs_lookup, if_neg he] at h
      obtain ⟨e', h1, h2⟩ := ih h
      exact ⟨e', List.mem_cons_of_mem _ h1, h2⟩

theorem no_orphans_spec {fs : FileSys} (h : no_orphans fs = true) (a rest : CStr)
    (ha : a ≠ []) (hex : (fs_lookup (a ++ '/' :: rest) fs).isSome = true) :
    fs_lookup a fs = some Node.dir := by
  obtain ⟨e, he, heq⟩ := fs_lookup_some_mem hex
  unfold no_orphans at h
  rw [List.all_eq_true] at h
  have h1 := h e he
  rw [List.all_eq_true] at h1
  have h2 := h1 a.length (by rw [List.mem_range, heq]; simp)
  have hpos : 0 < a.length := List.length_pos.mpr ha
  have hd : (e.1.drop a.length).head? = some '/' := by rw [heq]; simp
  have ht : e.1.take a.length = a := by rw [heq]; simp
  simpa [hpos, hd, ht] using h2

theorem after_last_slash_append (D X : CStr) (hX : '/' ∉ X) :
    after_last_slash (D ++ '/' :: X) = some X := by
  unfold after_last_slash
  rw [if_pos (by simp)]
  congr 1
  have : (D ++ '/' :: X).reverse = X.reverse ++ '/' :: D.reverse := by simp
  rw [this, takeWhile_not_slash X.reverse D.reverse (by simpa using hX)]
  simp

theorem dropWhile_not_slash (name r : List Char) (h : '/' ∉ name) :
    (name ++ '/' :: r).dropWhile (fun c => decide (c ≠ '/')) = '/' :: r := by
  induction name with
  | nil => simp [List.dropWhile]
  | cons a t ih =>
    have ha : a ≠ '/' := fun h2 => h (by simp [h2])
    have ht : '/' ∉ t := fun h2 => h (by simp [h2])
    have hd : decide (a ≠ '/') = true := by simpa using ha
    rw [List.cons_append, List.dropWhile_cons]
    simp only [hd, if_true, ih ht]

theorem before_last_slash_append (D X : CStr) (hX : '/' ∉ X) :
    before_last_slash (D ++ '/' :: X) = D := by
  unfold before_last_slash
  have : (D ++ '/' :: X).reverse = X.reverse ++ '/' :: D.reverse := by simp
  rw [this, dropWhile_not_slash X.reverse D.reverse (by simpa using hX)]
  simp

theorem slash_not_in_fmt_int (x : Int) : '/' ∉ fmt_int x := by
  unfold fmt_int fmt_d
  intro h
  split_ifs at h
  · rcases List.mem_cons.mp h with h | h
    · exact absurd h (by decide)
    · exact absurd (fmt_prec_d_all_digits _ _ '/' h) (by decide)
  · exact absurd (fmt_prec_d_all_digits _ _ '/' h) (by decide)

theorem strstr_of_starts_with {s p : CStr} (h : starts_with s p = true) : strstr s p = true := by
  unfold strstr
  rw [List.any_eq_true]
  refine ⟨s, by simp, ?_⟩
  unfold starts_with at h
  exact h

theorem is_under_disjoint {D n name q : CStr} (hn : '/' ∉ n) (hname : '/' ∉ name)
    (h1 : is_under (D ++ '/' :: n) q = true) (h2 : is_under (D ++ '/' :: name) q = true) :
    n = name := by
  have key : ∀ (x y t : CStr), '/' ∉ x → '/' ∉ y → x ++ '/' :: t = y → False := by
    intro x y t _ hy h
    exact hy (by rw [← h]; simp)
  have key2 : ∀ (x y t u : CStr), '/' ∉ x → '/' ∉ y → x ++ '/' :: t = y ++ '/' :: u → x = y := by
    intro x y t u hx hy h
    have := congrArg (List.takeWhile (fun c => decide (c ≠ '/'))) h
    rwa [takeWhile_not_slash x t hx, takeWhile_not_slash y u hy] at this
  rw [is_under_iff] at h1 h2
  rcases h1 with rfl | ⟨r1, rfl⟩
  · rcases h2 with h2 | ⟨r2, h2⟩
    · simpa using h2
    · have : n = name ++ '/' :: r2 := by simpa [List.append_assoc] using h2
      exact absurd this.symm (fun h => key name n r2 hname hn h)
  · rcases h2 with h2 | ⟨r2, h2⟩
    · have : n ++ '/' :: r1 = name := by simpa [List.append_assoc] using h2
      exact absurd this (fun h => key n name r1 hn hname h)
    · have : n ++ '/' :: r1 = name ++ '/' :: r2 := by simpa [List.append_assoc] using h2
      exact key2 n name r1 r2 hn hname this

theorem is_under_trans {a b c : CStr} (h1 : is_under a b = true) (h2 : is_under b c = true) :
    is_under a c = true := by
  rw [is_under_iff] at h1 h2 ⊢
  rcases h1 with rfl | ⟨r1, rfl⟩
  · exact h2
  · rcases h2 with rfl | ⟨r2, rfl⟩
    · exact Or.inr ⟨r1, rfl⟩
    · exact Or.inr ⟨r1 ++ '/' :: r2, by simp⟩

theorem rmfr_lookup_sub (w : World) (p q : CStr) (v : Node)
    (h : fs_lookup q (rmfr w p).2.fs = some v) : fs_lookup q w.fs = some v := by
  rw [rmfr_lookup] at h
  split_ifs at h
  exact h

theorem rmfr_match_loop_sub (path filename q : CStr) (v : Node) (names : List CStr) :
    ∀ w : World, fs_lookup q (names.foldl (fun (acc : World) (name : CStr) =>
        if strstr name filename then (rmfr acc (path ++ '/' :: name)).2 else acc) w).fs
      = some v → fs_lookup q w.fs = some v := by
  induction names with
  | nil => intro w h; exact h
  | cons n rest ih =>
    intro w h
    simp only [List.foldl_cons] at h
    have h2 := ih _ h
    split_ifs at h2
    · exact rmfr_lookup_sub w _ q v h2
    · exact h2

theorem rmfr_match_sub (w : World) (mtch q : CStr) (v : Node)
    (h : fs_lookup q (rmfr_match w mtch).2.fs = some v) : fs_lookup q w.fs = some v := by
  unfold rmfr_match at h
  split at h
  · exact h
  · simp only at h
    split_ifs at h
    · exact rmfr_match_loop_sub _ _ q v _ w h
    · exact h

theorem rmfr_match_loop_removes (D filename name : CStr) (hname : '/' ∉ name)
    (hstr : strstr name filename = true) (names : List CStr)
    (hnames : ∀ n ∈ names, '/' ∉ n) :
    ∀ w : World,
      ((name ∈ names ∧ (fs_lookup (D ++ '/' :: name) w.fs).isSome = true) ∨
        (∀ q, is_under (D ++ '/' :: name) q = true → fs_lookup q w.fs = none)) →
      ∀ q, is_under (D ++ '/' :: name) q = true →
        fs_lookup q (names.foldl (fun (acc : World) (n : CStr) =>
          if strstr n filename then (rmfr acc (D ++ '/' :: n)).2 else acc) w).fs = none := by
  induction names with
  | nil =>
    intro w h q hq
    rcases h with ⟨h, _⟩ | h
    · simp at h
    · exact h q hq
  | cons n rest ih =>
    intro w h q hq
    simp only [List.foldl_cons]
    apply ih (fun m hm => hnames m (List.mem_cons_of_mem _ hm)) _ _ q hq
    rcases h with ⟨hmem, hex⟩ | hQ
    · by_cases hs : strstr n filename = true
      · rw [if_pos hs]
        by_cases hn : n = name
        · subst hn
          right
          intro q2 hq2
          rw [rmfr_lookup, if_pos ⟨hex, hq2⟩]
        · left
          have hmem2 : name ∈ rest := by
            rcases List.mem_cons.mp hmem with h | h
            · exact absurd h.symm hn
            · exact h
          refine ⟨hmem2, ?_⟩
          rw [rmfr_lookup_keep]
          · exact hex
          · by_contra hcon
            have hu : is_under (D ++ '/' :: n) (D ++ '/' :: name) = true := by simpa using hcon
            have hself : is_under (D ++ '/' :: name) (D ++ '/' :: name) = true := by
              rw [is_under_iff]; exact Or.inl rfl
            exact hn (is_under_disjoint (hnames n (List.mem_cons_self _ _)) hname hu hself)
      · rw [if_neg hs]
        left
        have hn : n ≠ name := fun h => hs (h ▸ hstr)
        have hmem2 : name ∈ rest := by
          rcases List.mem_cons.mp hmem with h | h
          · exact absurd h.symm hn
          · exact h
        exact ⟨hmem2, hex⟩
    · right
      intro q2 hq2
      split_ifs
      · rw [rmfr_lookup]
        split_ifs
        · rfl
        · exact hQ q2 hq2
      · exact hQ q2 hq2

theorem child_name_of_entry (D name : CStr) (hne : name ≠ []) (hname : '/' ∉ name) :
    child_name D (D ++ '/' :: name) = some name := by
  unfold child_name
  have h1 : starts_with (D ++ '/' :: name) (D ++ ['/']) = true := by
    rw [starts_with_iff]; exact ⟨name, by simp⟩
  have h2 : List.drop (D.length + 1) (D ++ '/' :: name) = name := by
    rw [List.drop_append_eq_append_drop]; simp
  rw [h2, if_pos ⟨h1, hne, hname⟩]

theorem mem_scandir_of_entry {fs : FileSys} {D name : CStr} (hne : name ≠ [])
    (hname : '/' ∉ name) (hex : (fs_lookup (D ++ '/' :: name) fs).isSome = true) :
    name ∈ scandir fs D := by
  obtain ⟨e, he, heq⟩ := fs_lookup_some_mem hex
  unfold scandir
  rw [List.mem_filterMap]
  exact ⟨e, he, by rw [heq]; exact child_name_of_entry D name hne hname⟩

theorem rmfr_match_removes (w : World) (D pre name q : CStr) (hpre : '/' ∉ pre)
    (hD : fs_lookup D w.fs = some Node.dir) (hne : name ≠ []) (hname : '/' ∉ name)
    (hex : (fs_lookup (D ++ '/' :: name) w.fs).isSome = true)
    (hstr : strstr name pre = true) (hq : is_under (D ++ '/' :: name) q = true) :
    fs_lookup q (rmfr_match w (D ++ '/' :: pre)).2.fs = none := by
  unfold rmfr_match
  rw [after_last_slash_append D pre hpre]
  simp only [before_last_slash_append D pre hpre, if_pos hD]
  apply rmfr_match_loop_removes D pre name hname hstr _ _ w _ q hq
  · intro n hn
    rw [List.mem_reverse] at hn
    exact (mem_scandir hn).2
  · left
    exact ⟨by rw [List.mem_reverse]; exact mem_scandir_of_entry hne hname hex, hex⟩

theorem rmfr_match_frame (w : World) (mtch : CStr) :
    (rmfr_match w mtch).2.partlogfull_errorset = w.partlogfull_errorset ∧
    (rmfr_match w mtch).2.infoerrors = w.infoerrors ∧
    (rmfr_match w mtch).2.history_deleted = w.history_deleted := by
  have hloop : ∀ (path filename : CStr) (names : List CStr) (w : World),
      (names.foldl (fun (acc : World) (name : CStr) =>
        if strstr name filename then (rmfr acc (path ++ '/' :: name)).2 else acc)
        w).partlogfull_errorset = w.partlogfull_errorset ∧
      (names.foldl (fun (acc : World) (name : CStr) =>
        if strstr name filename then (rmfr acc (path ++ '/' :: name)).2 else acc)
        w).infoerrors = w.infoerrors ∧
      (names.foldl (fun (acc : World) (name : CStr) =>
        if strstr name filename then (rmfr acc (path ++ '/' :: name)).2 else acc)
        w).history_deleted = w.history_deleted := by
    intro path filename names
    induction names with
    | nil => intro w; exact ⟨rfl, rfl, rfl⟩
    | cons n rest ih =>
      intro w
      simp only [List.foldl_cons]
      obtain ⟨h1, h2, h3⟩ := ih (if strstr n filename then (rmfr w (path ++ '/' :: n)).2 else w)
      rw [h1, h2, h3]
      split_ifs
      · exact rmfr_frame w _
      · exact ⟨rfl, rfl, rfl⟩
  unfold rmfr_match
  split
  · exact ⟨rfl, rfl, rfl⟩
  · simp only
    split_ifs
    · exact hloop _ _ _ w
    · exact ⟨rfl, rfl, rfl⟩

theorem create_crash_folder_ok (env : Env) (w : World) (p : CStr)
    (h : ¬ (create_crash_folder env w p).1 < 0) :
    fs_lookup p w.fs = none ∧
    (create_crash_folder env w p).2 = { w with fs := fs_store p Node.dir w.fs } := by
  unfold create_crash_folder at h ⊢
  unfold mkdir at h ⊢
  by_cases h1 : env.fault Sys.mkdir p ≠ 0
  · exfalso; apply h
    simp only [if_pos h1, ne_eq, h1, not_false_eq_true, if_true]
    split_ifs <;> simp
  · simp only [if_neg h1] at h ⊢
    by_cases h2 : (fs_lookup p w.fs).isSome = true
    · exfalso; apply h
      simp only [if_pos h2]
      have : EEXIST ≠ 0 := by decide
      have h3 : ¬ EEXIST = ENOSPC := by decide
      simp [this, h3]
    · simp only [if_neg h2, ne_eq, not_true_eq_false, if_false, and_true]
      simpa using h2

theorem snprintf_fits {size : Nat} {s : CStr} (h : s.length < size) : snprintf size s = s := by
  unfold snprintf
  exact List.take_of_length_le (by omega)


/-! ## Theorems about the slot allocator -/

/-- C1: with `gmaxfiles` in 1..10000 and a counter file that holds `c < gmaxfiles`
(as `update_file` persists it), consecutive successful reservations of one mode,
`generate_crashlog_dir` or `find_new_crashlog_dir` in any order, are answered with
the slot indices `c`, `(c+1) % gmaxfiles`, ... in that order; after the reservation
number `k` the counter file holds `(c+k+1) % gmaxfiles` printed as `%4u`, four
characters wide, which `fscanf("%4u")` of `read_file` parses back to that value.
The counter file is not itself a slot entry (no eviction pattern of the mode
matches it). -/
theorem rotation_round_robin (env : Env) (mode : e_dir_mode_t) (w : World)
    (reqs : List Request) (c : Nat)
    (hm1 : 1 ≤ env.gmaxfiles) (hm2 : env.gmaxfiles ≤ 10000) (hc : c < env.gmaxfiles)
    (hcnt : fs_lookup (mode_paths env mode).1 w.fs = some (Node.file (fmt_4u c)))
    (hsafe1 : ∀ i, i < env.gmaxfiles →
      evicted_by (slot_match env (mode_paths env mode).2 i) (mode_paths env mode).1 = false)
    (hsafe2 : ∀ i, i < env.gmaxfiles →
      is_under (snprintf env.PATHMAX
        ((mode_paths env mode).2 ++ fmt_int (toInt32 (Int.ofNat i)))) (mode_paths env mode).1
        = false)
    (hok : ∀ t ∈ serve_all env mode w reqs, t.2.1.ok = true) :
    (serve_all env mode w reqs).map (fun t => t.1) = reqs ∧
    ∀ (k : Nat) (h : k < (serve_all env mode w reqs).length),
      ((serve_all env mode w reqs)[k]).2.1
        = expected_reply env (mode_paths env mode).2 ((c + k) % env.gmaxfiles)
            ((serve_all env mode w reqs)[k]).1 ∧
      fs_lookup (mode_paths env mode).1 ((serve_all env mode w reqs)[k]).2.2.fs
        = some (Node.file (fmt_4u ((c + k + 1) % env.gmaxfiles))) ∧
      (fmt_4u ((c + k + 1) % env.gmaxfiles)).length = 4 ∧
      scan_4u (fmt_4u ((c + k + 1) % env.gmaxfiles)) = some ((c + k + 1) % env.gmaxfiles) ∧
        (¬ (read_file env ((serve_all env mode w reqs)[k]).2.2 (mode_paths env mode).1).1 < 0 →
          read_file env ((serve_all env mode w reqs)[k]).2.2 (mode_paths env mode).1
            = (0, (c + k + 1) % env.gmaxfiles, ((serve_all env mode w reqs)[k]).2.2)) :=
  round_robin_steps env mode reqs hm1 hm2 hsafe1 hsafe2 w c hc hcnt hok

set_option maxRecDepth 100000 in
theorem rotation_round_robin_witness :
    (serve_all demo_env e_dir_mode_t.MODE_CRASH slot_world
      [Request.generate "a".toList, Request.find_new, Request.generate "b".toList]).map
      (fun t => t.1)
      = [Request.generate "a".toList, Request.find_new, Request.generate "b".toList] :=
  (rotation_round_robin demo_env e_dir_mode_t.MODE_CRASH slot_world
    [Request.generate "a".toList, Request.find_new, Request.generate "b".toList] 8
    (by decide) (by decide) (by decide) (by decide) (by decide) (by decide) (by decide)).1

/-- C2: let the base directory of the mode be `D/P` (so that slot `i` is the entry
`P<i>_<unique>` of directory `D`), let the reservation hand out index `i`, let the
assembled path fit `PATHMAX`, and let the file system be well formed when the
eviction starts. If `generate_crashlog_dir` returns `p`, then `p` is
`D/P<i>_<unique>`, it did not exist after the eviction (it is newly created), it
is a directory with nothing below it, and it is the only entry of `D` whose name
starts with `P<i>_`. Likewise, if `find_new_crashlog_dir` succeeds it returns `i`
and `D/P<i>` is a directory with nothing below it. -/
theorem generate_crashlog_dir_fresh_slot (env : Env) (w : World) (mode : e_dir_mode_t)
    (unique D P : CStr) (i : Nat)
    (hdir : (mode_paths env mode).2 = D ++ '/' :: P) (hD : D ≠ []) (hP : '/' ∉ P)
    (hu : '/' ∉ unique)
    (hres : (reserve_crash_folder env w mode).1 = some ((mode_paths env mode).2, i))
    (hfit : (D ++ '/' :: (P ++ fmt_int (toInt32 (Int.ofNat i)) ++ '_' :: unique)).length
      < env.PATHMAX)
    (hwf : no_orphans (reserve_crash_folder env w mode).2.fs = true) :
    (∀ p, (generate_crashlog_dir env w mode unique).1 = some p →
      p = D ++ '/' :: (P ++ fmt_int (toInt32 (Int.ofNat i)) ++ '_' :: unique) ∧
      fs_lookup p (rmfr_match (reserve_crash_folder env w mode).2
        (slot_match env (mode_paths env mode).2 i)).2.fs = none ∧
      fs_lookup p (generate_crashlog_dir env w mode unique).2.fs = some Node.dir ∧
      (∀ q, is_under p q = true → q ≠ p →
        fs_lookup q (generate_crashlog_dir env w mode unique).2.fs = none) ∧
      (∀ name, '/' ∉ name →
        starts_with name (P ++ fmt_int (toInt32 (Int.ofNat i)) ++ ['_']) = true →
        (fs_lookup (D ++ '/' :: name) (generate_crashlog_dir env w mode unique).2.fs).isSome
          = true →
        D ++ '/' :: name = p)) ∧
    ((find_new_crashlog_dir env w mode).1 ≠ -1 →
      (find_new_crashlog_dir env w mode).1 = toInt32 (Int.ofNat i) ∧
      fs_lookup (D ++ '/' :: (P ++ fmt_int (toInt32 (Int.ofNat i))))
        (find_new_crashlog_dir env w mode).2.fs = some Node.dir ∧
      (∀ q, is_under (D ++ '/' :: (P ++ fmt_int (toInt32 (Int.ofNat i)))) q = true →
        q ≠ D ++ '/' :: (P ++ fmt_int (toInt32 (Int.ofNat i))) →
        fs_lookup q (find_new_crashlog_dir env w mode).2.fs = none)) := by
  generalize hr : reserve_crash_folder env w mode = r at hres hwf
  obtain ⟨o, w1⟩ := r
  simp only at hres hwf
  subst hres
  generalize hx : fmt_int (toInt32 (Int.ofNat i)) = X at hfit
  have hX : '/' ∉ X := by rw [← hx]; exact slash_not_in_fmt_int _
  have hpre : '/' ∉ P ++ X ++ ['_'] := by
    simp only [List.mem_append, List.mem_singleton, not_or]
    exact ⟨⟨hP, hX⟩, by decide⟩
  have hmatch : slot_match env (mode_paths env mode).2 i = D ++ '/' :: (P ++ X ++ ['_']) := by
    unfold slot_match
    rw [hx, hdir, snprintf_fits]
    · simp
    · simp only [List.length_append, List.length_cons, List.length_singleton,
        List.length_nil] at hfit ⊢
      omega
  have hwfs := fun a rest ha hex => no_orphans_spec hwf a rest ha hex
  constructor
  · intro p hgen
    have hpath : slot_path env (mode_paths env mode).2 i unique
        = D ++ '/' :: (P ++ X ++ '_' :: unique) := by
      unfold slot_path
      rw [hmatch]
      have hlen : ¬ ((D ++ '/' :: (P ++ X ++ ['_'])).length + unique.length ≥ env.PATHMAX) := by
        simp only [List.length_append, List.length_cons, List.length_singleton,
          List.length_nil] at hfit ⊢
        omega
      rw [if_neg hlen, List.take_length]
      simp
    unfold generate_crashlog_dir at hgen ⊢
    rw [hr] at hgen ⊢
    simp only [hpath] at hgen ⊢
    generalize hw2 : rmfr_match w1 (slot_match env (mode_paths env mode).2 i) = m2 at hgen ⊢
    have hw3fs := history_step_fs m2.2 (D ++ '/' :: (P ++ X ++ '_' :: unique))
    generalize (if directory_exists m2.2 (D ++ '/' :: (P ++ X ++ '_' :: unique)) = true
      then history_delete m2.2 (D ++ '/' :: (P ++ X ++ '_' :: unique)) else m2.2) = w3
      at hgen hw3fs ⊢
    by_cases hneg : (create_crash_folder env w3 (D ++ '/' :: (P ++ X ++ '_' :: unique))).1 < 0
    · rw [if_pos hneg] at hgen; simp at hgen
    · rw [if_neg hneg] at hgen ⊢
      simp only [Option.some.injEq] at hgen
      subst hgen
      obtain ⟨hnone, hw'⟩ := create_crash_folder_ok env w3 _ hneg
      simp only [hw']
      have hsub : ∀ q v, fs_lookup q w3.fs = some v → fs_lookup q w1.fs = some v := by
        intro q v hq
        rw [hw3fs, ← hw2] at hq
        exact rmfr_match_sub w1 _ q v hq
      have hgone : ∀ name q, name ≠ [] → '/' ∉ name →
          strstr name (P ++ X ++ ['_']) = true →
          is_under (D ++ '/' :: name) q = true → fs_lookup q w3.fs = none := by
        intro name q hne hname hstr hq
        by_contra hcon
        obtain ⟨v, hv⟩ := Option.ne_none_iff_exists'.mp hcon
        have hq1 := hsub q v hv
        have hex : (fs_lookup (D ++ '/' :: name) w1.fs).isSome = true := by
          rw [is_under_iff] at hq
          rcases hq with rfl | ⟨r, rfl⟩
          · rw [hq1]; rfl
          · have := hwfs (D ++ '/' :: name) r (by simp) (by rw [hq1]; rfl)
            rw [this]; rfl
        have hDdir : fs_lookup D w1.fs = some Node.dir := hwfs D name hD hex
        have := rmfr_match_removes w1 D (P ++ X ++ ['_']) name q hpre hDdir hne hname hex hstr hq
        rw [hw3fs, ← hw2, hmatch, this] at hv
        exact absurd hv (by simp)
      have hname0 : '/' ∉ P ++ X ++ '_' :: unique := by
        simp only [List.mem_append, List.mem_cons, not_or]
        exact ⟨⟨hP, hX⟩, by decide, hu⟩
      have hstr0 : strstr (P ++ X ++ '_' :: unique) (P ++ X ++ ['_']) = true := by
        apply strstr_of_starts_with
        rw [starts_with_iff]
        exact ⟨unique, by simp⟩
      refine ⟨trivial, ?_, ?_, ?_, ?_⟩
      · rw [← hw3fs]; exact hnone
      · exact fs_lookup_store_self _ _ _
      · intro q hq hqne
        rw [fs_lookup_store_other hqne]
        exact hgone _ q (by simp) hname0 hstr0 hq
      · intro name hname hstart hex
        by_contra hne
        rw [fs_lookup_store_other hne] at hex
        have hne0 : name ≠ [] := by
          intro h0
          rw [h0, starts_with_iff] at hstart
          obtain ⟨r, hr0⟩ := hstart
          simp at hr0
        have := hgone name (D ++ '/' :: name) hne0 hname (strstr_of_starts_with hstart)
          (by rw [is_under_iff]; exact Or.inl rfl)
        rw [this] at hex
        simp at hex
  · intro hok
    have hpath : snprintf env.PATHMAX ((mode_paths env mode).2 ++ X) = D ++ '/' :: (P ++ X) := by
      rw [hdir, snprintf_fits]
      · simp
      · simp only [List.length_append, List.length_cons] at hfit ⊢
        omega
    unfold find_new_crashlog_dir at hok ⊢
    rw [hr] at hok ⊢
    simp only [hx, hpath] at hok ⊢
    have hw2fs := history_step_fs w1 (D ++ '/' :: (P ++ X))
    generalize (if directory_exists w1 (D ++ '/' :: (P ++ X)) = true
      then history_delete w1 (D ++ '/' :: (P ++ X)) else w1) = w2 at hok hw2fs ⊢
    by_cases hneg : (create_crash_folder env (rmfr w2 (D ++ '/' :: (P ++ X))).2
        (D ++ '/' :: (P ++ X))).1 < 0
    · rw [if_pos hneg] at hok; simp at hok
    · rw [if_neg hneg] at hok ⊢
      obtain ⟨hnone, hw'⟩ := create_crash_folder_ok env _ _ hneg
      simp only [hw']
      refine ⟨trivial, fs_lookup_store_self _ _ _, ?_⟩
      intro q hq hqne
      rw [fs_lookup_store_other hqne, rmfr_lookup]
      split_ifs with hc
      · rfl
      · rw [hw2fs]
        by_contra hcon
        obtain ⟨v, hv⟩ := Option.ne_none_iff_exists'.mp hcon
        apply hc
        refine ⟨?_, hq⟩
        rw [hw2fs]
        rw [is_under_iff] at hq
        rcases hq with rfl | ⟨r, rfl⟩
        · exact absurd rfl hqne
        · have := hwfs (D ++ '/' :: (P ++ X)) r (by simp) (by rw [hv]; rfl)
          rw [this]; rfl

set_option maxRecDepth 100000 in
theorem generate_crashlog_dir_fresh_slot_witness :
    fs_lookup "/logs/crashlog8_a".toList
      (generate_crashlog_dir demo_env slot_world e_dir_mode_t.MODE_CRASH "a".toList).2.fs
      = some Node.dir :=
  ((generate_crashlog_dir_fresh_slot demo_env slot_world e_dir_mode_t.MODE_CRASH "a".toList
    "/logs".toList "crashlog".toList 8 (by decide) (by decide) (by decide) (by decide)
    (by decide) (by decide) (by decide)).1 "/logs/crashlog8_a".toList (by decide)).2.2.1

/-! ## Theorems about the circular copier -/

/-- C3: for a positive byte budget `B` in `int` range, whatever the start index, the
file system and the environment, the copies issued by one `do_copy_circular` call
write at most `B` bytes in total, and every single `do_copy_tail` is handed exactly
the budget left at that point and copies no more than that. The statement holds
for every amount of fuel, hence for every prefix of the run. -/
theorem do_copy_circular_within_budget (env : Env) (fuel : Nat) (w : World)
    (source destination extension extra : CStr) (B : Int) (start_index cnt_len : Nat)
    (h0 : 0 < B) (h1 : B < 2147483648) :
    bytes_copied
      (do_copy_circular env fuel w source destination extension extra B start_index
        cnt_len).copies ≤ B ∧
    ∀ (i : Nat) (h : i < (do_copy_circular env fuel w source destination extension extra B
        start_index cnt_len).copies.length),
      ((do_copy_circular env fuel w source destination extension extra B start_index
          cnt_len).copies[i]).budget
        = B - bytes_copied ((do_copy_circular env fuel w source destination extension extra B
            start_index cnt_len).copies.take i) ∧
      ((do_copy_circular env fuel w source destination extension extra B start_index
          cnt_len).copies[i]).rc
        ≤ ((do_copy_circular env fuel w source destination extension extra B start_index
          cnt_len).copies[i]).budget := by
  have hne : B ≠ 0 := by omega
  have h32 : toInt32 B = B := toInt32_of_range (by omega) h1
  have hempty : budget_respected B [] := by
    intro i h; simp at h
  suffices hs : bytes_copied (do_copy_circular env fuel w source destination extension extra B
      start_index cnt_len).copies ≤ B ∧ budget_respected B (do_copy_circular env fuel w source
      destination extension extra B start_index cnt_len).copies from hs
  unfold do_copy_circular
  rw [if_neg hne]
  split
  · exact ⟨by simp [bytes_copied]; omega, hempty⟩
  · rename_i file _
    by_cases hs : toInt32 (Int.ofNat start_index) = 0
    · rw [if_pos hs]
      simp only [h32]
      generalize (snprintf_at env.PATHMAX (snprintf env.PATHMAX (destination ++ '/' :: file))
        (extra ++ extension)) = d0
      generalize (if file_exists w source = true then snprintf env.PATHMAX source
        else snprintf_at env.PATHMAX (snprintf env.PATHMAX source) extension) = p0
      have hrc := do_copy_tail_rc_le env w p0 d0 B h0 h1
      generalize do_copy_tail env w p0 d0 B = r at hrc
      have hsnoc := budget_respected_snoc (c := ⟨p0, d0, B, r.1⟩)
        hempty (by simp [bytes_copied]) hrc
      simp only [List.nil_append] at hsnoc
      by_cases hneg : r.1 < 0
      · rw [if_pos hneg]
        refine ⟨?_, hsnoc⟩
        simp only [bytes_copied, List.map, List.sum_cons, List.sum_nil]
        rw [max_eq_right (by omega)]
        omega
      · rw [if_neg hneg]
        apply loop_budget _ _ _ _ _ _ _ B h1
        · omega
        · simp only [bytes_copied, List.map, List.sum_cons, List.sum_nil]
          rw [max_eq_left (by omega)]
          omega
        · exact hsnoc
    · rw [if_neg hs]
      apply loop_budget _ _ _ _ _ _ _ B h1
      · omega
      · simp [bytes_copied]
      · exact hempty

theorem do_copy_circular_within_budget_witness :
    bytes_copied (do_copy_circular demo_env 5 demo_world "/logs/aplog".toList "/d".toList []
      [] 4 0 1).copies ≤ 4 :=
  (do_copy_circular_within_budget demo_env 5 demo_world "/logs/aplog".toList "/d".toList []
    [] 4 0 1 (by decide) (by decide)).1

/-! ## Theorems about the dropbox correlator and the dumpstate ring -/

/-- C4: for a non-zero cookie `c` and names `a`, `b` that fit their buffers (`len`
counts the terminating NUL), a moved-from `(c, a)` followed by a moved-to `(c, b)`
is suppressed twice (`-1`, with no write outside the name buffer), the second call creates exactly one informational
event whose data fields are `a` and `b` and leaves the correlator idle (cookie 0,
empty name); the same moved-to once more is then processed normally (`0`), creates
no event and changes nothing. -/
theorem rename_pair_yields_one_record (env : Env) (d : DedupEnv) (st : DedupState) (w : World)
    (c la lb : Nat) (a b : CStr)
    (hc : c ≠ 0) (haP : a.length < env.PATHMAX)
    (hla : a.length < la) (hla32 : la < 4294967296) (hlb : b.length < lb) :
    manage_duplicate_dropbox_events env d st w ⟨IN_MOVED_FROM, c, la, a⟩
      = ⟨-1, ⟨c, a⟩, w, [], false⟩ ∧
    (manage_duplicate_dropbox_events env d ⟨c, a⟩ w ⟨IN_MOVED_TO, c, lb, b⟩).ret = -1 ∧
    (∃ ev : InfoEvent,
      (manage_duplicate_dropbox_events env d ⟨c, a⟩ w ⟨IN_MOVED_TO, c, lb, b⟩).infoevents = [ev]
        ∧ ev.data0 = a ∧ ev.data1 = b) ∧
    (manage_duplicate_dropbox_events env d ⟨c, a⟩ w ⟨IN_MOVED_TO, c, lb, b⟩).state = ⟨0, []⟩ ∧
    manage_duplicate_dropbox_events env d ⟨0, []⟩
        (manage_duplicate_dropbox_events env d ⟨c, a⟩ w ⟨IN_MOVED_TO, c, lb, b⟩).world
        ⟨IN_MOVED_TO, c, lb, b⟩
      = ⟨0, ⟨0, []⟩,
          (manage_duplicate_dropbox_events env d ⟨c, a⟩ w ⟨IN_MOVED_TO, c, lb, b⟩).world, [],
          false⟩ := by
  have hfrom : IN_MOVED_FROM &&& IN_MOVED_FROM ≠ 0 := by decide
  have hto1 : ¬ (IN_MOVED_TO &&& IN_MOVED_FROM ≠ 0) := by decide
  have hto2 : IN_MOVED_TO &&& IN_MOVED_TO ≠ 0 := by decide
  have hlb0 : lb ≠ 0 := by omega
  have hidx : a.length ≤ moved_from_index env.PATHMAX la := by
    unfold moved_from_index
    rw [Nat.mod_eq_of_lt hla32]
    omega
  have hin : ¬ (env.PATHMAX ≤ moved_from_index env.PATHMAX la) := by
    unfold moved_from_index
    rw [Nat.mod_eq_of_lt hla32]
    omega
  refine ⟨?_, ?_, ?_, ?_, ?_⟩
  · unfold manage_duplicate_dropbox_events
    simp only [if_pos hfrom, List.take_of_length_le hidx, hin, decide_False]
  · unfold manage_duplicate_dropbox_events
    simp only [if_neg hto1, hto2, hc, hlb0, ne_eq, not_false_eq_true, and_self, if_true]
  · unfold manage_duplicate_dropbox_events
    simp only [if_neg hto1, hto2, hc, hlb0, ne_eq, not_false_eq_true, and_self, if_true]
    exact ⟨_, rfl, rfl, rfl⟩
  · unfold manage_duplicate_dropbox_events
    simp only [if_neg hto1, hto2, hc, hlb0, ne_eq, not_false_eq_true, and_self, if_true]
  · generalize (manage_duplicate_dropbox_events env d ⟨c, a⟩ w ⟨IN_MOVED_TO, c, lb, b⟩).world
      = w2
    unfold manage_duplicate_dropbox_events
    simp only [if_neg hto1, ne_eq, not_true_eq_false, false_and, and_false, if_false]

theorem rename_pair_yields_one_record_witness :
    manage_duplicate_dropbox_events demo_env demo_dedup_env ⟨0, []⟩ demo_world
      ⟨IN_MOVED_FROM, 7, 16, "a".toList⟩ = ⟨-1, ⟨7, "a".toList⟩, demo_world, [], false⟩ :=
  (rename_pair_yields_one_record demo_env demo_dedup_env ⟨0, []⟩ demo_world 7 16 16
    "a".toList "b".toList (by decide) (by decide) (by decide) (by decide) (by decide)).1

/-- C5: from the initial ring, with the service available, no dump running, the
watch registered and the boot complete, `start(k1)`, `start(k2)` return 1 and fill
slot 0 with the first `SHA_DIGEST_LENGTH` bytes of `k1` and slot 1 with those of
`k2`; the first finalize succeeds, consumes slot 0 (`k1`) and notifies with it, the
second succeeds and consumes slot 1 (`k2`), the third finds no pending key, fails
and leaves the ring unchanged. -/
theorem dumpstate_ring_fifo (e : DumpEnv) (PATHMAX : Nat) (d1 d2 k1 k2 : CStr)
    (havail : e.logsystemstate_available = true)
    (hrun : e.dumpstate_prop ≠ "running".toList)
    (hwatch : e.add_watch_ok = true)
    (hboot : e.boot_state = "1".toList)
    (hk1 : k1 ≠ []) (hk2 : k2 ≠ []) :
    (start_dumpstate_srv e PATHMAX DumpRing.initial (some d1) (some k1)).ret = 1 ∧
    (start_dumpstate_srv e PATHMAX
      (start_dumpstate_srv e PATHMAX DumpRing.initial (some d1) (some k1)).ring
      (some d2) (some k2)).ret = 1 ∧
    (start_dumpstate_srv e PATHMAX
      (start_dumpstate_srv e PATHMAX DumpRing.initial (some d1) (some k1)).ring
      (some d2) (some k2)).ring
      = ⟨[k1.take SHA_DIGEST_LENGTH, k2.take SHA_DIGEST_LENGTH], 1, 0⟩ ∧
    finalize_dropbox_pending_event e
        ⟨[k1.take SHA_DIGEST_LENGTH, k2.take SHA_DIGEST_LENGTH], 1, 0⟩
      = ⟨0, ⟨[[], k2.take SHA_DIGEST_LENGTH], 1, 1⟩,
          if e.crashreport_available then
            [DumpAction.notify_crashreport (k1.take SHA_DIGEST_LENGTH)] else []⟩ ∧
    finalize_dropbox_pending_event e ⟨[[], k2.take SHA_DIGEST_LENGTH], 1, 1⟩
      = ⟨0, ⟨[[], []], 1, 0⟩,
          if e.crashreport_available then
            [DumpAction.notify_crashreport (k2.take SHA_DIGEST_LENGTH)] else []⟩ ∧
    finalize_dropbox_pending_event e ⟨[[], []], 1, 0⟩ = ⟨-1, ⟨[[], []], 1, 0⟩, []⟩ := by
  have h1 : k1.take SHA_DIGEST_LENGTH ≠ [] := take_ne_nil hk1 19
  have h2 : k2.take SHA_DIGEST_LENGTH ≠ [] := take_ne_nil hk2 19
  have ht1 : (k1.take SHA_DIGEST_LENGTH).take SHA_DIGEST_LENGTH = k1.take SHA_DIGEST_LENGTH := by
    simp [List.take_take]
  have ht2 : (k2.take SHA_DIGEST_LENGTH).take SHA_DIGEST_LENGTH = k2.take SHA_DIGEST_LENGTH := by
    simp [List.take_take]
  have hs : ∀ (r : DumpRing) (d k : CStr), start_dumpstate_srv e PATHMAX r (some d) (some k)
      = ⟨1, { r with
          index_prod := (r.index_prod + 1) % DIM_gcurrent_key
          gcurrent_key := r.gcurrent_key.set ((r.index_prod + 1) % DIM_gcurrent_key)
            (k.take SHA_DIGEST_LENGTH) },
        [DumpAction.property_set "vendor.crashlogd.storage.path".toList d,
          DumpAction.start_daemon "vendor.logsystemstate".toList, DumpAction.add_watch d]⟩ := by
    intro r d k
    unfold start_dumpstate_srv
    simp only [havail, hwatch, Bool.not_true, Bool.false_eq_true, if_false, if_neg hrun]
  refine ⟨?_, ?_, ?_, ?_, ?_, ?_⟩
  · rw [hs]
  · rw [hs, hs]
  · rw [hs, hs]; rfl
  · unfold finalize_dropbox_pending_event
    simp only [List.getD_cons_zero, if_neg h1, hboot, ne_eq, not_true_eq_false, if_false, ht1]
    rfl
  · unfold finalize_dropbox_pending_event
    have : [[], List.take SHA_DIGEST_LENGTH k2].getD 1 [] = List.take SHA_DIGEST_LENGTH k2 := rfl
    simp only [this, if_neg h2, hboot, ne_eq, not_true_eq_false, if_false, ht2]
    rfl
  · unfold finalize_dropbox_pending_event
    rfl

theorem dumpstate_ring_fifo_witness :
    (start_dumpstate_srv demo_dump_env 512 DumpRing.initial (some "/logs/crashlog0_a".toList)
      (some "0123456789abcdef0123456789".toList)).ret = 1 :=
  (dumpstate_ring_fifo demo_dump_env 512 "/logs/crashlog0_a".toList "/logs/crashlog1_b".toList
    "0123456789abcdef0123456789".toList "k2".toList rfl (by decide) rfl rfl (by decide)
    (by decide)).1

/-- C6 (code evaluated at failing inputs): with ten-digit time stamps
(`TIMESTAMP_MAX_SIZE = 10`) the name `system_app_crash@946684800123.txt` (twelve
digits) yields `9466848001`, not `946684800`, and `x@1234.txt` yields `1234`, not
`1`: the millisecond digits are dropped only when the number has exactly
`TIMESTAMP_MAX_SIZE + 3` digits, as in `x@1700000000123.txt`. With a 32-bit `long`
the first name is rejected (`-1`). -/
theorem extract_dropbox_timestamp_keeps_millis :
    extract_dropbox_timestamp 10 9223372036854775807 "system_app_crash@946684800123.txt".toList
      = 9466848001 ∧
    extract_dropbox_timestamp 10 9223372036854775807 "x@1234.txt".toList = 1234 ∧
    extract_dropbox_timestamp 10 2147483647 "system_app_crash@946684800123.txt".toList = -1 ∧
    extract_dropbox_timestamp 10 9223372036854775807 "x@1700000000123.txt".toList = 1700000000 := by
  decide

/-! ## Theorems about the quota check -/

/-- C7: when `statfs` succeeds and the required-free percent is at most 100, the
quota check reports space available (returns `0`) exactly when the effective
reserved percent `p` is not 0, the used bytes are below
`total * p * (100 - req) / 10000` and the free bytes are at least
`total * req / 100`, all in 64-bit unsigned arithmetic; for `p = 0` it denies
(returns `-1`) whatever the sizes. -/
theorem quota_guard_decision (st : Statfs) (quota : Int) (used_space req : Nat)
    (hreq : req ≤ 100) :
    (check_free_space_available (some st) quota used_space req = 0 ↔
      (available_portion quota ≠ 0 ∧
        used_space < ((full_space st * (available_portion quota).toNat) % 18446744073709551616
          * (100 - req)) % 18446744073709551616 / 10000 ∧
        free_space st ≥ (full_space st * req) % 18446744073709551616 / 100)) ∧
    (available_portion quota = 0 →
      check_free_space_available (some st) quota used_space req = -1) := by
  have hthr : (100 + 4294967296 - req % 4294967296) % 4294967296 = 100 - req := by omega
  constructor
  · unfold check_free_space_available
    simp only [hthr]
    by_cases hp : available_portion quota = 0
    · simp [hp]
    · simp only [hp, if_false, ne_eq, not_false_eq_true, true_and]
      split
      · rename_i h
        constructor
        · intro h0; simp at h0
        · rintro ⟨h1, h2⟩
          rcases h with h | h <;> omega
      · rename_i h
        constructor
        · intro _; push_neg at h; exact ⟨h.1, h.2⟩
        · intro _; rfl
  · intro hp
    simp [check_free_space_available, hp]

theorem quota_guard_decision_witness :
    (check_free_space_available (some ⟨1000, 10000, 4096⟩) 50 0 5 = 0 ↔
      (available_portion 50 ≠ 0 ∧
        0 < ((full_space ⟨1000, 10000, 4096⟩ * (available_portion 50).toNat) % 18446744073709551616
          * (100 - 5)) % 18446744073709551616 / 10000 ∧
        free_space ⟨1000, 10000, 4096⟩ ≥ (full_space ⟨1000, 10000, 4096⟩ * 5) % 18446744073709551616 / 100)) ∧
    (available_portion 50 = 0 →
      check_free_space_available (some ⟨1000, 10000, 4096⟩) 50 0 5 = -1) :=
  quota_guard_decision ⟨1000, 10000, 4096⟩ 50 0 5 (by decide)
/-- The part of the tail-copy contract that holds: for an existing regular source
file with bytes `data` (of a size an `off_t` holds), a destination that is another
name and not a directory, and system calls that succeed, when the bytes to copy
are no more than one `sendfile` call transfers (`MAX_RW_COUNT`), `do_copy_tail`
with a limit `l >= 1` leaves in the destination exactly the last `min (size, l)`
bytes of the source (those from offset `size - l`, or 0) and returns that count;
with `l = 0` it copies the whole file. -/
theorem do_copy_tail_copies_tail (env : Env) (w : World) (src dest : CStr)
    (data : List Char) (l : Int)
    (hsrc : fs_lookup src w.fs = some (Node.file data))
    (hne : dest ≠ src)
    (hdest : fs_lookup dest w.fs ≠ some Node.dir)
    (hrd : env.fault Sys.open_rd src = 0)
    (hwr : env.fault Sys.open_wr dest = 0)
    (hx : env.sendfile_xfer dest = Xfer.complete)
    (hl0 : 0 ≤ l) (hl1 : l < 2147483648)
    (hoff : data.length < 9223372036854775808)
    (hcap : (if l = 0 then data.length else min data.length l.toNat) ≤ MAX_RW_COUNT) :
    (l ≠ 0 →
      (do_copy_tail env w src dest l).1 = Int.ofNat (min data.length l.toNat) ∧
      fs_lookup dest (do_copy_tail env w src dest l).2.fs
        = some (Node.file (data.drop (data.length - l.toNat))) ∧
      (data.drop (data.length - l.toNat)).length = min data.length l.toNat) ∧
    (l = 0 →
      (do_copy_tail env w src dest l).1 = Int.ofNat data.length ∧
      fs_lookup dest (do_copy_tail env w src dest l).2.fs = some (Node.file data)) := by
  have hlook : fs_lookup src (fs_store dest (Node.file []) w.fs) = some (Node.file data) := by
    rw [fs_lookup_store_other (fun h => hne h.symm)]; exact hsrc
  constructor
  · intro hnz
    have hpos : 0 < l := by omega
    obtain ⟨n, rfl⟩ : ∃ n : Nat, l = Int.ofNat n := ⟨l.toNat, by simp [Int.toNat_of_nonneg hl0]⟩
    simp only [Int.ofNat_eq_coe, Int.toNat_ofNat] at *
    rw [if_neg hnz] at hcap
    unfold do_copy_tail
    simp only [hsrc, hrd, hwr, hdest, node_size, ne_eq, not_true_eq_false, if_false,
      Int.ofNat_eq_coe]
    by_cases hlt : (data.length : Int) < n
    · have hdn : data.length ≤ n := by omega
      have hmin : min data.length n = data.length := min_eq_left hdn
      have hsub : data.length - n = 0 := by omega
      have hdM : data.length ≤ MAX_RW_COUNT := by
        rw [hmin] at hcap; exact hcap
      clear hcap
      have e1 : (if (n : Int) = 0 ∨ (data.length : Int) < n then toInt32 data.length else n)
          = data.length := by
        rw [if_pos (Or.inr hlt), toInt32_of_range (by omega) (by omega)]
      simp only [e1, gt_iff_lt, lt_self_iff_false, if_false]
      have e2 : toU64 (data.length : Int) = data.length := toU64_natCast _ (by omega)
      have e3 := sendfile_complete env (fs_store dest (Node.file []) w.fs) dest src
        (Int.toNat 0) data.length data hlook hx (by omega) (by simp only [Int.toNat_zero]; omega)
      have e4 : List.take (min data.length MAX_RW_COUNT) (List.drop (Int.toNat 0) data)
          = data := by
        simp only [Int.toNat_zero, List.drop_zero]
        exact List.take_of_length_le (by rw [min_eq_left hdM])
      rw [e4] at e3
      rw [e2, e3]
      simp only [fst_ite3, do_copy_tail_fs_after, Int.ofNat_eq_coe]
      rw [toInt32_of_range (by omega) (by omega), hmin, hsub]
      simp [fs_lookup_store_self]
    · have hnle : n ≤ data.length := by omega
      have hnM : n ≤ MAX_RW_COUNT := by
        rw [min_eq_right hnle] at hcap; exact hcap
      have hmin : min data.length n = n := min_eq_right hnle
      clear hcap
      have e1 : (if (n : Int) = 0 ∨ (data.length : Int) < n then toInt32 data.length else n)
          = n := by
        rw [if_neg (by omega)]
      simp only [e1]
      have e2 : toU64 (n : Int) = n := toU64_natCast _ (by omega)
      have e4 : (if (data.length : Int) > n then (data.length : Int) - n else 0).toNat
          = data.length - n := by
        split_ifs <;> omega
      have e3 := sendfile_complete env (fs_store dest (Node.file []) w.fs) dest src
        (data.length - n) n data hlook hx (by omega) (by omega)
      have hlen2 : (List.drop (data.length - n) data).length = n := by
        simp only [List.length_drop]; omega
      have e5 : List.take (min n MAX_RW_COUNT) (List.drop (data.length - n) data)
          = List.drop (data.length - n) data := by
        apply List.take_of_length_le
        rw [hlen2, min_eq_left hnM]
      rw [e5, hlen2] at e3
      rw [e2, e4, e3]
      simp only [fst_ite3, do_copy_tail_fs_after, Int.ofNat_eq_coe]
      rw [toInt32_of_range (by omega) (by omega), hmin]
      simp only [fs_lookup_store_self, true_and]
      exact hlen2
  · intro hz
    subst hz
    rw [if_pos rfl] at hcap
    have hsz : data.length < 2147483648 := by
      unfold MAX_RW_COUNT at hcap; omega
    unfold do_copy_tail
    simp only [hsrc, hrd, hwr, hdest, node_size, ne_eq, not_true_eq_false, if_false,
      Int.ofNat_eq_coe, true_or, if_true]
    rw [toInt32_of_range (x := (data.length : Int)) (by omega) (by omega)]
    simp only [gt_iff_lt, lt_self_iff_false, if_false]
    have e2 : toU64 (data.length : Int) = data.length := toU64_natCast _ (by omega)
    have e3 := sendfile_complete env (fs_store dest (Node.file []) w.fs) dest src
      (Int.toNat 0) data.length data hlook hx (by omega) (by simp only [Int.toNat_zero]; omega)
    have e4 : List.take (min data.length MAX_RW_COUNT) (List.drop (Int.toNat 0) data)
        = data := by
      simp only [Int.toNat_zero, List.drop_zero]
      exact List.take_of_length_le (by rw [min_eq_left hcap])
    rw [e4] at e3
    rw [e2, e3]
    simp only [fst_ite3, do_copy_tail_fs_after, Int.ofNat_eq_coe]
    rw [toInt32_of_range (by omega) (by omega)]
    simp [fs_lookup_store_self]

theorem do_copy_tail_copies_tail_witness :
    (do_copy_tail demo_env demo_world "/logs/aplog".toList "/d/aplog".toList 2).1
      = Int.ofNat (min "abc".toList.length (2 : Int).toNat) :=
  ((do_copy_tail_copies_tail demo_env demo_world "/logs/aplog".toList "/d/aplog".toList
    "abc".toList 2 rfl (by decide) (by decide) rfl rfl rfl (by decide) (by decide)
    (show (3 : Nat) < 9223372036854775808 by norm_num)
    (show (2 : Nat) ≤ 2147479552 by norm_num)).1 (by decide)).1

/-- A second place where the tail-copy contract fails: `do_copy_tail` calls
`sendfile` once, and one call transfers at most `MAX_RW_COUNT` bytes. For a file
larger than that (and below 2^31 bytes) copied with limit 0, only the first
`MAX_RW_COUNT` bytes reach the destination and that count is returned. -/
theorem do_copy_tail_stops_at_max_rw_count (env : Env) (w : World) (src dest : CStr)
    (data : List Char)
    (hsrc : fs_lookup src w.fs = some (Node.file data))
    (hne : dest ≠ src)
    (hdest : fs_lookup dest w.fs ≠ some Node.dir)
    (hrd : env.fault Sys.open_rd src = 0)
    (hwr : env.fault Sys.open_wr dest = 0)
    (hx : env.sendfile_xfer dest = Xfer.complete)
    (hbig : MAX_RW_COUNT < data.length) (hsz : data.length < 2147483648) :
    (do_copy_tail env w src dest 0).1 = Int.ofNat MAX_RW_COUNT ∧
    fs_lookup dest (do_copy_tail env w src dest 0).2.fs
      = some (Node.file (data.take MAX_RW_COUNT)) := by
  have hlook : fs_lookup src (fs_store dest (Node.file []) w.fs) = some (Node.file data) := by
    rw [fs_lookup_store_other (fun h => hne h.symm)]; exact hsrc
  have e2 : toU64 (data.length : Int) = data.length := toU64_natCast _ (by omega)
  have e3 := sendfile_complete env (fs_store dest (Node.file []) w.fs) dest src
    (Int.toNat 0) data.length data hlook hx (by omega) (by simp only [Int.toNat_zero]; omega)
  have e4 : List.take (min data.length MAX_RW_COUNT) (List.drop (Int.toNat 0) data)
      = data.take MAX_RW_COUNT := by
    simp only [Int.toNat_zero, List.drop_zero]
    rw [min_eq_right (Nat.le_of_lt hbig)]
  have e5 : (data.take MAX_RW_COUNT).length = MAX_RW_COUNT := by
    rw [List.length_take, min_eq_left (Nat.le_of_lt hbig)]
  have e6 : toInt32 ((MAX_RW_COUNT : Nat) : Int) = ((MAX_RW_COUNT : Nat) : Int) := by decide
  rw [e4, e5] at e3
  unfold do_copy_tail
  simp only [hsrc, hrd, hwr, hdest, node_size, ne_eq, not_true_eq_false, if_false,
    Int.ofNat_eq_coe, true_or, if_true]
  rw [toInt32_of_range (x := (data.length : Int)) (by omega) (by omega)]
  simp only [gt_iff_lt, lt_self_iff_false, if_false]
  rw [e2, e3]
  simp only [fst_ite3, do_copy_tail_fs_after, fs_lookup_store_self, Int.ofNat_eq_coe, e6]
  exact ⟨trivial, trivial⟩

theorem do_copy_tail_stops_at_max_rw_count_witness :
    (do_copy_tail demo_env capped_file_world "/big".toList "/out".toList 0).1
      = Int.ofNat MAX_RW_COUNT := by
  have hlen : (List.replicate 2147479553 'x').length = 2147479553 := List.length_replicate _ _
  exact (do_copy_tail_stops_at_max_rw_count demo_env capped_file_world "/big".toList
    "/out".toList (List.replicate 2147479553 'x') rfl (by decide) (by decide) rfl rfl rfl
    (lt_of_lt_of_eq (show MAX_RW_COUNT < 2147479553 by unfold MAX_RW_COUNT; norm_num)
      hlen.symm)
    (lt_of_eq_of_lt hlen (by norm_num))).1

/-- C8 (code evaluated at a failing input): a source file of 2^31 bytes copied with
limit 0 (the whole-file mode, as `backup_apcoredump` uses it) is not copied:
`limit = info.st_size` narrows the size to `-2147483648`, `sendfile` is handed
that value as its `size_t` count and refuses it, so `do_copy_tail` returns `-1`
and leaves the destination it has just created empty. -/
theorem do_copy_tail_big_file_not_whole :
    fs_lookup "/big".toList big_file_world.fs
      = some (Node.file (List.replicate 2147483648 'x')) ∧
    (do_copy_tail demo_env big_file_world "/big".toList "/out".toList 0).1 = -1 ∧
    fs_lookup "/out".toList
      (do_copy_tail demo_env big_file_world "/big".toList "/out".toList 0).2.fs
      = some (Node.file []) := by
  have hlen : (List.replicate 2147483648 'x').length = 2147483648 := List.length_replicate _ _
  exact ⟨rfl, do_copy_tail_narrowed_size demo_env big_file_world "/big".toList "/out".toList
    (List.replicate 2147483648 'x') rfl (by decide) rfl rfl (Nat.le_of_eq hlen.symm)
    (lt_of_eq_of_lt hlen (by norm_num))⟩
/-- C10, as amended: `do_copy_circular` returns the result of the last `do_copy_tail`
it issued (and `0` when it issued none): the byte count of the last file only, or
the negative status of the copy that failed. This holds of every run that ends,
and a run ends (with fuel for `w.fs.length + 3` turns) when the source is a full
path, the backup names fit the `PATHMAX` buffers and the start index leaves room
below `INT_MAX` for one index per entry of the file system. -/
theorem do_copy_circular_returns_last_status (env : Env) (w : World)
    (source destination extension extra file : CStr) (limit : Int)
    (start_index cnt_len : Nat)
    (hfile : after_last_slash source = some file) :
    (∀ fuel,
      (do_copy_circular env fuel w source destination extension extra limit start_index
        cnt_len).outcome ≠ Outcome.fuel_exhausted →
      (do_copy_circular env fuel w source destination extension extra limit start_index
        cnt_len).outcome
      = Outcome.returned
          (((do_copy_circular env fuel w source destination extension extra limit start_index
            cnt_len).copies.getLast?.map (fun c => c.rc)).getD 0)) ∧
    (names_fit env.PATHMAX source destination file extension extra cnt_len →
      start_index + w.fs.length + 2 < 2147483648 →
      ∀ fuel, w.fs.length + 3 ≤ fuel →
        (do_copy_circular env fuel w source destination extension extra limit start_index
          cnt_len).outcome
        = Outcome.returned
            (((do_copy_circular env fuel w source destination extension extra limit
              start_index cnt_len).copies.getLast?.map (fun c => c.rc)).getD 0)) := by
  have hsrc : '/' ∈ source := by
    by_contra hno
    unfold after_last_slash at hfile
    rw [if_neg hno] at hfile
    exact absurd hfile (by simp)
  have hlast : ∀ fuel,
      (do_copy_circular env fuel w source destination extension extra limit start_index
        cnt_len).outcome ≠ Outcome.fuel_exhausted →
      (do_copy_circular env fuel w source destination extension extra limit start_index
        cnt_len).outcome
      = Outcome.returned
          (((do_copy_circular env fuel w source destination extension extra limit start_index
            cnt_len).copies.getLast?.map (fun c => c.rc)).getD 0) := by
    intro fuel h1
    obtain ⟨_, _, h5⟩ := do_copy_circular_shape env fuel w source destination extension extra
      limit start_index cnt_len hsrc
    rcases h5 h1 with ⟨c, hc, _, ho⟩ | ⟨c, hc, _, _, ho⟩ | ⟨hc, _, ho⟩
    · rw [ho, hc]; rfl
    · rw [ho, hc]; rfl
    · rw [ho, hc]; rfl
  refine ⟨hlast, fun hfit hwrap fuel hfuel => ?_⟩
  obtain ⟨⟨rc, hrc⟩, _, _⟩ := do_copy_circular_terminates env w source destination
    extension extra file limit start_index cnt_len hfile hfit hwrap fuel hfuel
  exact hlast fuel (by rw [hrc]; simp)

set_option maxRecDepth 100000 in
theorem do_copy_circular_returns_last_status_witness :
    (do_copy_circular demo_env 7 demo_world "/logs/aplog".toList "/d".toList [] [] 10 0
      1).outcome
    = Outcome.returned
        (((do_copy_circular demo_env 7 demo_world "/logs/aplog".toList "/d".toList [] []
          10 0 1).copies.getLast?.map (fun c => c.rc)).getD 0) :=
  (do_copy_circular_returns_last_status demo_env demo_world "/logs/aplog".toList "/d".toList
    [] [] "aplog".toList 10 0 1 (by decide)).2 (by decide) (by decide) 7 (by decide)

set_option maxRecDepth 100000 in
/-- C10, counterexample to the claim as stated: with a primary file of three bytes
and one backup of two bytes, a budget of 10 copies five bytes and returns `-2`
(`-ENOENT`, backup 2 is missing); a budget of 4 copies four bytes and returns `1`,
the bytes of the last file only. -/
theorem do_copy_circular_result_is_not_total :
    (do_copy_circular demo_env 10 demo_world "/logs/aplog".toList "/d".toList [] [] 10 0
      1).outcome = Outcome.returned (-2) ∧
    bytes_copied (do_copy_circular demo_env 10 demo_world "/logs/aplog".toList "/d".toList []
      [] 10 0 1).copies = 5 ∧
    (do_copy_circular demo_env 10 demo_world "/logs/aplog".toList "/d".toList [] [] 4 0
      1).outcome = Outcome.returned 1 ∧
    bytes_copied (do_copy_circular demo_env 10 demo_world "/logs/aplog".toList "/d".toList []
      [] 4 0 1).copies = 4 := by
  decide

/-! ## Lemmas about the frame of a reservation -/

theorem reset_file_lookup_other (env : Env) (w : World) (f q : CStr) (h : q ≠ f) :
    fs_lookup q (reset_file env w f).fs = fs_lookup q w.fs := by
  unfold reset_file
  split_ifs
  · rfl
  · exact fs_lookup_store_other h _ _

theorem read_file_lookup_other (env : Env) (w : World) (f q : CStr) (h : q ≠ f) :
    fs_lookup q (read_file env w f).2.2.fs = fs_lookup q w.fs := by
  unfold read_file
  split
  · split_ifs
    · rfl
    · exact reset_file_lookup_other env w f q h
  · split_ifs <;> rfl

theorem update_file_lookup_other (env : Env) (w : World) (f q : CStr) (c : Nat) (h : q ≠ f) :
    fs_lookup q (update_file env w f c).2.fs = fs_lookup q w.fs := by
  unfold update_file
  split
  · split_ifs
    · rfl
    · rfl
    · rfl
    · exact fs_lookup_store_other h _ _
  · rfl

theorem reserve_crash_folder_lookup_other (env : Env) (w : World) (mode : e_dir_mode_t)
    (q : CStr) (h : q ≠ (mode_paths env mode).1) :
    fs_lookup q (reserve_crash_folder env w mode).2.fs = fs_lookup q w.fs := by
  unfold reserve_crash_folder
  simp only
  split_ifs
  · rfl
  · exact read_file_lookup_other env w _ q h
  · rw [update_file_lookup_other env _ _ q _ h]
    exact read_file_lookup_other env w _ q h
  · rw [update_file_lookup_other env _ _ q _ h]
    exact read_file_lookup_other env w _ q h

theorem reserve_crash_folder_some (env : Env) (w : World) (mode : e_dir_mode_t) (dir : CStr)
    (cur : Nat) (h : (reserve_crash_folder env w mode).1 = some (dir, cur)) :
    dir = (mode_paths env mode).2 ∧
    cur = (read_file env w (mode_paths env mode).1).2.1 ∧
    ¬ (read_file env w (mode_paths env mode).1).1 < 0 ∧
    ¬ (update_file env (read_file env w (mode_paths env mode).1).2.2 (mode_paths env mode).1
      (read_file env w (mode_paths env mode).1).2.1).1 < 0 ∧
    (reserve_crash_folder env w mode).2
      = (update_file env (read_file env w (mode_paths env mode).1).2.2 (mode_paths env mode).1
        (read_file env w (mode_paths env mode).1).2.1).2 := by
  unfold reserve_crash_folder at h ⊢
  simp only at h ⊢
  by_cases h1 : starts_with (mode_paths env mode).2 env.LOGS_DIR = true ∧
      check_free_space_available (env.statfs env.LOGS_DIR) env.quota
        (get_path_size w env.LOGS_DIR) env.LOGSDIR_MINIMUM_FREESPACE_PERCENT < 0
  · rw [if_pos h1] at h
    simp at h
  · rw [if_neg h1] at h ⊢
    by_cases h2 : (read_file env w (mode_paths env mode).1).1 < 0
    · rw [if_pos h2] at h
      simp at h
    · rw [if_neg h2] at h ⊢
      by_cases h3 : (update_file env (read_file env w (mode_paths env mode).1).2.2
          (mode_paths env mode).1 (read_file env w (mode_paths env mode).1).2.1).1 < 0
      · rw [if_pos h3] at h
        simp at h
      · rw [if_neg h3] at h ⊢
        simp only [Option.some.injEq, Prod.mk.injEq] at h
        exact ⟨h.1.symm, h.2.symm, h2, h3, rfl⟩

/-! ## Lemmas about the counter file and failed reservations -/

theorem read_file_value (env : Env) (w : World) (f : CStr)
    (h : ¬ (read_file env w f).1 < 0) :
    (read_file env w f).2.1 =
      (match fs_lookup f w.fs with
        | some (Node.file d) => (scan_4u d).getD 0
        | _ => 0) := by
  unfold read_file at h ⊢
  split at h
  · rename_i hl
    simp only [hl]
    split_ifs <;> rfl
  · rename_i n hl
    simp only [hl]
    split_ifs at h ⊢ with hf
    · simp at h
    · cases n <;> rfl

theorem update_file_ok (env : Env) (w : World) (f : CStr) (c : Nat)
    (h : ¬ (update_file env w f c).1 < 0) :
    ∃ old, fs_lookup f w.fs = some (Node.file old) ∧
      (update_file env w f c).2.fs = fs_store f (Node.file
        (fmt_4u ((c + 1) % 4294967296 % env.gmaxfiles) ++
          old.drop (fmt_4u ((c + 1) % 4294967296 % env.gmaxfiles)).length)) w.fs := by
  unfold update_file at h ⊢
  split at h
  · rename_i old hl
    refine ⟨old, hl, ?_⟩
    simp only [hl]
    by_cases h1 : env.fault Sys.fopen_rw f ≠ 0
    · rw [if_pos h1] at h; simp at h
    · rw [if_neg h1] at h ⊢
      by_cases h2 : env.fault Sys.fprintf f ≠ 0
      · rw [if_pos h2] at h; simp at h
      · rw [if_neg h2] at h ⊢
        by_cases h3 : close_file env f ≠ 0
        · rw [if_pos h3] at h
          exfalso
          apply h
          unfold close_file at h3 ⊢
          split_ifs at h3 ⊢
          · simp
          · exact absurd rfl h3
        · rw [if_neg h3]
  · simp at h

theorem update_file_failed (env : Env) (w : World) (f : CStr) (c : Nat)
    (h : (update_file env w f c).1 < 0) : (update_file env w f c).2.fs = w.fs := by
  unfold update_file at h ⊢
  split
  · rename_i old hl
    simp only [hl] at h
    split_ifs at h ⊢
    · rfl
    · rfl
    · rfl
    · simp at h
  · rfl

theorem read_file_keeps (env : Env) (w : World) (f : CStr) :
    keeps_entries w.fs (read_file env w f).2.2.fs ∧
    no_new_directory w.fs (read_file env w f).2.2.fs := by
  have hsame : ∀ w1 : World, w1.fs = w.fs → keeps_entries w.fs w1.fs ∧ no_new_directory w.fs w1.fs := by
    intro w1 h1
    rw [h1]
    exact ⟨fun _ _ h => h, fun _ h => h⟩
  unfold read_file
  split
  · rename_i hl
    split_ifs
    · exact hsame _ rfl
    · unfold reset_file
      split_ifs
      · exact hsame _ rfl
      · constructor
        · intro p n hp
          have hne : p ≠ f := by
            intro he; rw [he, hl] at hp; simp at hp
          simpa [fs_lookup_store_other hne] using hp
        · intro p hp
          by_cases he : p = f
          · subst he
            simp [fs_lookup_store_self] at hp
          · simpa [fs_lookup_store_other he] using hp
  · split_ifs
    · exact hsame _ rfl
    · exact hsame _ rfl

theorem reserve_crash_folder_failed (env : Env) (w : World) (mode : e_dir_mode_t)
    (h : (reserve_crash_folder env w mode).1 = none) :
    keeps_entries w.fs (reserve_crash_folder env w mode).2.fs ∧
    no_new_directory w.fs (reserve_crash_folder env w mode).2.fs := by
  unfold reserve_crash_folder at h ⊢
  simp only at h ⊢
  split_ifs at h ⊢ with h1 h2 h3
  · exact ⟨fun _ _ h => h, fun _ h => h⟩
  · exact read_file_keeps env w _
  · rw [update_file_failed env _ _ _ h3]
    exact read_file_keeps env w _

theorem read_file_fault (env : Env) (w : World) (f : CStr)
    (h1 : env.fault Sys.fopen_r f ≠ 0) (h2 : env.fault Sys.fopen_r f ≠ ENOENT) :
    (read_file env w f).1 < 0 := by
  unfold read_file
  split
  · rw [if_pos ⟨h1, h2⟩]; simp
  · rw [if_pos h1]; simp

theorem reserve_crash_folder_none (env : Env) (w : World) (mode : e_dir_mode_t)
    (h : (read_file env w (mode_paths env mode).1).1 < 0 ∨
      (update_file env (read_file env w (mode_paths env mode).1).2.2 (mode_paths env mode).1
        (read_file env w (mode_paths env mode).1).2.1).1 < 0) :
    (reserve_crash_folder env w mode).1 = none := by
  unfold reserve_crash_folder
  simp only
  split_ifs with h1 h2 h3
  · rfl
  · rfl
  · rfl
  · rcases h with h | h
    · exact absurd h h2
    · exact absurd h h3


theorem snd_ite_pair {α β : Type} (P : Prop) [Decidable P] (a b : α) (x : β) :
    (if P then (a, x) else (b, x)).2 = x := by
  split_ifs <;> rfl

theorem generate_crashlog_dir_keeps (env : Env) (w : World) (mode : e_dir_mode_t)
    (unique q : CStr) (hq : q ≠ (mode_paths env mode).1)
    (hex : (fs_lookup q w.fs).isSome = true)
    (hsafe : evicted_by (slot_match env (mode_paths env mode).2
      (read_file env w (mode_paths env mode).1).2.1) q = false) :
    fs_lookup q (generate_crashlog_dir env w mode unique).2.fs = fs_lookup q w.fs := by
  unfold generate_crashlog_dir
  generalize hr : reserve_crash_folder env w mode = r
  have hres := reserve_crash_folder_lookup_other env w mode q hq
  rw [hr] at hres
  match r, hr, hres with
  | (none, w1), hr, hres => exact hres
  | (some (dir, cur), w1), hr, hres =>
    obtain ⟨hd, hc, -⟩ := reserve_crash_folder_some env w mode dir cur (by rw [hr])
    subst hd hc
    simp only at hres ⊢
    have hkeep : fs_lookup q (rmfr_match w1 (slot_match env (mode_paths env mode).2
        (read_file env w (mode_paths env mode).1).2.1)).2.fs = fs_lookup q w.fs := by
      rw [rmfr_match_keep _ _ _ hsafe, hres]
    rw [snd_ite_pair, create_crash_folder_keep _ _ _ _
      (by rw [history_step_fs, hkeep]; exact hex), history_step_fs, hkeep]

theorem find_new_crashlog_dir_keeps (env : Env) (w : World) (mode : e_dir_mode_t)
    (q : CStr) (hq : q ≠ (mode_paths env mode).1)
    (hex : (fs_lookup q w.fs).isSome = true)
    (hsafe : is_under (snprintf env.PATHMAX ((mode_paths env mode).2 ++
      fmt_int (toInt32 (Int.ofNat (read_file env w (mode_paths env mode).1).2.1)))) q = false) :
    fs_lookup q (find_new_crashlog_dir env w mode).2.fs = fs_lookup q w.fs := by
  unfold find_new_crashlog_dir
  generalize hr : reserve_crash_folder env w mode = r
  have hres := reserve_crash_folder_lookup_other env w mode q hq
  rw [hr] at hres
  match r, hr, hres with
  | (none, w1), hr, hres => exact hres
  | (some (dir, cur), w1), hr, hres =>
    obtain ⟨hd, hc, -⟩ := reserve_crash_folder_some env w mode dir cur (by rw [hr])
    subst hd hc
    simp only at hres ⊢
    have hkeep : ∀ w2 : World, w2.fs = w1.fs →
        fs_lookup q (rmfr w2 (snprintf env.PATHMAX ((mode_paths env mode).2 ++
          fmt_int (toInt32 (Int.ofNat (read_file env w (mode_paths env mode).1).2.1))))).2.fs
          = fs_lookup q w.fs := by
      intro w2 h2
      rw [rmfr_lookup_keep _ _ _ hsafe, h2, hres]
    rw [snd_ite_pair, create_crash_folder_keep _ _ _ _
      (by rw [hkeep _ (history_step_fs _ _)]; exact hex), hkeep _ (history_step_fs _ _)]

/-! ## Lemmas about what an eviction leaves in place -/

theorem not_evicted_of_under {D pre name q : CStr} (hpre : '/' ∉ pre) (hname : '/' ∉ name)
    (hstr : strstr name pre = false) (hu : is_under (D ++ '/' :: name) q = true) :
    evicted_by (D ++ '/' :: pre) q = false := by
  unfold evicted_by
  simp only [after_last_slash_append D pre hpre, before_last_slash_append D pre hpre,
    Bool.and_eq_false_iff]
  right
  rw [is_under_iff] at hu
  rcases hu with rfl | ⟨r, rfl⟩
  · have : List.drop (D.length + 1) (D ++ '/' :: name) = name := by
      rw [List.drop_append_eq_append_drop]
      simp
    rw [this, takeWhile_not_slash_self name hname]
    exact hstr
  · have : List.drop (D.length + 1) (D ++ '/' :: name ++ '/' :: r) = name ++ '/' :: r := by
      rw [List.append_assoc, List.drop_append_eq_append_drop]
      simp
    rw [this, takeWhile_not_slash name r hname]
    exact hstr

theorem not_evicted_outside {D pre q : CStr} (hpre : '/' ∉ pre)
    (hq : starts_with q (D ++ ['/']) = false) :
    evicted_by (D ++ '/' :: pre) q = false := by
  unfold evicted_by
  simp only [after_last_slash_append D pre hpre, before_last_slash_append D pre hpre, hq,
    Bool.false_and]

theorem slot_match_fits (env : Env) (D P : CStr) (i : Nat)
    (hfit : (D ++ '/' :: (P ++ fmt_int (toInt32 (Int.ofNat i)) ++ ['_'])).length < env.PATHMAX) :
    slot_match env (D ++ '/' :: P) i
      = D ++ '/' :: (P ++ fmt_int (toInt32 (Int.ofNat i)) ++ ['_']) := by
  unfold slot_match
  rw [snprintf_fits]
  · simp
  · simp only [List.length_append, List.length_cons, List.length_singleton,
      List.length_nil] at hfit ⊢
    omega

/-! ## Lemmas about the names `do_copy_circular` copies -/

theorem backup_copies_snoc {PATHMAX : Nat} {source destination file extension extra : CStr}
    {cnt_len first : Nat} {l : List CopyRec}
    (h : backup_copies PATHMAX source destination file extension extra cnt_len first l)
    (c : CopyRec)
    (h1 : c.src = backup_path PATHMAX source extension cnt_len
      (toInt32 (Int.ofNat (first + l.length))))
    (h2 : c.dest = backup_dest PATHMAX destination file extension extra cnt_len
      (toInt32 (Int.ofNat (first + l.length)))) :
    backup_copies PATHMAX source destination file extension extra cnt_len first (l ++ [c]) := by
  intro j hj
  by_cases hjl : j < l.length
  · rw [List.getElem_append_left hjl]
    exact h j hjl
  · have hje : j = l.length := by
      simp only [List.length_append, List.length_singleton] at hj
      omega
    subst hje
    simp only [List.getElem_concat_length]
    exact ⟨h1, h2⟩

theorem loop_names (env : Env) (source destination file extension extra : CStr)
    (cnt_len np first : Nat) :
    ∀ (fuel : Nat) (w : World) (limit : Int) (index : Int) (rc : Int) (copies : List CopyRec),
      np ≤ copies.length →
      backup_copies env.PATHMAX source destination file extension extra cnt_len first
        (copies.drop np) →
      index = toInt32 (Int.ofNat (first + (copies.length - np))) →
      (do_copy_circular_loop env source destination file extension extra cnt_len
          fuel w limit index rc copies).copies.take np = copies.take np ∧
      backup_copies env.PATHMAX source destination file extension extra cnt_len first
        ((do_copy_circular_loop env source destination file extension extra cnt_len
          fuel w limit index rc copies).copies.drop np) := by
  intro fuel
  induction fuel with
  | zero =>
    intro w limit index rc copies _ hb _
    simp only [do_copy_circular_loop]
    exact ⟨trivial, hb⟩
  | succ n ih =>
    intro w limit index rc copies hnp hb hidx
    simp only [do_copy_circular_loop]
    by_cases hz : limit = 0
    · rw [if_pos hz]
      exact ⟨rfl, hb⟩
    · rw [if_neg hz]
      have hlen : (copies.drop np).length = copies.length - np := List.length_drop _ _
      generalize hr : do_copy_tail env w (backup_path env.PATHMAX source extension cnt_len index)
        (backup_dest env.PATHMAX destination file extension extra cnt_len index)
        (toInt32 limit) = r
      have hb1 : backup_copies env.PATHMAX source destination file extension extra cnt_len first
          ((copies ++ [(⟨backup_path env.PATHMAX source extension cnt_len index,
            backup_dest env.PATHMAX destination file extension extra cnt_len index, limit,
            r.1⟩ : CopyRec)]).drop np) := by
        rw [List.drop_append_of_le_length hnp]
        apply backup_copies_snoc hb
        · rw [hlen, hidx]
        · rw [hlen, hidx]
      have ht1 : ∀ c : CopyRec, (copies ++ [c]).take np = copies.take np := by
        intro c
        rw [List.take_append_of_le_length hnp]
      by_cases hneg : r.1 < 0
      · rw [if_pos hneg]
        exact ⟨ht1 _, hb1⟩
      · rw [if_neg hneg]
        have h := ih r.2 (limit - r.1) (toInt32 (index + 1)) r.1
          (copies ++ [⟨backup_path env.PATHMAX source extension cnt_len index,
            backup_dest env.PATHMAX destination file extension extra cnt_len index, limit,
            r.1⟩])
          (by simp only [List.length_append, List.length_singleton]; omega)
          hb1
          (by
            rw [hidx, toInt32_succ]
            congr 1
            simp only [List.length_append, List.length_singleton, Int.ofNat_eq_coe]
            omega)
        exact ⟨by rw [h.1, ht1], h.2⟩

/-! ## Lemmas about the correlator, the ring, the time stamp and the ledger -/

theorem moved_to_matched (env : Env) (d : DedupEnv) (st : DedupState) (w : World)
    (event : inotify_event) (hfrom : event.mask &&& IN_MOVED_FROM = 0)
    (h : event.mask &&& IN_MOVED_TO ≠ 0 ∧ st.previous_event_cookie ≠ 0 ∧
      st.previous_event_cookie = event.cookie ∧ event.len ≠ 0) :
    (manage_duplicate_dropbox_events env d st w event).ret = -1 ∧
    (manage_duplicate_dropbox_events env d st w event).state = ⟨0, []⟩ ∧
    ∃ ev : InfoEvent, (manage_duplicate_dropbox_events env d st w event).infoevents = [ev] ∧
      ev.data0 = st.previous_filename ∧ ev.data1 = event.name := by
  unfold manage_duplicate_dropbox_events
  rw [if_neg (by simp [hfrom]), if_pos h]
  exact ⟨rfl, rfl, _, rfl, rfl, rfl⟩

theorem moved_to_unmatched (env : Env) (d : DedupEnv) (st : DedupState) (w : World)
    (event : inotify_event) (hfrom : event.mask &&& IN_MOVED_FROM = 0)
    (h : ¬ (event.mask &&& IN_MOVED_TO ≠ 0 ∧ st.previous_event_cookie ≠ 0 ∧
      st.previous_event_cookie = event.cookie ∧ event.len ≠ 0)) :
    manage_duplicate_dropbox_events env d st w event = ⟨0, st, w, [], false⟩ := by
  unfold manage_duplicate_dropbox_events
  rw [if_neg (by simp [hfrom]), if_neg h]

theorem moved_from_stores (env : Env) (d : DedupEnv) (st : DedupState) (w : World)
    (event : inotify_event) (hfrom : event.mask &&& IN_MOVED_FROM ≠ 0) :
    manage_duplicate_dropbox_events env d st w event
      = ⟨-1, ⟨event.cookie, event.name.take (moved_from_index env.PATHMAX event.len)⟩, w, [],
          decide (env.PATHMAX ≤ moved_from_index env.PATHMAX event.len)⟩ := by
  unfold manage_duplicate_dropbox_events
  rw [if_pos hfrom]

theorem getD_set_other {α : Type} (l : List α) (i j : Nat) (x d : α) (h : j ≠ i) :
    (l.set i x).getD j d = l.getD j d := by
  simp only [List.getD_eq_getElem?_getD]
  rw [List.getElem?_set_ne (Ne.symm h)]

theorem getD_set_self_default {α : Type} (l : List α) (i : Nat) (d : α) :
    (l.set i d).getD i d = d := by
  simp only [List.getD_eq_getElem?_getD]
  by_cases h : i < l.length
  · rw [List.getElem?_set_eq_of_lt _ h]; rfl
  · rw [List.getElem?_eq_none (by simp; omega)]; rfl

theorem after_char_none {c : Char} {s : CStr} (h : c ∉ s) : after_char c s = none := by
  induction s with
  | nil => rfl
  | cons x r ih =>
    simp only [List.mem_cons, not_or] at h
    unfold after_char
    rw [if_neg (fun hx => h.1 hx.symm)]
    exact ih h.2

theorem after_char_append {c : Char} (p r : CStr) (h : c ∉ p) :
    after_char c (p ++ c :: r) = some r := by
  induction p with
  | nil => simp [after_char]
  | cons x q ih =>
    simp only [List.mem_cons, not_or] at h
    simp only [List.cons_append]
    unfold after_char
    rw [if_neg (fun hx => h.1 hx.symm)]
    exact ih h.2

theorem strtol_sat_digit (max : Nat) (c : Char) (r : CStr) (hc : isdigit c = true) :
    0 ≤ strtol_sat max (c :: r) ∧ strtol_sat max (c :: r) ≤ Int.ofNat max := by
  have hsp : isspace c = false := by
    unfold isdigit at hc
    unfold isspace
    simp only [decide_eq_true_eq] at hc
    simp only [Bool.or_eq_false_iff, Bool.and_eq_false_iff, decide_eq_false_iff_not]
    constructor
    · omega
    · right; omega
  unfold strtol_sat
  have hd : (c :: r).dropWhile isspace = c :: r := by
    simp [List.dropWhile, hsp]
  rw [hd]
  split
  · rename_i heq
    simp only [List.cons.injEq] at heq
    rw [heq.1] at hc
    exact absurd hc (by decide)
  · rename_i heq
    simp only [List.cons.injEq] at heq
    rw [heq.1] at hc
    exact absurd hc (by decide)
  · simp only [Int.ofNat_eq_coe]
    constructor
    · exact Int.natCast_nonneg _
    · exact Int.ofNat_le.mpr (Nat.min_le_right _ _)

theorem extract_dropbox_timestamp_shape (TMS LM : Nat) (P D S : CStr) (hP : '@' ∉ P)
    (hD : '.' ∉ D) (hlen : D.length < 2147483648) :
    extract_dropbox_timestamp TMS LM (P ++ '@' :: (D ++ '.' :: S)) =
      if 4 ≤ D.length ∧ D.length ≤ TMS + 3 then
        if (D.take (D.length - 3)).all isdigit then
          if strtol_sat LLONG_MAX ((D ++ '.' :: S).take TMS) > Int.ofNat LM then -1
          else strtol_sat LM ((D ++ '.' :: S).take TMS)
        else -1
      else -1 := by
  unfold extract_dropbox_timestamp
  rw [after_char_append P _ hP]
  simp only
  rw [after_char_append D _ hD]
  simp only
  have hn : (D ++ '.' :: S).length - (S.length + 1) = D.length := by
    simp only [List.length_append, List.length_cons]
    omega
  rw [hn]
  have h32 : toInt32 (Int.ofNat D.length - 3) = Int.ofNat D.length - 3 :=
    toInt32_of_range (by simp only [Int.ofNat_eq_coe]; omega)
      (by simp only [Int.ofNat_eq_coe]; omega)
  rw [h32]
  by_cases hc : 4 ≤ D.length ∧ D.length ≤ TMS + 3
  · have hc' : Int.ofNat D.length - 3 ≤ Int.ofNat TMS ∧ Int.ofNat D.length - 3 > 0 := by
      simp only [Int.ofNat_eq_coe]; omega
    rw [if_pos hc, if_pos hc']
    have ht : (Int.ofNat D.length - 3).toNat = D.length - 3 := by
      simp only [Int.ofNat_eq_coe]; omega
    have htake : ((D ++ '.' :: S).take TMS).take (D.length - 3) = D.take (D.length - 3) := by
      rw [List.take_take, Nat.min_eq_left (by omega), List.take_append_of_le_length (by omega)]
    rw [ht, htake]
  · have hc' : ¬ (Int.ofNat D.length - 3 ≤ Int.ofNat TMS ∧ Int.ofNat D.length - 3 > 0) := by
      simp only [Int.ofNat_eq_coe]; omega
    rw [if_neg hc, if_neg hc']

theorem read_file_history (env : Env) (w : World) (f : CStr) :
    (read_file env w f).2.2.history_deleted = w.history_deleted := by
  unfold read_file
  split
  · split_ifs
    · rfl
    · unfold reset_file
      split_ifs <;> rfl
  · split_ifs <;> rfl

theorem update_file_history (env : Env) (w : World) (f : CStr) (c : Nat) :
    (update_file env w f c).2.history_deleted = w.history_deleted := by
  unfold update_file
  split
  · split_ifs <;> rfl
  · rfl

theorem reserve_crash_folder_history (env : Env) (w : World) (mode : e_dir_mode_t) :
    (reserve_crash_folder env w mode).2.history_deleted = w.history_deleted := by
  unfold reserve_crash_folder
  simp only
  split_ifs
  · rfl
  · exact read_file_history env w _
  · rw [update_file_history, read_file_history]
  · rw [update_file_history, read_file_history]

theorem create_crash_folder_history (env : Env) (w : World) (p : CStr) :
    (create_crash_folder env w p).2.history_deleted = w.history_deleted := by
  have hm : (mkdir env w p).2.history_deleted = w.history_deleted := by
    unfold mkdir
    split_ifs <;> rfl
  unfold create_crash_folder
  simp only
  split_ifs
  · unfold check_partlogfull at *
    split_ifs <;> simpa [raise_infoerror] using hm
  · unfold check_partlogfull at *
    split_ifs <;> simpa [raise_infoerror] using hm
  · simpa [raise_infoerror] using hm
  · exact hm

/-! ## Lemmas about `quicksort` -/

theorem swap_at_length {β : Type} (l : List β) (i j : Nat) :
    (swap_at l i j).length = l.length := by
  unfold swap_at
  split <;> simp

theorem map_swap_at {β γ : Type} (g : β → γ) (l : List β) (i j : Nat) :
    (swap_at l i j).map g = swap_at (l.map g) i j := by
  unfold swap_at
  cases hi : l[i]? with
  | none => simp [hi]
  | some a =>
    cases hj : l[j]? with
    | none => simp [hi, hj]
    | some b => simp [hi, hj, List.map_set]

theorem swap_at_self {β : Type} (l : List β) (i : Nat) : swap_at l i i = l := by
  unfold swap_at
  cases hi : l[i]? with
  | none => rfl
  | some a =>
    simp only
    rw [List.set_set]
    apply List.ext_getElem?
    intro k
    by_cases hk : i = k
    · subst hk
      rw [List.getElem?_set_eq_of_lt, hi]
      exact (List.getElem?_eq_some.mp hi).1
    · rw [List.getElem?_set_ne hk]

theorem swap_at_cons_succ {β : Type} (x : β) (l : List β) (i j : Nat) :
    swap_at (x :: l) (i + 1) (j + 1) = x :: swap_at l i j := by
  unfold swap_at
  simp only [List.getElem?_cons_succ]
  split <;> rfl

theorem swap_at_prefix {β : Type} (X l : List β) (i j : Nat) :
    swap_at (X ++ l) (X.length + i) (X.length + j) = X ++ swap_at l i j := by
  induction X with
  | nil => simp
  | cons x X ih =>
    simp only [List.cons_append, List.length_cons]
    rw [show X.length + 1 + i = (X.length + i) + 1 by omega,
      show X.length + 1 + j = (X.length + j) + 1 by omega, swap_at_cons_succ, ih]

theorem set_middle {β : Type} (M : List β) (b a : β) (Y : List β) :
    (M ++ b :: Y).set M.length a = M ++ a :: Y := by
  induction M with
  | nil => rfl
  | cons m M ih => simp [ih]

theorem getElem_opt_middle {β : Type} (M : List β) (b : β) (Y : List β) :
    (M ++ b :: Y)[M.length]? = some b := by
  induction M with
  | nil => simp
  | cons m M ih => simpa using ih

theorem swap_at_ends {β : Type} (a b : β) (M Y : List β) :
    swap_at (a :: M ++ b :: Y) 0 (M.length + 1) = b :: M ++ a :: Y := by
  unfold swap_at
  have h1 : (a :: M ++ b :: Y)[0]? = some a := by simp
  have h2 : (a :: M ++ b :: Y)[M.length + 1]? = some b := by
    rw [List.cons_append, List.getElem?_cons_succ]
    exact getElem_opt_middle M b Y
  rw [h1, h2]
  simp only [List.cons_append, List.set_cons_zero, List.set_cons_succ]
  rw [set_middle]

theorem swap_at_ends_rev {β : Type} (a b : β) (M Y : List β) :
    swap_at (a :: M ++ b :: Y) (M.length + 1) 0 = b :: M ++ a :: Y := by
  unfold swap_at
  have h1 : (a :: M ++ b :: Y)[0]? = some a := by simp
  have h2 : (a :: M ++ b :: Y)[M.length + 1]? = some b := by
    rw [List.cons_append, List.getElem?_cons_succ]
    exact getElem_opt_middle M b Y
  rw [h1, h2]
  simp only [List.cons_append, List.set_cons_zero, List.set_cons_succ]
  rw [set_middle]

theorem swap_at_segment {β : Type} (X : List β) (a b : β) (M Y : List β) :
    swap_at (X ++ (a :: M ++ b :: Y)) X.length (X.length + M.length + 1)
      = X ++ (b :: M ++ a :: Y) := by
  have h := swap_at_prefix X (a :: M ++ b :: Y) 0 (M.length + 1)
  rw [swap_at_ends] at h
  simpa [Nat.add_assoc] using h

theorem swap_at_segment_rev {β : Type} (X : List β) (a b : β) (M Y : List β) :
    swap_at (X ++ (a :: M ++ b :: Y)) (X.length + M.length + 1) X.length
      = X ++ (b :: M ++ a :: Y) := by
  have h := swap_at_prefix X (a :: M ++ b :: Y) (M.length + 1) 0
  rw [swap_at_ends_rev] at h
  simpa [Nat.add_assoc] using h

theorem getD_middle (M : List Int) (b : Int) (Y : List Int) :
    (M ++ b :: Y).getD M.length 0 = b := by
  rw [List.getD_eq_getElem?_getD, getElem_opt_middle]
  rfl

theorem perm_swap_ends (x hh : Int) (Hi1 Rest : List Int) :
    (x :: (Hi1 ++ hh :: Rest)).Perm (hh :: (Hi1 ++ x :: Rest)) :=
  ((List.perm_middle).cons x).trans
    ((List.Perm.swap hh x _).trans ((List.perm_middle).symm.cons hh))

theorem qs_swap_paired {α γ : Type} (g : α → γ) (f : Int → γ) (s : SortState α) (i j : Nat)
    (h : s.array.map g = s.indexes.map f) :
    (qs_swap s i j).array.map g = (qs_swap s i j).indexes.map f := by
  unfold qs_swap
  simp only
  rw [map_swap_at, map_swap_at, h]

theorem qs_partition_loop_spec {α : Type} (A B : List Int) (pk : Int) :
    ∀ (Rest Lo Hi : List Int) (s : SortState α) (end_ i j : Nat),
      s.indexes = A ++ (Lo ++ Hi ++ Rest ++ pk :: B) →
      end_ = A.length + Lo.length + Hi.length + Rest.length →
      i = A.length + Lo.length + Hi.length → j = A.length + Lo.length →
      (∀ x ∈ Lo, x ≤ pk) → (∀ x ∈ Hi, pk < x) →
      ∃ Lo1 Hi1 : List Int,
        (qs_partition_loop end_ Rest.length i j s).1.indexes = A ++ (Lo1 ++ Hi1 ++ pk :: B) ∧
        (qs_partition_loop end_ Rest.length i j s).2 = A.length + Lo1.length ∧
        (∀ x ∈ Lo1, x ≤ pk) ∧ (∀ x ∈ Hi1, pk < x) ∧
        (Lo1 ++ Hi1).Perm (Lo ++ Hi ++ Rest) ∧
        (∀ (γ : Type) (g : α → γ) (f : Int → γ), s.array.map g = s.indexes.map f →
          (qs_partition_loop end_ Rest.length i j s).1.array.map g
            = (qs_partition_loop end_ Rest.length i j s).1.indexes.map f) := by
  intro Rest
  induction Rest with
  | nil =>
    intro Lo Hi s end_ i j hs _ _ hj hLo hHi
    refine ⟨Lo, Hi, ?_, ?_, hLo, hHi, by simp, fun γ g f h => h⟩
    · simpa [qs_partition_loop] using hs
    · simpa [qs_partition_loop] using hj
  | cons x Rest ih =>
    intro Lo Hi s end_ i j hs hend hi hj hLo hHi
    have hxi : s.indexes.getD i 0 = x := by
      rw [hs, hi]
      have := getD_middle (A ++ Lo ++ Hi) x (Rest ++ pk :: B)
      simpa [List.append_assoc, Nat.add_assoc] using this
    have hpe : s.indexes.getD end_ 0 = pk := by
      rw [hs, hend]
      have := getD_middle (A ++ Lo ++ Hi ++ x :: Rest) pk B
      simpa [List.append_assoc, Nat.add_assoc] using this
    simp only [List.length_cons, qs_partition_loop, hxi, hpe]
    by_cases hx : x ≤ pk
    · rw [if_pos hx]
      have hLo1 : ∀ y ∈ Lo ++ [x], y ≤ pk := by
        intro y hy
        rcases List.mem_append.mp hy with h | h
        · exact hLo y h
        · rw [List.mem_singleton.mp h]; exact hx
      cases Hi with
      | nil =>
        have hij : i = j := by rw [hi, hj]; simp
        have hs1 : (qs_swap s i j).indexes = A ++ ((Lo ++ [x]) ++ [] ++ Rest ++ pk :: B) := by
          unfold qs_swap
          simp only
          rw [hij, swap_at_self, hs]
          simp
        obtain ⟨Lo1, Hi1, h1, h2, h3, h4, h5, h6⟩ := ih (Lo ++ [x]) [] (qs_swap s i j) end_
          (i + 1) (j + 1) hs1
          (by simp only [List.length_append, List.length_singleton, List.length_nil,
            List.length_cons] at hend hi hj ⊢; omega)
          (by simp only [List.length_append, List.length_singleton, List.length_nil,
            List.length_cons] at hend hi hj ⊢; omega)
          (by simp only [List.length_append, List.length_singleton, List.length_nil,
            List.length_cons] at hend hi hj ⊢; omega)
          hLo1 (by simp)
        refine ⟨Lo1, Hi1, h1, h2, h3, h4, ?_, fun γ g f h => h6 γ g f (qs_swap_paired g f s i j h)⟩
        refine h5.trans ?_
        simp
      | cons hh Hi1 =>
        have hs1 : (qs_swap s i j).indexes
            = A ++ ((Lo ++ [x]) ++ (Hi1 ++ [hh]) ++ Rest ++ pk :: B) := by
          unfold qs_swap
          simp only
          have hsw := swap_at_segment_rev (A ++ Lo) hh x Hi1 (Rest ++ pk :: B)
          have hl : s.indexes = A ++ Lo ++ (hh :: Hi1 ++ x :: (Rest ++ pk :: B)) := by
            rw [hs]; simp
          have hi2 : i = (A ++ Lo).length + Hi1.length + 1 := by
            rw [hi]; simp only [List.length_append, List.length_cons]; omega
          have hj2 : j = (A ++ Lo).length := by
            rw [hj]; simp
          rw [hl, hi2, hj2, hsw]
          simp
        obtain ⟨Lo2, Hi2, h1, h2, h3, h4, h5, h6⟩ := ih (Lo ++ [x]) (Hi1 ++ [hh])
          (qs_swap s i j) end_ (i + 1) (j + 1) hs1
          (by simp only [List.length_append, List.length_singleton, List.length_nil,
            List.length_cons] at hend hi hj ⊢; omega)
          (by simp only [List.length_append, List.length_singleton, List.length_nil,
            List.length_cons] at hend hi hj ⊢; omega)
          (by simp only [List.length_append, List.length_singleton, List.length_nil,
            List.length_cons] at hend hi hj ⊢; omega)
          hLo1
          (by
            intro y hy
            rcases List.mem_append.mp hy with h | h
            · exact hHi y (List.mem_cons_of_mem _ h)
            · rw [List.mem_singleton.mp h]; exact hHi hh (List.mem_cons_self _ _))
        refine ⟨Lo2, Hi2, h1, h2, h3, h4, ?_, fun γ g f h => h6 γ g f (qs_swap_paired g f s i j h)⟩
        refine h5.trans ?_
        have e1 : Lo ++ [x] ++ (Hi1 ++ [hh]) ++ Rest = Lo ++ (x :: (Hi1 ++ hh :: Rest)) := by
          simp
        have e2 : Lo ++ hh :: Hi1 ++ x :: Rest = Lo ++ (hh :: (Hi1 ++ x :: Rest)) := by
          simp
        rw [e1, e2]
        exact List.Perm.append_left Lo (perm_swap_ends x hh Hi1 Rest)
    · rw [if_neg hx]
      have hs1 : s.indexes = A ++ (Lo ++ (Hi ++ [x]) ++ Rest ++ pk :: B) := by
        rw [hs]; simp
      obtain ⟨Lo2, Hi2, h1, h2, h3, h4, h5, h6⟩ := ih Lo (Hi ++ [x]) s end_ (i + 1) j hs1
        (by simp only [List.length_append, List.length_singleton, List.length_nil,
            List.length_cons] at hend hi hj ⊢; omega)
        (by simp only [List.length_append, List.length_singleton, List.length_nil,
            List.length_cons] at hend hi hj ⊢; omega)
        hj hLo
        (by
          intro y hy
          rcases List.mem_append.mp hy with h | h
          · exact hHi y h
          · rw [List.mem_singleton.mp h]; omega)
      refine ⟨Lo2, Hi2, h1, h2, h3, h4, ?_, h6⟩
      refine h5.trans ?_
      simp

theorem qs_partition_spec {α : Type} (A B seg : List Int) (s : SortState α)
    (hs : s.indexes = A ++ (seg ++ B)) (hlen : 2 ≤ seg.length) :
    ∃ (L R : List Int) (p : Int),
      (qs_partition s A.length (A.length + seg.length - 1) A.length).1.indexes
        = A ++ (L ++ p :: R ++ B) ∧
      (qs_partition s A.length (A.length + seg.length - 1) A.length).2 = A.length + L.length ∧
      (∀ x ∈ L, x ≤ p) ∧ (∀ x ∈ R, p < x) ∧ (L ++ p :: R).Perm seg ∧
      (∀ (γ : Type) (g : α → γ) (f : Int → γ), s.array.map g = s.indexes.map f →
        (qs_partition s A.length (A.length + seg.length - 1) A.length).1.array.map g
          = (qs_partition s A.length (A.length + seg.length - 1) A.length).1.indexes.map f) := by
  obtain ⟨p, seg1, hseg⟩ : ∃ p seg1, seg = p :: seg1 := by
    cases seg with
    | nil => simp at hlen
    | cons p seg1 => exact ⟨p, seg1, rfl⟩
  obtain ⟨M, e, hseg1⟩ : ∃ M e, seg1 = M ++ [e] := by
    rcases List.eq_nil_or_concat seg1 with h | ⟨M, e, h⟩
    · rw [hseg, h] at hlen; simp at hlen
    · exact ⟨M, e, by simpa using h⟩
  subst hseg1
  subst hseg
  have hend : A.length + (p :: (M ++ [e])).length - 1 = A.length + M.length + 1 := by
    simp only [List.length_cons, List.length_append, List.length_singleton, List.length_nil]
    omega
  rw [hend]
  unfold qs_partition
  simp only
  have hs0 : (qs_swap s A.length (A.length + M.length + 1)).indexes
      = A ++ ([] ++ [] ++ (e :: M) ++ p :: B) := by
    unfold qs_swap
    simp only
    have hl : s.indexes = A ++ (p :: M ++ e :: B) := by rw [hs]; simp
    rw [hl, swap_at_segment]
    simp
  have hn : A.length + M.length + 1 - A.length = (e :: M).length := by
    simp only [List.length_cons]; omega
  rw [hn]
  obtain ⟨Lo1, Hi1, h1, h2, h3, h4, h5, h6⟩ := qs_partition_loop_spec A B p (e :: M) [] []
    (qs_swap s A.length (A.length + M.length + 1)) (A.length + M.length + 1) A.length A.length
    hs0 (by simp only [List.length_nil, List.length_cons]; omega) (by simp) (by simp) (by simp)
    (by simp)
  generalize qs_partition_loop (A.length + M.length + 1) (e :: M).length A.length A.length
    (qs_swap s A.length (A.length + M.length + 1)) = r at h1 h2 h6
  have hlenp : Lo1.length + Hi1.length = M.length + 1 := by
    have := h5.length_eq
    simpa using this
  have hpaired : ∀ (γ : Type) (g : α → γ) (f : Int → γ), s.array.map g = s.indexes.map f →
      (qs_swap r.1 (A.length + M.length + 1) r.2).array.map g
        = (qs_swap r.1 (A.length + M.length + 1) r.2).indexes.map f :=
    fun γ g f h => qs_swap_paired g f _ _ _ (h6 γ g f (qs_swap_paired g f s _ _ h))
  have hperm0 : (Lo1 ++ Hi1).Perm (M ++ [e]) := by
    refine h5.trans ?_
    simp only [List.append_nil, List.nil_append]
    exact (List.perm_append_singleton e M).symm
  cases Hi1 with
  | nil =>
    refine ⟨Lo1, [], p, ?_, h2, h3, by simp, ?_, hpaired⟩
    · unfold qs_swap
      simp only
      have : A.length + M.length + 1 = r.2 := by
        rw [h2]; simp only [List.length_nil] at hlenp; omega
      rw [this, swap_at_self, h1]
      simp
    · exact (List.perm_middle).trans (List.Perm.cons p hperm0)
  | cons hh H =>
    refine ⟨Lo1, H ++ [hh], p, ?_, h2, h3, ?_, ?_, hpaired⟩
    · unfold qs_swap
      simp only
      have hl : r.1.indexes = (A ++ Lo1) ++ (hh :: H ++ p :: B) := by rw [h1]; simp
      have he : A.length + M.length + 1 = (A ++ Lo1).length + H.length + 1 := by
        simp only [List.length_append, List.length_cons] at hlenp ⊢; omega
      have hj : r.2 = (A ++ Lo1).length := by rw [h2]; simp
      rw [hl, he, hj, swap_at_segment_rev]
      simp
    · intro y hy
      rcases List.mem_append.mp hy with h | h
      · exact h4 y (List.mem_cons_of_mem _ h)
      · rw [List.mem_singleton.mp h]; exact h4 hh (List.mem_cons_self _ _)
    · refine (List.perm_middle).trans (List.Perm.cons p ?_)
      refine List.Perm.trans ?_ hperm0
      refine List.Perm.append_left Lo1 ?_
      exact List.perm_append_singleton hh H

theorem sorted_join (L R : List Int) (p : Int) (hL : L.Sorted (· ≤ ·)) (hR : R.Sorted (· ≤ ·))
    (h1 : ∀ x ∈ L, x ≤ p) (h2 : ∀ x ∈ R, p < x) : (L ++ p :: R).Sorted (· ≤ ·) := by
  unfold List.Sorted at *
  rw [List.pairwise_append]
  refine ⟨hL, ?_, ?_⟩
  · rw [List.pairwise_cons]
    exact ⟨fun y hy => le_of_lt (h2 y hy), hR⟩
  · intro a ha b hb
    rcases List.mem_cons.mp hb with h | h
    · rw [h]; exact h1 a ha
    · exact le_trans (h1 a ha) (le_of_lt (h2 b h))

theorem quicksort_rec_spec {α : Type} :
    ∀ (fuel : Nat) (s : SortState α) (A seg B : List Int),
      s.indexes = A ++ (seg ++ B) → seg.length < fuel →
      ∃ (s1 : SortState α) (seg1 : List Int),
        __quicksort fuel s A.length (Int.ofNat (A.length + seg.length) - 1) = some s1 ∧
        s1.indexes = A ++ (seg1 ++ B) ∧ seg1.Perm seg ∧ seg1.Sorted (· ≤ ·) ∧
        (∀ (γ : Type) (g : α → γ) (f : Int → γ), s.array.map g = s.indexes.map f →
          s1.array.map g = s1.indexes.map f) := by
  intro fuel
  induction fuel with
  | zero => intro s A seg B _ h; omega
  | succ n ih =>
    intro s A seg B hs hfuel
    unfold __quicksort
    by_cases hlt : Int.ofNat A.length < Int.ofNat (A.length + seg.length) - 1
    · rw [if_pos hlt]
      have hlen : 2 ≤ seg.length := by
        simp only [Int.ofNat_eq_coe] at hlt
        omega
      have hend : (Int.ofNat (A.length + seg.length) - 1).toNat = A.length + seg.length - 1 := by
        simp only [Int.ofNat_eq_coe]
        omega
      rw [hend]
      obtain ⟨L, R, p, h1, h2, h3, h4, h5, h6⟩ := qs_partition_spec A B seg s hs hlen
      generalize qs_partition s A.length (A.length + seg.length - 1) A.length = r
        at h1 h2 h6
      have hlenp : L.length + R.length + 1 = seg.length := by
        have := h5.length_eq
        simp only [List.length_append, List.length_cons] at this
        omega
      have hs1 : r.1.indexes = A ++ (L ++ (p :: R ++ B)) := by rw [h1]; simp
      obtain ⟨s1, L1, k1, k2, k3, k4, k5⟩ := ih r.1 A L (p :: R ++ B) hs1 (by omega)
      have hstart : Int.ofNat r.2 - 1 = Int.ofNat (A.length + L.length) - 1 := by rw [h2]
      rw [hstart, k1]
      simp only
      have hL1 : L1.length = L.length := k3.length_eq
      have hs2 : s1.indexes = (A ++ L1 ++ [p]) ++ (R ++ B) := by rw [k2]; simp
      obtain ⟨s2, R1, m1, m2, m3, m4, m5⟩ := ih s1 (A ++ L1 ++ [p]) R B hs2 (by omega)
      have hst2 : r.2 + 1 = (A ++ L1 ++ [p]).length := by
        rw [h2]
        simp only [List.length_append, List.length_singleton]
        omega
      have hend2 : Int.ofNat (A.length + seg.length) - 1
          = Int.ofNat ((A ++ L1 ++ [p]).length + R.length) - 1 := by
        simp only [List.length_append, List.length_singleton, Int.ofNat_eq_coe]
        omega
      rw [hst2, hend2, m1]
      refine ⟨s2, L1 ++ p :: R1, rfl, ?_, ?_, ?_, ?_⟩
      · rw [m2]; simp
      · refine List.Perm.trans ?_ h5
        exact List.Perm.append k3 (List.Perm.cons p m3)
      · apply sorted_join L1 R1 p k4 m4
        · intro x hx; exact h3 x (k3.mem_iff.mp hx)
        · intro x hx; exact h4 x (m3.mem_iff.mp hx)
      · intro γ g f h
        exact m5 γ g f (k5 γ g f (h6 γ g f h))
    · rw [if_neg hlt]
      have hlen : seg.length ≤ 1 := by
        simp only [Int.ofNat_eq_coe] at hlt
        omega
      refine ⟨s, seg, rfl, hs, List.Perm.refl _, ?_, fun γ g f h => h⟩
      match seg, hlen with
      | [], _ => exact List.sorted_nil
      | [a], _ => exact List.sorted_singleton a

theorem rotate_index (dim pivot i : Nat) (hp : pivot ≤ dim) (hi : i < dim) :
    (i + (dim - pivot)) % dim = if i < pivot then dim - pivot + i else i - pivot := by
  split_ifs with h
  · rw [Nat.mod_eq_of_lt (by omega)]; omega
  · have : i + (dim - pivot) = (i - pivot) + dim := by omega
    rw [this, Nat.add_mod_right, Nat.mod_eq_of_lt (by omega)]

theorem quicksort_indexes_eq (dim pivot : Nat) (hp : pivot ≤ dim) :
    quicksort_indexes dim pivot = ((List.range dim).rotate (dim - pivot)).map Int.ofNat := by
  apply List.ext_getElem
  · simp [quicksort_indexes]
  · intro i h1 h2
    have hi : i < dim := by simpa [quicksort_indexes] using h1
    simp only [quicksort_indexes, List.getElem_map, List.getElem_range, List.getElem_rotate,
      List.length_range]
    rw [rotate_index dim pivot i hp hi]
    split_ifs with h
    · simp only [Int.ofNat_eq_coe]; omega
    · simp only [Int.ofNat_eq_coe]; omega

theorem quicksort_indexes_perm (dim pivot : Nat) (hp : pivot ≤ dim) :
    (quicksort_indexes dim pivot).Perm ((List.range dim).map Int.ofNat) := by
  rw [quicksort_indexes_eq dim pivot hp]
  exact (List.rotate_perm _ _).map _

theorem sorted_range_int (dim : Nat) : ((List.range dim).map Int.ofNat).Sorted (· ≤ ·) := by
  unfold List.Sorted
  rw [List.pairwise_map]
  exact (List.sorted_le_range dim).imp (fun h => Int.ofNat_le.mpr h)

theorem map_some_range {α : Type} (l : List α) :
    (List.range l.length).map (fun i => l[i]?) = l.map some := by
  apply List.ext_getElem
  · simp
  · intro i h1 h2
    have hi : i < l.length := by simpa using h1
    simp [List.getElem?_eq_getElem hi]

theorem quicksort_paired_init {α : Type} (array : List α) (pivot : Nat)
    (hp : pivot < array.length) :
    array.map some
      = (quicksort_indexes array.length pivot).map
          (fun k => (array.rotate pivot)[k.toNat]?) := by
  apply List.ext_getElem
  · simp [quicksort_indexes]
  · intro i h1 h2
    have hi : i < array.length := by simpa using h1
    simp only [quicksort_indexes, List.getElem_map, List.getElem_range]
    have hk : ∀ k : Nat, k < array.length → (k + pivot) % array.length = i →
        some array[i] = (array.rotate pivot)[k]? := by
      intro k hk hki
      rw [List.getElem?_rotate hk]
      simp only [hki]
      exact (List.getElem?_eq_getElem hi).symm
    split_ifs with h
    · have e : (Int.ofNat array.length - Int.ofNat pivot + Int.ofNat i).toNat
          = array.length - pivot + i := by
        simp only [Int.ofNat_eq_coe]; omega
      rw [e]
      apply hk _ (by omega)
      have : array.length - pivot + i + pivot = i + array.length := by omega
      rw [this, Nat.add_mod_right, Nat.mod_eq_of_lt hi]
    · have e : (Int.ofNat i - Int.ofNat pivot).toNat = i - pivot := by
        simp only [Int.ofNat_eq_coe]; omega
      rw [e]
      apply hk _ (by omega)
      have : i - pivot + pivot = i := by omega
      rw [this, Nat.mod_eq_of_lt hi]

theorem quicksort_rotates_core {α : Type} (fuel : Nat) (array : List α) (pivot : Nat)
    (hp : pivot < array.length) (hfuel : array.length < fuel) :
    quicksort fuel true array array.length pivot = some (0, array.rotate pivot) := by
  obtain ⟨s1, seg1, h1, h2, h3, h4, h5⟩ := quicksort_rec_spec fuel
    (⟨array, quicksort_indexes array.length pivot⟩ : SortState α) []
    (quicksort_indexes array.length pivot) [] (by simp)
    (by simpa [quicksort_indexes] using hfuel)
  have hl : (quicksort_indexes array.length pivot).length = array.length := by
    simp [quicksort_indexes]
  simp only [List.length_nil, Nat.zero_add, hl] at h1
  unfold quicksort
  simp only [Bool.not_true, Bool.false_eq_true, if_false, h1]
  have hseg : seg1 = (List.range array.length).map Int.ofNat :=
    List.eq_of_perm_of_sorted (h3.trans (quicksort_indexes_perm _ _ (le_of_lt hp))) h4
      (sorted_range_int _)
  have hix : s1.indexes = (List.range array.length).map Int.ofNat := by
    rw [h2, hseg]; simp
  have hpair := h5 (Option α) some (fun k => (array.rotate pivot)[k.toNat]?)
    (quicksort_paired_init array pivot hp)
  rw [hix, List.map_map] at hpair
  have hr : (List.range array.length).map
      ((fun k : Int => (array.rotate pivot)[k.toNat]?) ∘ Int.ofNat)
      = (array.rotate pivot).map some := by
    have := map_some_range (array.rotate pivot)
    rw [List.length_rotate] at this
    rw [← this]
    rfl
  rw [hr] at hpair
  have := List.map_injective_iff.mpr (Option.some_injective α) hpair
  rw [this]

/-! ## Lemmas about the tail cache -/

theorem cache_tail_skip (m : Nat) (offset : Nat) :
    ∀ (lines : List CStr) (st : TailState) (k : Nat), st.line_idx + k = offset →
      ∃ li : Nat, (offset ≤ li ∨ lines.drop k = []) ∧
        lines.foldl (cache_tail_step m (Int.ofNat offset)) st
          = (lines.drop k).foldl (cache_tail_step m (Int.ofNat offset))
              ⟨st.records, st.curindex, st.count, li⟩ := by
  intro lines
  induction lines with
  | nil =>
    intro st k _
    exact ⟨st.line_idx, Or.inr (by simp), by simp⟩
  | cons x ls ih =>
    intro st k hk
    cases k with
    | zero =>
      refine ⟨st.line_idx, Or.inl (by omega), rfl⟩
    | succ k =>
      have hstep : cache_tail_step m (Int.ofNat offset) st x
          = ⟨st.records, st.curindex, st.count, st.line_idx + 1⟩ := by
        unfold cache_tail_step
        rw [if_neg (by simp only [Int.ofNat_eq_coe]; omega)]
      obtain ⟨li, h1, h2⟩ := ih ⟨st.records, st.curindex, st.count, st.line_idx + 1⟩ k
        (by simp only; omega)
      refine ⟨li, ?_, ?_⟩
      · simpa using h1
      · simp only [List.foldl_cons, List.drop_succ_cons, hstep]
        exact h2

theorem ring_set {β : Type} (r : List β) (c : Nat) (x : β) (hc : c < r.length) :
    (r.set c x).drop ((c + 1) % r.length) ++ (r.set c x).take ((c + 1) % r.length)
      = (r.drop c ++ r.take c).drop 1 ++ [x] := by
  have hr : r = r.take c ++ r[c] :: r.drop (c + 1) := by
    conv_lhs => rw [← List.take_append_drop c r, List.drop_eq_getElem_cons hc]
  have hset : r.set c x = r.take c ++ x :: r.drop (c + 1) := by
    conv_lhs => rw [hr]
    have hl : (r.take c).length = c := by rw [List.length_take]; omega
    have := set_middle (r.take c) r[c] x (r.drop (c + 1))
    rw [hl] at this
    exact this
  have hd1 : (r.drop c ++ r.take c).drop 1 = r.drop (c + 1) ++ r.take c := by
    rw [List.drop_eq_getElem_cons hc]
    rfl
  rw [hd1, hset]
  have hl : (r.take c).length = c := by rw [List.length_take]; omega
  by_cases hlast : c + 1 < r.length
  · rw [Nat.mod_eq_of_lt hlast]
    have e1 : (r.take c ++ x :: r.drop (c + 1)).drop (c + 1) = r.drop (c + 1) := by
      have : r.take c ++ x :: r.drop (c + 1) = (r.take c ++ [x]) ++ r.drop (c + 1) := by simp
      rw [this, List.drop_left' (by simp [hl])]
    have e2 : (r.take c ++ x :: r.drop (c + 1)).take (c + 1) = r.take c ++ [x] := by
      have : r.take c ++ x :: r.drop (c + 1) = (r.take c ++ [x]) ++ r.drop (c + 1) := by simp
      rw [this, List.take_left' (by simp [hl])]
    rw [e1, e2, List.append_assoc]
  · have hm : c + 1 = r.length := by omega
    have hmod : (c + 1) % r.length = 0 := by rw [hm]; exact Nat.mod_self _
    have hnil : r.drop (c + 1) = [] := by rw [hm]; exact List.drop_length r
    rw [hmod, hnil]
    simp

theorem cache_tail_active (m : Nat) (offset : Int) (hm : 1 ≤ m) :
    ∀ (Ls : List CStr) (st : TailState), offset ≤ Int.ofNat st.line_idx →
      st.records.length = m → st.curindex < m → st.count ≤ m →
      (Ls.foldl (cache_tail_step m offset) st).records.length = m ∧
      (Ls.foldl (cache_tail_step m offset) st).curindex = (st.curindex + Ls.length) % m ∧
      (Ls.foldl (cache_tail_step m offset) st).count = min (st.count + Ls.length) m ∧
      (Ls.foldl (cache_tail_step m offset) st).records.drop
          (Ls.foldl (cache_tail_step m offset) st).curindex ++
        (Ls.foldl (cache_tail_step m offset) st).records.take
          (Ls.foldl (cache_tail_step m offset) st).curindex
        = (st.records.drop st.curindex ++ st.records.take st.curindex
            ++ Ls.map some).drop Ls.length := by
  intro Ls
  induction Ls with
  | nil =>
    intro st _ hlen hc hcnt
    simp only [List.foldl_nil, List.length_nil, Nat.add_zero, List.map_nil, List.append_nil,
      List.drop_zero]
    exact ⟨hlen, (Nat.mod_eq_of_lt hc).symm, (Nat.min_eq_left hcnt).symm, trivial⟩
  | cons x Ls ih =>
    intro st hoff hlen hc hcnt
    have hstep : cache_tail_step m offset st x
        = ⟨st.records.set st.curindex (some x), (st.curindex + 1) % m,
            if st.count < m then st.count + 1 else st.count, st.line_idx + 1⟩ := by
      unfold cache_tail_step
      rw [if_pos hoff]
    simp only [List.foldl_cons, hstep]
    obtain ⟨h1, h2, h3, h4⟩ := ih
      ⟨st.records.set st.curindex (some x), (st.curindex + 1) % m,
        if st.count < m then st.count + 1 else st.count, st.line_idx + 1⟩
      (by simp only [Int.ofNat_eq_coe] at hoff ⊢; omega)
      (by simp only [List.length_set]; exact hlen)
      (Nat.mod_lt _ (by omega))
      (by simp only; split_ifs <;> omega)
    refine ⟨h1, ?_, ?_, ?_⟩
    · rw [h2]
      simp only [List.length_cons]
      rw [Nat.mod_add_mod]
      congr 1
      omega
    · rw [h3]
      simp only [List.length_cons]
      split_ifs with hlt
      · congr 1; omega
      · have : st.count = m := by omega
        rw [this, Nat.min_eq_right (by omega), Nat.min_eq_right (by omega)]
    · rw [h4]
      simp only
      have hring := ring_set st.records st.curindex (some x) (by omega)
      rw [hlen] at hring
      rw [hring]
      have hne : st.records.drop st.curindex ++ st.records.take st.curindex ≠ [] := by
        intro h
        have := congrArg List.length h
        simp only [List.length_append, List.length_drop, List.length_take,
          List.length_nil] at this
        omega
      obtain ⟨y, R, hR⟩ := List.exists_cons_of_ne_nil hne
      rw [hR]
      simp

theorem cache_tail_final (m offset : Nat) (hm : 1 ≤ m) (lines : List CStr) :
    (lines.foldl (cache_tail_step m (Int.ofNat offset))
      ⟨List.replicate m none, 0, 0, 0⟩).records.length = m ∧
    (lines.foldl (cache_tail_step m (Int.ofNat offset))
      ⟨List.replicate m none, 0, 0, 0⟩).curindex = (lines.drop offset).length % m ∧
    (lines.foldl (cache_tail_step m (Int.ofNat offset))
      ⟨List.replicate m none, 0, 0, 0⟩).count = min (lines.drop offset).length m ∧
    (lines.foldl (cache_tail_step m (Int.ofNat offset))
        ⟨List.replicate m none, 0, 0, 0⟩).records.drop
        (lines.foldl (cache_tail_step m (Int.ofNat offset))
          ⟨List.replicate m none, 0, 0, 0⟩).curindex ++
      (lines.foldl (cache_tail_step m (Int.ofNat offset))
        ⟨List.replicate m none, 0, 0, 0⟩).records.take
        (lines.foldl (cache_tail_step m (Int.ofNat offset))
          ⟨List.replicate m none, 0, 0, 0⟩).curindex
      = (List.replicate m none ++ (lines.drop offset).map some).drop
          (lines.drop offset).length := by
  obtain ⟨li, hli, hfold⟩ := cache_tail_skip m offset lines ⟨List.replicate m none, 0, 0, 0⟩
    offset (by simp)
  rw [hfold]
  simp only
  rcases hli with hli | hli
  · obtain ⟨h1, h2, h3, h4⟩ := cache_tail_active m (Int.ofNat offset) hm (lines.drop offset)
      ⟨List.replicate m none, 0, 0, li⟩ (by simp only [Int.ofNat_eq_coe]; omega) (by simp)
      (by simp only; omega) (by simp)
    refine ⟨h1, ?_, ?_, ?_⟩
    · simpa using h2
    · simpa using h3
    · simpa using h4
  · rw [hli]
    simp

theorem cache_file_tail_spec (fuel m offset : Nat) (lines : List CStr) (hm : 1 ≤ m)
    (hfuel : m < fuel) :
    cache_file fuel 0 true lines 0 m (Int.ofNat offset)
      = some (Int.ofNat (min (lines.drop offset).length m),
          ((lines.drop offset).drop ((lines.drop offset).length - m)).map some
            ++ List.replicate (m - (lines.drop offset).length) none) := by
  obtain ⟨h1, h2, h3, h4⟩ := cache_tail_final m offset hm lines
  unfold cache_file
  rw [if_neg (by simp only [Int.ofNat_eq_coe]; omega), if_neg (by omega), if_neg (by simp)]
  simp only [lt_self_iff_false, if_false]
  generalize lines.foldl (cache_tail_step m (Int.ofNat offset))
    ⟨List.replicate m none, 0, 0, 0⟩ = st at h1 h2 h3 h4
  generalize lines.drop offset = L at h2 h3 h4
  by_cases hn : L.length < m
  · -- fewer lines than entries: the buffer is filled from its start
    have hc : st.curindex = L.length := by rw [h2, Nat.mod_eq_of_lt hn]
    have hcount : st.count = L.length := by rw [h3]; exact Nat.min_eq_left (le_of_lt hn)
    rw [if_neg (by rw [hcount]; omega), hcount, Nat.min_eq_left (le_of_lt hn)]
    have hring : st.records.drop L.length ++ st.records.take L.length
        = List.replicate (m - L.length) none ++ L.map some := by
      rw [hc] at h4
      rw [h4, List.drop_append_of_le_length (by simp; omega), List.drop_replicate]
    have hsplit := List.append_inj hring (by simp [h1])
    have hrec : st.records = L.map some ++ List.replicate (m - L.length) none := by
      conv_lhs => rw [← List.take_append_drop L.length st.records]
      rw [hsplit.1, hsplit.2]
    have hz : L.length - m = 0 := by omega
    rw [hrec, hz, List.drop_zero]
  · have hcount : st.count = m := by rw [h3]; exact Nat.min_eq_right (by omega)
    have hring : st.records.drop st.curindex ++ st.records.take st.curindex
        = (L.drop (L.length - m)).map some := by
      rw [h4]
      have : (List.replicate m (none : Option CStr) ++ L.map some).drop L.length
          = (L.map some).drop (L.length - m) := by
        rw [List.drop_append_eq_append_drop]
        simp only [List.length_replicate]
        rw [List.drop_eq_nil_of_le (by simp; omega)]
        rfl
      rw [this, List.map_drop]
    have hclt : st.curindex < m := by rw [h2]; exact Nat.mod_lt _ (by omega)
    have hz : m - L.length = 0 := by omega
    rw [hcount, Nat.min_eq_right (by omega), hz]
    simp only [List.replicate_zero, List.append_nil, true_and]
    by_cases hc0 : st.curindex = 0
    · rw [if_neg (by simp [hc0])]
      rw [hc0] at hring
      simpa using congrArg (fun r => some (Int.ofNat m, r)) hring
    · rw [if_pos hc0]
      have hq := quicksort_rotates_core fuel st.records st.curindex (by omega) (by omega)
      rw [h1] at hq
      rw [hq]
      simp only
      rw [if_neg (by decide)]
      rw [List.rotate_eq_drop_append_take (by omega), hring]

/-! ## Theorems about eviction, counters and failed reservations -/

/-- C11, amended: let the base directory be `D/P` with `D` a directory, so that the
eviction for slot `i` is `rmfr_match` on `D/P<i>_`. It deletes exactly the entries
of `D` whose name contains `P<i>_` anywhere (the test is `strstr`), each with all
that lies below it; an entry of `D` whose name does not contain `P<i>_` is left in
place with all below it, and so is every path outside `D`. -/
theorem slot_eviction_matches_anywhere (env : Env) (w : World) (D P : CStr) (i : Nat)
    (hP : '/' ∉ P)
    (hfit : (D ++ '/' :: (P ++ fmt_int (toInt32 (Int.ofNat i)) ++ ['_'])).length < env.PATHMAX)
    (hD : fs_lookup D w.fs = some Node.dir) :
    (∀ name, name ≠ [] → '/' ∉ name → (fs_lookup (D ++ '/' :: name) w.fs).isSome = true →
      (strstr name (P ++ fmt_int (toInt32 (Int.ofNat i)) ++ ['_']) = true →
        ∀ q, is_under (D ++ '/' :: name) q = true →
          fs_lookup q (rmfr_match w (slot_match env (D ++ '/' :: P) i)).2.fs = none) ∧
      (strstr name (P ++ fmt_int (toInt32 (Int.ofNat i)) ++ ['_']) = false →
        ∀ q, is_under (D ++ '/' :: name) q = true →
          fs_lookup q (rmfr_match w (slot_match env (D ++ '/' :: P) i)).2.fs
            = fs_lookup q w.fs)) ∧
    (∀ q, starts_with q (D ++ ['/']) = false →
      fs_lookup q (rmfr_match w (slot_match env (D ++ '/' :: P) i)).2.fs = fs_lookup q w.fs) := by
  have hpre : '/' ∉ P ++ fmt_int (toInt32 (Int.ofNat i)) ++ ['_'] := by
    simp only [List.mem_append, List.mem_singleton, not_or]
    exact ⟨⟨hP, slash_not_in_fmt_int _⟩, by decide⟩
  rw [slot_match_fits env D P i hfit]
  refine ⟨fun name hne hname hex => ⟨fun hstr q hq => ?_, fun hstr q hq => ?_⟩, fun q hq => ?_⟩
  · exact rmfr_match_removes w D _ name q hpre hD hne hname hex hstr hq
  · exact rmfr_match_keep w _ q (not_evicted_of_under hpre hname hstr hq)
  · exact rmfr_match_keep w _ q (not_evicted_outside hpre hq)

set_option maxRecDepth 100000 in
theorem slot_eviction_matches_anywhere_witness :
    fs_lookup "/logs/crash/2_live".toList
      (rmfr_match flat_slot_world (slot_match flat_dir_env "/logs/crash/".toList 1)).2.fs
      = fs_lookup "/logs/crash/2_live".toList flat_slot_world.fs :=
  ((slot_eviction_matches_anywhere flat_dir_env flat_slot_world "/logs/crash".toList [] 1
    (by decide) (by decide) (by decide)).1 "2_live".toList (by decide) (by decide)
    (by decide)).2 (by decide) "/logs/crash/2_live".toList (by decide)

set_option maxRecDepth 100000 in
/-- C11, counterexample: in the crash directory `/logs/crash/` the eviction for
slot 1 also deletes `11_live`, the slot of index 11, and `5_ab1_cd`, whose suffix
contains `1_`; neither name begins with `1_`. With the base `/logs/crashlog` it
deletes `mycrashlog1_bak`, which does not begin with `crashlog1_`. -/
theorem eviction_removes_other_slots :
    mode_paths flat_dir_env e_dir_mode_t.MODE_CRASH
      = ("/logs/currentcrashlog".toList, "/logs/crash/".toList) ∧
    starts_with "11_live".toList "1_".toList = false ∧
    fs_lookup "/logs/crash/11_live".toList flat_slot_world.fs = some Node.dir ∧
    fs_lookup "/logs/crash/11_live".toList
      (rmfr_match flat_slot_world (slot_match flat_dir_env "/logs/crash/".toList 1)).2.fs
      = none ∧
    starts_with "5_ab1_cd".toList "1_".toList = false ∧
    fs_lookup "/logs/crash/5_ab1_cd".toList flat_slot_world.fs = some Node.dir ∧
    fs_lookup "/logs/crash/5_ab1_cd".toList
      (rmfr_match flat_slot_world (slot_match flat_dir_env "/logs/crash/".toList 1)).2.fs
      = none ∧
    starts_with "mycrashlog1_bak".toList "crashlog1_".toList = false ∧
    fs_lookup "/logs/mycrashlog1_bak".toList
      (rmfr_match flat_slot_world (slot_match demo_env "/logs/crashlog".toList 1)).2.fs
      = none := by
  decide

/-- C12, amended: the counter of a mode is the counter file `reserve_crash_folder`
selects for it, and there are four of them: crash, crash without SD card and kdump
share `CRASH_CURRENT_LOG`; aplog, bz and stats have their own. A reservation in
mode `m1` (the reservation proper, and either reservation function built on it)
leaves the counter file of a mode `m2` unchanged when that file is another file
than the one of `m1`, it exists, and it is not an entry the reservation evicts. -/
theorem reservation_keeps_other_counter (env : Env) (w : World) (m1 m2 : e_dir_mode_t) (req : Request)
    (hne : (mode_paths env m2).1 ≠ (mode_paths env m1).1)
    (hex : (fs_lookup (mode_paths env m2).1 w.fs).isSome = true)
    (hsafe1 : evicted_by (slot_match env (mode_paths env m1).2
      (read_file env w (mode_paths env m1).1).2.1) (mode_paths env m2).1 = false)
    (hsafe2 : is_under (snprintf env.PATHMAX ((mode_paths env m1).2 ++
      fmt_int (toInt32 (Int.ofNat (read_file env w (mode_paths env m1).1).2.1))))
      (mode_paths env m2).1 = false) :
    fs_lookup (mode_paths env m2).1 (reserve_crash_folder env w m1).2.fs
      = fs_lookup (mode_paths env m2).1 w.fs ∧
    fs_lookup (mode_paths env m2).1 (serve env m1 w req).2.fs
      = fs_lookup (mode_paths env m2).1 w.fs := by
  refine ⟨reserve_crash_folder_lookup_other env w m1 _ hne, ?_⟩
  cases req with
  | generate unique => exact generate_crashlog_dir_keeps env w m1 unique _ hne hex hsafe1
  | find_new => exact find_new_crashlog_dir_keeps env w m1 _ hne hex hsafe2

set_option maxRecDepth 100000 in
theorem reservation_keeps_other_counter_witness :
    fs_lookup "/logs/currentcrashlog".toList
      (serve demo_env e_dir_mode_t.MODE_APLOGS slot_world Request.find_new).2.fs
      = some (Node.file "   8".toList) :=
  (reservation_keeps_other_counter demo_env slot_world e_dir_mode_t.MODE_APLOGS e_dir_mode_t.MODE_CRASH
    Request.find_new (by decide) (by decide) (by decide) (by decide)).2

set_option maxRecDepth 100000 in
/-- C12, counterexample: with the crash counter at 8, a kdump reservation moves the
crash counter to 9, and a crash reservation moves the counter kdump reads to 9:
the two modes share `CRASH_CURRENT_LOG`. -/
theorem kdump_advances_crash_counter :
    fs_lookup (mode_paths demo_env e_dir_mode_t.MODE_CRASH).1 slot_world.fs
      = some (Node.file "   8".toList) ∧
    fs_lookup (mode_paths demo_env e_dir_mode_t.MODE_CRASH).1
      (find_new_crashlog_dir demo_env slot_world e_dir_mode_t.MODE_KDUMP).2.fs
      = some (Node.file "   9".toList) ∧
    fs_lookup (mode_paths demo_env e_dir_mode_t.MODE_KDUMP).1
      (find_new_crashlog_dir demo_env slot_world e_dir_mode_t.MODE_CRASH).2.fs
      = some (Node.file "   9".toList) := by
  decide

/-- C13, amended: a successful reservation returns the value `read_file` read: 0
when the counter file is missing or `fscanf` finds no number in it, and otherwise
the number in its first four characters as it stands, not reduced to
`[0, gmaxfiles)`. What the reservation writes back, `(index + 1) % gmaxfiles`, always
lies in `[0, gmaxfiles)`. -/
theorem reserved_index_is_value_read (env : Env) (w : World) (mode : e_dir_mode_t) (dir : CStr)
    (i : Nat) (hm : 1 ≤ env.gmaxfiles)
    (hres : (reserve_crash_folder env w mode).1 = some (dir, i)) :
    i = (match fs_lookup (mode_paths env mode).1 w.fs with
      | some (Node.file d) => (scan_4u d).getD 0
      | _ => 0) ∧
    (i + 1) % 4294967296 % env.gmaxfiles < env.gmaxfiles ∧
    ∃ rest, fs_lookup (mode_paths env mode).1 (reserve_crash_folder env w mode).2.fs
      = some (Node.file (fmt_4u ((i + 1) % 4294967296 % env.gmaxfiles) ++ rest)) := by
  obtain ⟨-, hi, hr, hu, hw⟩ := reserve_crash_folder_some env w mode dir i hres
  refine ⟨?_, Nat.mod_lt _ (by omega), ?_⟩
  · rw [hi]; exact read_file_value env w _ hr
  · obtain ⟨old, -, hfs⟩ := update_file_ok env _ _ _ hu
    rw [hw, hfs, fs_lookup_store_self, ← hi]
    exact ⟨_, rfl⟩

set_option maxRecDepth 100000 in
theorem reserved_index_is_value_read_witness :
    ∃ rest, fs_lookup (mode_paths demo_env e_dir_mode_t.MODE_CRASH).1
      (reserve_crash_folder demo_env stale_counter_world e_dir_mode_t.MODE_CRASH).2.fs
      = some (Node.file (fmt_4u ((9999 + 1) % 4294967296 % demo_env.gmaxfiles) ++ rest)) :=
  (reserved_index_is_value_read demo_env stale_counter_world e_dir_mode_t.MODE_CRASH
    "/logs/crashlog".toList 9999 (by decide) (by decide)).2.2

set_option maxRecDepth 100000 in
/-- C13, counterexample: with ten slots and a counter file that holds 9999, the
reservation succeeds and hands out index 9999. -/
theorem stale_counter_handed_out :
    1 ≤ demo_env.gmaxfiles ∧
    (reserve_crash_folder demo_env stale_counter_world e_dir_mode_t.MODE_CRASH).1
      = some ("/logs/crashlog".toList, 9999) ∧
    (find_new_crashlog_dir demo_env stale_counter_world e_dir_mode_t.MODE_CRASH).1 = 9999 ∧
    ¬ (9999 < demo_env.gmaxfiles) := by
  decide

/-- C14: when the base directory of the mode begins with `LOGS_DIR` and the quota
check denies (`check_free_space_available` is negative), `generate_crashlog_dir`
returns `NULL` and `find_new_crashlog_dir` returns -1, and the world is left as
it was: the counter file is unchanged, nothing is evicted and no directory is
created. -/
theorem quota_denied_reservation_fails (env : Env) (w : World) (mode : e_dir_mode_t)
    (unique : CStr)
    (hdir : starts_with (mode_paths env mode).2 env.LOGS_DIR = true)
    (hdeny : check_free_space_available (env.statfs env.LOGS_DIR) env.quota
      (get_path_size w env.LOGS_DIR) env.LOGSDIR_MINIMUM_FREESPACE_PERCENT < 0) :
    generate_crashlog_dir env w mode unique = (none, w) ∧
    find_new_crashlog_dir env w mode = (-1, w) := by
  have hr : reserve_crash_folder env w mode = (none, w) := by
    unfold reserve_crash_folder
    simp only [hdir, hdeny, and_self, if_true]
  constructor
  · unfold generate_crashlog_dir
    rw [hr]
  · unfold find_new_crashlog_dir
    rw [hr]

theorem quota_denied_reservation_fails_witness :
    generate_crashlog_dir no_quota_env slot_world e_dir_mode_t.MODE_CRASH "a".toList
      = (none, slot_world) ∧
    find_new_crashlog_dir no_quota_env slot_world e_dir_mode_t.MODE_CRASH = (-1, slot_world) :=
  quota_denied_reservation_fails no_quota_env slot_world e_dir_mode_t.MODE_CRASH "a".toList
    (by decide) (by decide)

/-- C15: when the counter cannot be opened for a reason other than `ENOENT`, or
`read_file` fails, or `update_file` fails, `generate_crashlog_dir` returns `NULL`
and `find_new_crashlog_dir` returns -1; every entry of the file system is still
there with its content (nothing is evicted) and no directory has been created. -/
theorem counter_failure_is_hard_failure (env : Env) (w : World) (mode : e_dir_mode_t)
    (unique : CStr)
    (h : (env.fault Sys.fopen_r (mode_paths env mode).1 ≠ 0 ∧
        env.fault Sys.fopen_r (mode_paths env mode).1 ≠ ENOENT) ∨
      (read_file env w (mode_paths env mode).1).1 < 0 ∨
      (update_file env (read_file env w (mode_paths env mode).1).2.2 (mode_paths env mode).1
        (read_file env w (mode_paths env mode).1).2.1).1 < 0) :
    (generate_crashlog_dir env w mode unique).1 = none ∧
    (find_new_crashlog_dir env w mode).1 = -1 ∧
    keeps_entries w.fs (generate_crashlog_dir env w mode unique).2.fs ∧
    no_new_directory w.fs (generate_crashlog_dir env w mode unique).2.fs ∧
    keeps_entries w.fs (find_new_crashlog_dir env w mode).2.fs ∧
    no_new_directory w.fs (find_new_crashlog_dir env w mode).2.fs := by
  have hnone : (reserve_crash_folder env w mode).1 = none := by
    apply reserve_crash_folder_none
    rcases h with ⟨h1, h2⟩ | h | h
    · exact Or.inl (read_file_fault env w _ h1 h2)
    · exact Or.inl h
    · exact Or.inr h
  obtain ⟨hk, hd⟩ := reserve_crash_folder_failed env w mode hnone
  have hg : generate_crashlog_dir env w mode unique = (none, (reserve_crash_folder env w mode).2) := by
    unfold generate_crashlog_dir
    simp only [hnone]
  have hf : find_new_crashlog_dir env w mode = (-1, (reserve_crash_folder env w mode).2) := by
    unfold find_new_crashlog_dir
    simp only [hnone]
  rw [hg, hf]
  exact ⟨rfl, rfl, hk, hd, hk, hd⟩

set_option maxRecDepth 100000 in
theorem counter_failure_is_hard_failure_witness :
    (generate_crashlog_dir unreadable_counter_env slot_world e_dir_mode_t.MODE_CRASH
      "a".toList).1 = none ∧
    (find_new_crashlog_dir unreadable_counter_env slot_world e_dir_mode_t.MODE_CRASH).1 = -1 :=
  have h := counter_failure_is_hard_failure unreadable_counter_env slot_world
    e_dir_mode_t.MODE_CRASH "a".toList (Or.inl (by decide))
  ⟨h.1, h.2.1⟩

/-- C16, amended: when `statfs` fails, `check_free_space_available` returns 0, the
answer it gives when space is left: the quota check lets the reservation through
(it fails open), and the reservation then succeeds whenever the counter can be
read and written back. -/
theorem statfs_failure_lets_reservation_through (env : Env) (w : World) (mode : e_dir_mode_t)
    (hst : env.statfs env.LOGS_DIR = none) :
    check_free_space_available (env.statfs env.LOGS_DIR) env.quota
      (get_path_size w env.LOGS_DIR) env.LOGSDIR_MINIMUM_FREESPACE_PERCENT = 0 ∧
    (¬ (read_file env w (mode_paths env mode).1).1 < 0 →
      ¬ (update_file env (read_file env w (mode_paths env mode).1).2.2 (mode_paths env mode).1
        (read_file env w (mode_paths env mode).1).2.1).1 < 0 →
      (reserve_crash_folder env w mode).1
        = some ((mode_paths env mode).2, (read_file env w (mode_paths env mode).1).2.1)) := by
  have h0 : check_free_space_available (env.statfs env.LOGS_DIR) env.quota
      (get_path_size w env.LOGS_DIR) env.LOGSDIR_MINIMUM_FREESPACE_PERCENT = 0 := by
    rw [hst]; rfl
  refine ⟨h0, fun h1 h2 => ?_⟩
  unfold reserve_crash_folder
  simp only [h0, lt_self_iff_false, and_false, if_false, if_neg h1, if_neg h2]

set_option maxRecDepth 100000 in
theorem statfs_failure_lets_reservation_through_witness :
    (reserve_crash_folder statfs_fail_env slot_world e_dir_mode_t.MODE_CRASH).1
      = some ("/logs/crashlog".toList, 8) :=
  (statfs_failure_lets_reservation_through statfs_fail_env slot_world e_dir_mode_t.MODE_CRASH
    rfl).2 (by decide) (by decide)

set_option maxRecDepth 100000 in
/-- C16, counterexample: the base directory `/logs/crashlog` is under `LOGS_DIR`
and `statfs` fails, yet the check returns 0 and both reservation functions
succeed, with slot 8. -/
theorem statfs_failure_fails_open :
    starts_with (mode_paths statfs_fail_env e_dir_mode_t.MODE_CRASH).2 statfs_fail_env.LOGS_DIR
      = true ∧
    statfs_fail_env.statfs statfs_fail_env.LOGS_DIR = none ∧
    check_free_space_available (statfs_fail_env.statfs statfs_fail_env.LOGS_DIR)
      statfs_fail_env.quota (get_path_size slot_world statfs_fail_env.LOGS_DIR)
      statfs_fail_env.LOGSDIR_MINIMUM_FREESPACE_PERCENT = 0 ∧
    (generate_crashlog_dir statfs_fail_env slot_world e_dir_mode_t.MODE_CRASH "a".toList).1
      = some "/logs/crashlog8_a".toList ∧
    (find_new_crashlog_dir statfs_fail_env slot_world e_dir_mode_t.MODE_CRASH).1 = 8 := by
  decide

/-- C17, amended: the reserved percent `check_free_space_available` works with
is the property value `v` when `0 ≤ v ≤ 100` and 100 otherwise: a value above 100
and a value below 0 are both replaced by 100. The effective value lies in
`[0, 100]`, and the check decides as it would for that value. -/
theorem quota_portion_invalid_is_full (v : Int) :
    available_portion v = (if 0 ≤ v ∧ v ≤ 100 then v else 100) ∧
    0 ≤ available_portion v ∧ available_portion v ≤ 100 ∧
    ∀ (st : Statfs) (used req : Nat),
      check_free_space_available (some st) v used req
        = check_free_space_available (some st) (if 0 ≤ v ∧ v ≤ 100 then v else 100) used req := by
  have h1 : available_portion v = (if 0 ≤ v ∧ v ≤ 100 then v else 100) := by
    unfold available_portion
    split_ifs <;> omega
  have h2 : available_portion (if 0 ≤ v ∧ v ≤ 100 then v else 100) = available_portion v := by
    unfold available_portion
    split_ifs <;> omega
  refine ⟨h1, ?_, ?_, ?_⟩
  · rw [h1]; split_ifs <;> omega
  · rw [h1]; split_ifs <;> omega
  · intro st used req
    unfold check_free_space_available
    simp only [h2]

/-- C17, counterexample: the property value -5 is treated as 100, not
as 0; with it the check lets a reservation through that the value 0 denies. -/
theorem negative_quota_is_not_zero :
    available_portion (-5) ≠ min 100 (max 0 (-5)) ∧ available_portion (-5) = 100 ∧
    check_free_space_available (some ⟨1000, 10000, 4096⟩) (-5) 0 5 = 0 ∧
    check_free_space_available (some ⟨1000, 10000, 4096⟩) 0 0 5 = -1 := by
  decide

/-- C18, amended: whenever `mkdir` fails, `create_crash_folder` returns -1, leaves
the file system as it was and raises exactly one error: `CRASHLOG_ERROR_FULL` when
`errno` is `ENOSPC`, the path begins with `LOGS_DIR` and `check_partlogfull` has
not fired before in the life of the process (it fires once), and
`CRASHLOG_ERROR_PATH` in every other case. -/
theorem create_crash_folder_failure_class (env : Env) (w : World) (path : CStr)
    (hfail : (mkdir env w path).1 ≠ 0) :
    (create_crash_folder env w path).1 = -1 ∧
    (create_crash_folder env w path).2.fs = w.fs ∧
    (create_crash_folder env w path).2.infoerrors = w.infoerrors ++
      [if (mkdir env w path).1 = ENOSPC ∧ w.partlogfull_errorset = false ∧
          starts_with path env.LOGS_DIR = true
        then ErrKind.CRASHLOG_ERROR_FULL else ErrKind.CRASHLOG_ERROR_PATH] ∧
    (create_crash_folder env w path).2.partlogfull_errorset
      = (w.partlogfull_errorset ||
          (decide ((mkdir env w path).1 = ENOSPC) && starts_with path env.LOGS_DIR)) := by
  have hw : (mkdir env w path).2 = w := by
    unfold mkdir at hfail ⊢
    split_ifs at hfail ⊢
    · rfl
    · rfl
    · exact absurd rfl hfail
  unfold create_crash_folder
  simp only [hw, if_pos hfail]
  by_cases he : (mkdir env w path).1 = ENOSPC
  · simp only [he, if_true, true_and, decide_True, Bool.true_and]
    unfold check_partlogfull
    cases hflag : w.partlogfull_errorset <;> cases hs : starts_with path env.LOGS_DIR <;>
      simp [raise_infoerror, hflag]
  · simp only [he, if_false, false_and, decide_False, Bool.false_and, Bool.or_false]
    simp [raise_infoerror]

theorem create_crash_folder_failure_class_witness :
    (create_crash_folder disk_full_env slot_world "/logs/crashlog1_a".toList).2.infoerrors
      = [ErrKind.CRASHLOG_ERROR_FULL] :=
  (create_crash_folder_failure_class disk_full_env slot_world "/logs/crashlog1_a".toList
    (by decide)).2.2.1

/-- C18, counterexample: three failing calls, each with `errno = ENOSPC`. The first
raises `CRASHLOG_ERROR_FULL`, the second one (same process, flag already set)
raises `CRASHLOG_ERROR_PATH`, and so does a call for a path outside `LOGS_DIR`. -/
theorem disk_full_class_not_by_errno_alone :
    (mkdir disk_full_env slot_world "/logs/crashlog1_a".toList).1 = ENOSPC ∧
    (create_crash_folder disk_full_env slot_world "/logs/crashlog1_a".toList).2.infoerrors
      = [ErrKind.CRASHLOG_ERROR_FULL] ∧
    (mkdir disk_full_env
      (create_crash_folder disk_full_env slot_world "/logs/crashlog1_a".toList).2
      "/logs/crashlog2_b".toList).1 = ENOSPC ∧
    (create_crash_folder disk_full_env
      (create_crash_folder disk_full_env slot_world "/logs/crashlog1_a".toList).2
      "/logs/crashlog2_b".toList).2.infoerrors
      = [ErrKind.CRASHLOG_ERROR_FULL, ErrKind.CRASHLOG_ERROR_PATH] ∧
    (mkdir disk_full_env slot_world "/mnt/sdcard/crashlog1_a".toList).1 = ENOSPC ∧
    (create_crash_folder disk_full_env slot_world "/mnt/sdcard/crashlog1_a".toList).2.infoerrors
      = [ErrKind.CRASHLOG_ERROR_PATH] := by
  decide

/-- C19, amended: with `start_index == 0` and a budget other than 0, the first file
`do_copy_circular` copies is the bare `source` when that name exists, and
`source` followed by the extension only when the bare name does not exist; its
destination is `destination/file` followed by `extra` and the extension, where
`file` is the part of `source` after its last slash. The copies after it are those
of backups 1, 2, ...: backup `k` goes from `source.<k><extension>` to
`destination/file<extra>.<k><extension>`, with `k` padded with zeros to `cnt_len`
digits. Every name is built in a buffer of `PATHMAX` bytes: the first four
conjuncts give the names exactly as the code cuts them, for every input; the last
one says that they are the names just described whenever those fit the buffers. -/
theorem do_copy_circular_file_names (env : Env) (fuel : Nat) (w : World)
    (source destination extension extra file : CStr) (limit : Int) (cnt_len : Nat)
    (hlim : limit ≠ 0) (hfile : after_last_slash source = some file) :
    ∃ (c : CopyRec) (rest : List CopyRec),
      (do_copy_circular env fuel w source destination extension extra limit 0 cnt_len).copies
        = c :: rest ∧
      c.src = (if file_exists w source then snprintf env.PATHMAX source
        else snprintf_at env.PATHMAX (snprintf env.PATHMAX source) extension) ∧
      c.dest = snprintf_at env.PATHMAX (snprintf env.PATHMAX (destination ++ '/' :: file))
        (extra ++ extension) ∧
      backup_copies env.PATHMAX source destination file extension extra cnt_len 1 rest ∧
      (names_fit env.PATHMAX source destination file extension extra cnt_len →
        c.src = (if file_exists w source then source else source ++ extension) ∧
        c.dest = destination ++ '/' :: file ++ extra ++ extension ∧
        ∀ (j : Nat) (h : j < rest.length), 1 + j < 2147483648 →
          rest[j].src = backup_path_spec source extension cnt_len (1 + j) ∧
          rest[j].dest = backup_dest_spec destination file extension extra cnt_len (1 + j)) := by
  have hplain : ∀ (c : CopyRec) (rest : List CopyRec),
      c.src = (if file_exists w source then snprintf env.PATHMAX source
        else snprintf_at env.PATHMAX (snprintf env.PATHMAX source) extension) →
      c.dest = snprintf_at env.PATHMAX (snprintf env.PATHMAX (destination ++ '/' :: file))
        (extra ++ extension) →
      backup_copies env.PATHMAX source destination file extension extra cnt_len 1 rest →
      names_fit env.PATHMAX source destination file extension extra cnt_len →
        c.src = (if file_exists w source then source else source ++ extension) ∧
        c.dest = destination ++ '/' :: file ++ extra ++ extension ∧
        ∀ (j : Nat) (h : j < rest.length), 1 + j < 2147483648 →
          rest[j].src = backup_path_spec source extension cnt_len (1 + j) ∧
          rest[j].dest = backup_dest_spec destination file extension extra cnt_len (1 + j) := by
    intro c rest h1 h2 h3 hfit
    have hs : snprintf env.PATHMAX source = source := snprintf_fits (by omega)
    have hse : snprintf_at env.PATHMAX (snprintf env.PATHMAX source) extension
        = source ++ extension := snprintf_at_fits (by omega)
    have hde : snprintf_at env.PATHMAX (snprintf env.PATHMAX (destination ++ '/' :: file))
        (extra ++ extension) = destination ++ '/' :: file ++ extra ++ extension := by
      rw [snprintf_at_fits (by
        simp only [List.length_append, List.length_cons]
        omega)]
      simp only [List.append_assoc, List.cons_append]
    refine ⟨by rw [h1, hse, hs], by rw [h2, hde], fun j hj hlt => ?_⟩
    obtain ⟨h4, h5⟩ := h3 j hj
    rw [toInt32_ofNat _ hlt] at h4 h5
    rw [h4, h5, backup_path_fits _ _ _ _ _ hfit.1 hlt, backup_dest_fits _ _ _ _ _ _ _ hfit.2 hlt]
    exact ⟨rfl, rfl⟩
  have h32 : toInt32 (Int.ofNat 0) = 0 := by decide
  unfold do_copy_circular
  rw [if_neg hlim, hfile]
  simp only [h32, if_true]
  generalize (if file_exists w source = true then snprintf env.PATHMAX source
    else snprintf_at env.PATHMAX (snprintf env.PATHMAX source) extension) = path at hplain ⊢
  generalize (snprintf_at env.PATHMAX (snprintf env.PATHMAX (destination ++ '/' :: file))
    (extra ++ extension)) = dest at hplain ⊢
  generalize hr : do_copy_tail env w path dest (toInt32 limit) = r
  by_cases hneg : r.1 < 0
  · rw [if_pos hneg]
    have hb : backup_copies env.PATHMAX source destination file extension extra cnt_len 1 [] :=
      fun j hj => absurd hj (by simp)
    exact ⟨_, [], rfl, rfl, rfl, hb, hplain ⟨path, dest, limit, r.1⟩ [] rfl rfl hb⟩
  · rw [if_neg hneg]
    obtain ⟨h1, h2⟩ := loop_names env source destination file extension extra cnt_len 1 1 fuel
      r.2 (limit - r.1) 1 r.1 [⟨path, dest, limit, r.1⟩]
      (by simp) (fun j hj => absurd hj (by simp)) (by simp [toInt32])
    have hc : (do_copy_circular_loop env source destination file extension extra cnt_len fuel
        r.2 (limit - r.1) 1 r.1 [⟨path, dest, limit, r.1⟩]).copies
        = ⟨path, dest, limit, r.1⟩ :: (do_copy_circular_loop env source destination file
          extension extra cnt_len fuel r.2 (limit - r.1) 1 r.1
          [⟨path, dest, limit, r.1⟩]).copies.drop 1 := by
      conv_lhs => rw [← List.take_append_drop 1 (do_copy_circular_loop env source destination
        file extension extra cnt_len fuel r.2 (limit - r.1) 1 r.1
        [⟨path, dest, limit, r.1⟩]).copies]
      rw [h1]
      rfl
    exact ⟨⟨path, dest, limit, r.1⟩, _, hc, rfl, rfl, h2, hplain _ _ rfl rfl h2⟩

set_option maxRecDepth 100000 in
theorem do_copy_circular_file_names_witness :
    ∃ (c : CopyRec) (rest : List CopyRec),
      (do_copy_circular demo_env 10 demo_world "/logs/aplog".toList "/d".toList [] "_x".toList
        10 0 1).copies = c :: rest ∧
      c.src = "/logs/aplog".toList ∧ c.dest = "/d/aplog_x".toList := by
  obtain ⟨c, rest, h1, -, -, -, h4⟩ := do_copy_circular_file_names demo_env 10 demo_world
    "/logs/aplog".toList "/d".toList [] "_x".toList "aplog".toList 10 1 (by decide) (by decide)
  obtain ⟨h2, h3, -⟩ := h4 (by decide)
  exact ⟨c, rest, h1, h2, h3⟩

set_option maxRecDepth 100000 in
/-- C19, counterexample: when the log exists both as `/logs/aplog` and as
`/logs/aplog.gz`, the first file copied is the bare `/logs/aplog`; when neither
`/logs/nolog` nor `/logs/nolog.gz` exists, the name tried is `/logs/nolog.gz`. -/
theorem bare_name_is_preferred :
    file_exists both_names_world "/logs/aplog.gz".toList = true ∧
    ((do_copy_circular demo_env 10 both_names_world "/logs/aplog".toList "/d".toList
      ".gz".toList [] 10 0 1).copies.map (fun c => (c.src, c.dest, c.rc)))
      = [("/logs/aplog".toList, "/d/aplog.gz".toList, 3),
          ("/logs/aplog.1.gz".toList, "/d/aplog.1.gz".toList, -2)] ∧
    file_exists both_names_world "/logs/nolog".toList = false ∧
    file_exists both_names_world "/logs/nolog.gz".toList = false ∧
    ((do_copy_circular demo_env 10 both_names_world "/logs/nolog".toList "/d".toList
      ".gz".toList [] 10 0 1).copies.map (fun c => (c.src, c.dest, c.rc)))
      = [("/logs/nolog.gz".toList, "/d/nolog.gz".toList, -2)] := by
  decide

/-- C20: an event that is not a moved-from is processed normally (result 0), creates
no informational event and leaves the world, the pending cookie and the stored
file name as they were, both when no rename is pending (the pending cookie is 0;
this covers a moved-to event that has no moved-from before it) and when the event
is not a moved-to either (create, modify, close-write, delete), in every state. -/
theorem non_rename_processed_normally (env : Env) (d : DedupEnv) (st : DedupState) (w : World)
    (event : inotify_event) (hfrom : event.mask &&& IN_MOVED_FROM = 0) :
    (st.previous_event_cookie = 0 →
      manage_duplicate_dropbox_events env d st w event = ⟨0, st, w, [], false⟩) ∧
    (event.mask &&& IN_MOVED_TO = 0 →
      manage_duplicate_dropbox_events env d st w event = ⟨0, st, w, [], false⟩) := by
  constructor
  · intro h
    unfold manage_duplicate_dropbox_events
    rw [if_neg (by simp [hfrom]), if_neg (by simp [h])]
  · intro h
    unfold manage_duplicate_dropbox_events
    rw [if_neg (by simp [hfrom]), if_neg (by simp [h])]

theorem non_rename_processed_normally_witness :
    manage_duplicate_dropbox_events demo_env demo_dedup_env ⟨0, []⟩ demo_world
        ⟨128, 7, 16, "b".toList⟩ = ⟨0, ⟨0, []⟩, demo_world, [], false⟩ ∧
    manage_duplicate_dropbox_events demo_env demo_dedup_env ⟨5, "a".toList⟩ demo_world
        ⟨256, 0, 16, "c".toList⟩ = ⟨0, ⟨5, "a".toList⟩, demo_world, [], false⟩ :=
  ⟨(non_rename_processed_normally demo_env demo_dedup_env ⟨0, []⟩ demo_world
      ⟨128, 7, 16, "b".toList⟩ (by decide)).1 rfl,
    (non_rename_processed_normally demo_env demo_dedup_env ⟨5, "a".toList⟩ demo_world
      ⟨256, 0, 16, "c".toList⟩ (by decide)).2 (by decide)⟩

/-! ## Theorems about the correlator, the time stamp and the dumpstate ring -/

/-- C21, amended: after a moved-from `(c1, a)` with `c1` other than 0, a moved-to whose
cookie differs from `c1`, or whose length field is 0, is processed normally (0),
creates no informational event and leaves the pending entry `(c1, a)` in place: a
later moved-to `(c1, b)` with a name is still taken for the matched pair, is
suppressed and creates the event with `a` and `b`. The pending entry is replaced
only by a later moved-from, which stores its own cookie. -/
theorem unmatched_moved_to_keeps_pending (env : Env) (d : DedupEnv) (w : World)
    (c1 lb : Nat) (a b : CStr) (e2 : inotify_event)
    (hc : c1 ≠ 0) (hlb : lb ≠ 0) (h2from : e2.mask &&& IN_MOVED_FROM = 0)
    (h2 : e2.cookie ≠ c1 ∨ e2.len = 0) :
    manage_duplicate_dropbox_events env d ⟨c1, a⟩ w e2 = ⟨0, ⟨c1, a⟩, w, [], false⟩ ∧
    (manage_duplicate_dropbox_events env d
      (manage_duplicate_dropbox_events env d ⟨c1, a⟩ w e2).state
      (manage_duplicate_dropbox_events env d ⟨c1, a⟩ w e2).world
      ⟨IN_MOVED_TO, c1, lb, b⟩).ret = -1 ∧
    (∃ ev : InfoEvent,
      (manage_duplicate_dropbox_events env d
        (manage_duplicate_dropbox_events env d ⟨c1, a⟩ w e2).state
        (manage_duplicate_dropbox_events env d ⟨c1, a⟩ w e2).world
        ⟨IN_MOVED_TO, c1, lb, b⟩).infoevents = [ev] ∧ ev.data0 = a ∧ ev.data1 = b) ∧
    (∀ e : inotify_event, e.mask &&& IN_MOVED_FROM ≠ 0 →
      (manage_duplicate_dropbox_events env d ⟨c1, a⟩ w e).state.previous_event_cookie
        = e.cookie) := by
  have h1 : manage_duplicate_dropbox_events env d ⟨c1, a⟩ w e2 = ⟨0, ⟨c1, a⟩, w, [], false⟩ := by
    apply moved_to_unmatched env d _ w e2 h2from
    rintro ⟨-, -, h3, h4⟩
    rcases h2 with h2 | h2
    · exact h2 h3.symm
    · exact h4 h2
  have hm1 : IN_MOVED_TO &&& IN_MOVED_FROM = 0 := by decide
  have hm2 : IN_MOVED_TO &&& IN_MOVED_TO ≠ 0 := by decide
  have h3 := moved_to_matched env d ⟨c1, a⟩ w ⟨IN_MOVED_TO, c1, lb, b⟩ hm1
    ⟨hm2, hc, rfl, hlb⟩
  rw [h1]
  refine ⟨rfl, h3.1, h3.2.2, fun e he => ?_⟩
  rw [moved_from_stores env d _ w e he]

set_option maxRecDepth 100000 in
theorem unmatched_moved_to_keeps_pending_witness :
    manage_duplicate_dropbox_events demo_env demo_dedup_env ⟨5, "a".toList⟩ demo_world
      ⟨IN_MOVED_TO, 9, 16, "z".toList⟩ = ⟨0, ⟨5, "a".toList⟩, demo_world, [], false⟩ :=
  (unmatched_moved_to_keeps_pending demo_env demo_dedup_env demo_world 5 16 "a".toList
    "b".toList ⟨IN_MOVED_TO, 9, 16, "z".toList⟩ (by decide) (by decide) (by decide)
    (Or.inl (by decide))).1

set_option maxRecDepth 100000 in
/-- C21, counterexample: moved-from `(5, a)`, then a moved-to with cookie 9, then a
moved-to `(5, b)`: the second event changes nothing and the third one is
suppressed and creates the informational event. -/
theorem pending_rename_survives_unrelated_move :
    (manage_duplicate_dropbox_events demo_env demo_dedup_env ⟨0, []⟩ demo_world
      ⟨IN_MOVED_FROM, 5, 16, "a".toList⟩).state = ⟨5, "a".toList⟩ ∧
    manage_duplicate_dropbox_events demo_env demo_dedup_env ⟨5, "a".toList⟩ demo_world
      ⟨IN_MOVED_TO, 9, 16, "z".toList⟩ = ⟨0, ⟨5, "a".toList⟩, demo_world, [], false⟩ ∧
    (manage_duplicate_dropbox_events demo_env demo_dedup_env ⟨5, "a".toList⟩ demo_world
      ⟨IN_MOVED_TO, 5, 16, "b".toList⟩).ret = -1 ∧
    (manage_duplicate_dropbox_events demo_env demo_dedup_env ⟨5, "a".toList⟩ demo_world
      ⟨IN_MOVED_TO, 5, 16, "b".toList⟩).infoevents
      = [⟨"javacrash_duplicate_infoevent".toList, "a".toList, "b".toList,
          "timestamp_extract_failed".toList⟩] := by
  decide

/-- C22, amended: an event that is not a moved-from is the matched pair (suppressed,
with one informational event, the correlator idle afterwards) exactly when it is a
moved-to, the pending cookie is not 0, the event has the same cookie and its length
field is not 0. Whether a rename is pending is told by the cookie alone: cookie 0
stands for no pending rename. In every other case the event is processed normally
and nothing changes. -/
theorem matched_pair_needs_nonzero_cookie (env : Env) (d : DedupEnv) (st : DedupState)
    (w : World) (event : inotify_event) (hfrom : event.mask &&& IN_MOVED_FROM = 0) :
    ((manage_duplicate_dropbox_events env d st w event).ret = -1 ↔
      (event.mask &&& IN_MOVED_TO ≠ 0 ∧ st.previous_event_cookie ≠ 0 ∧
        st.previous_event_cookie = event.cookie ∧ event.len ≠ 0)) ∧
    ((manage_duplicate_dropbox_events env d st w event).ret = -1 →
      (manage_duplicate_dropbox_events env d st w event).state = ⟨0, []⟩ ∧
      ∃ ev : InfoEvent, (manage_duplicate_dropbox_events env d st w event).infoevents = [ev] ∧
        ev.data0 = st.previous_filename ∧ ev.data1 = event.name) ∧
    ((manage_duplicate_dropbox_events env d st w event).ret ≠ -1 →
      manage_duplicate_dropbox_events env d st w event = ⟨0, st, w, [], false⟩) := by
  by_cases h : event.mask &&& IN_MOVED_TO ≠ 0 ∧ st.previous_event_cookie ≠ 0 ∧
      st.previous_event_cookie = event.cookie ∧ event.len ≠ 0
  · obtain ⟨h1, h2, h3⟩ := moved_to_matched env d st w event hfrom h
    exact ⟨⟨fun _ => h, fun _ => h1⟩, fun _ => ⟨h2, h3⟩, fun hne => absurd h1 hne⟩
  · have h0 := moved_to_unmatched env d st w event hfrom h
    refine ⟨⟨fun h1 => ?_, fun h1 => absurd h1 h⟩, fun h1 => ?_, fun _ => h0⟩
    · rw [h0] at h1; simp at h1
    · rw [h0] at h1; simp at h1

set_option maxRecDepth 100000 in
theorem matched_pair_needs_nonzero_cookie_witness :
    (manage_duplicate_dropbox_events demo_env demo_dedup_env ⟨5, "a".toList⟩ demo_world
      ⟨IN_MOVED_TO, 5, 16, "b".toList⟩).state = ⟨0, []⟩ :=
  ((matched_pair_needs_nonzero_cookie demo_env demo_dedup_env ⟨5, "a".toList⟩ demo_world
    ⟨IN_MOVED_TO, 5, 16, "b".toList⟩ (by decide)).2.1 (by decide)).1

set_option maxRecDepth 100000 in
/-- C22, counterexample: a moved-from with cookie 0 followed by a moved-to with cookie
0 is not a matched pair: the moved-to is processed normally and creates no event. -/
theorem cookie_zero_is_never_matched :
    manage_duplicate_dropbox_events demo_env demo_dedup_env ⟨0, []⟩ demo_world
      ⟨IN_MOVED_FROM, 0, 16, "a".toList⟩ = ⟨-1, ⟨0, "a".toList⟩, demo_world, [], false⟩ ∧
    manage_duplicate_dropbox_events demo_env demo_dedup_env ⟨0, "a".toList⟩ demo_world
      ⟨IN_MOVED_TO, 0, 16, "b".toList⟩ = ⟨0, ⟨0, "a".toList⟩, demo_world, [], false⟩ := by
  decide

/-- C23, as amended: `extract_dropbox_timestamp` returns -1 when the name has no `@`,
when it has no `.` after the `@`, and, for a name `P@D.S` (no `@` in `P`, no `.` in
`D`, `D` short enough for its length to be an `int`), when `D` has three characters
or fewer, when it has more than `TIMESTAMP_MAX_SIZE + 3`, and when one of the
characters before its last three is not a digit. The last three characters of `D`
are not examined. A result other than -1 lies in `[0, LONG_MAX]` and comes from a
`D` of 4 to `TIMESTAMP_MAX_SIZE + 3` characters whose characters before the last
three are all digits. -/
theorem extract_dropbox_timestamp_rejects (TMS LM : Nat) (filename : CStr) :
    ('@' ∉ filename → extract_dropbox_timestamp TMS LM filename = -1) ∧
    (∀ P s : CStr, filename = P ++ '@' :: s → '@' ∉ P → '.' ∉ s →
      extract_dropbox_timestamp TMS LM filename = -1) ∧
    (∀ P D S : CStr, filename = P ++ '@' :: (D ++ '.' :: S) → '@' ∉ P → '.' ∉ D →
      D.length < 2147483648 →
      (D.length ≤ 3 → extract_dropbox_timestamp TMS LM filename = -1) ∧
      (TMS + 3 < D.length → extract_dropbox_timestamp TMS LM filename = -1) ∧
      ((D.take (D.length - 3)).all isdigit = false →
        extract_dropbox_timestamp TMS LM filename = -1) ∧
      (extract_dropbox_timestamp TMS LM filename ≠ -1 →
        0 ≤ extract_dropbox_timestamp TMS LM filename ∧
        extract_dropbox_timestamp TMS LM filename ≤ Int.ofNat LM ∧
        4 ≤ D.length ∧ D.length ≤ TMS + 3 ∧
        (D.take (D.length - 3)).all isdigit = true)) := by
  refine ⟨fun h => ?_, fun P s hf hP hs => ?_, fun P D S hf hP hD hlen => ?_⟩
  · unfold extract_dropbox_timestamp
    rw [after_char_none h]
  · unfold extract_dropbox_timestamp
    rw [hf, after_char_append P _ hP]
    simp only
    rw [after_char_none hs]
  · have hshape := extract_dropbox_timestamp_shape TMS LM P D S hP hD hlen
    rw [hf, hshape]
    refine ⟨fun h => ?_, fun h => ?_, fun h => ?_, fun h => ?_⟩
    · rw [if_neg (by omega)]
    · rw [if_neg (by omega)]
    · rw [h]
      simp
    · by_cases h1 : 4 ≤ D.length ∧ D.length ≤ TMS + 3
      · rw [if_pos h1] at h ⊢
        by_cases h2 : (D.take (D.length - 3)).all isdigit = true
        · rw [if_pos h2] at h ⊢
          by_cases h3 : strtol_sat LLONG_MAX ((D ++ '.' :: S).take TMS) > Int.ofNat LM
          · rw [if_pos h3] at h; exact absurd rfl h
          · rw [if_neg h3]
            obtain ⟨c, D1, hDc⟩ : ∃ c D1, D = c :: D1 := by
              cases D with
              | nil => simp at h1
              | cons c D1 => exact ⟨c, D1, rfl⟩
            obtain ⟨T1, hT⟩ : ∃ T1, TMS = T1 + 1 := ⟨TMS - 1, by omega⟩
            have hcd : isdigit c = true := by
              rw [List.all_eq_true] at h2
              apply h2
              rw [hDc]
              have : (c :: D1).length - 3 = (D1.length - 3) + 1 := by
                rw [hDc] at h1
                simp only [List.length_cons] at h1 ⊢
                omega
              rw [this, List.take_succ_cons]
              exact List.mem_cons_self _ _
            have hts : (D ++ '.' :: S).take TMS = c :: (D1 ++ '.' :: S).take T1 := by
              rw [hDc, hT]; rfl
            rw [hts]
            obtain ⟨hlo, hhi⟩ := strtol_sat_digit LM c ((D1 ++ '.' :: S).take T1) hcd
            exact ⟨hlo, hhi, h1.1, h1.2, h2⟩
        · rw [if_neg h2] at h; exact absurd rfl h
      · rw [if_neg h1] at h; exact absurd rfl h

theorem extract_dropbox_timestamp_rejects_witness :
    extract_dropbox_timestamp 10 9223372036854775807 "x@abc123.txt".toList = -1 :=
  ((extract_dropbox_timestamp_rejects 10 9223372036854775807 "x@abc123.txt".toList).2.2
    "x".toList "abc123".toList "txt".toList rfl (by decide) (by decide) (by decide)).2.2.1
    (by decide)

/-- C23, counterexample to the claim as stated: the body `1234abc` is not numeric,
yet the name is accepted and a number is returned: only the characters before the
three-character tail are checked (here `1234`), the tail `abc` is not. -/
theorem extract_dropbox_timestamp_unchecked_tail :
    "1234abc".toList.all isdigit = false ∧
    extract_dropbox_timestamp 10 9223372036854775807 "x@1234abc.txt".toList = 1234 := by
  decide

/-- C24, amended: `finalize_dropbox_pending_event` fails (-1) exactly when the slot at
`index_cons` is empty or the boot is not complete (the property `PROP_BOOT_STATUS`
is not `1`); a failing call leaves the ring as it was and notifies nobody. When the
slot is occupied and the boot is complete it takes the key, clears the slot,
advances `index_cons` to `(index_cons + 1) % 2` and returns 0, leaving the other
slot and `index_prod` unchanged. -/
theorem finalize_needs_key_and_boot (e : DumpEnv) (r : DumpRing) :
    ((finalize_dropbox_pending_event e r).ret = -1 ↔
      (r.gcurrent_key.getD r.index_cons [] = [] ∨ e.boot_state ≠ "1".toList)) ∧
    ((finalize_dropbox_pending_event e r).ret = -1 →
      (finalize_dropbox_pending_event e r).ring = r ∧
      (finalize_dropbox_pending_event e r).actions = []) ∧
    (r.gcurrent_key.getD r.index_cons [] ≠ [] → e.boot_state = "1".toList →
      (finalize_dropbox_pending_event e r).ret = 0 ∧
      (finalize_dropbox_pending_event e r).actions
        = (if e.crashreport_available then
            [DumpAction.notify_crashreport
              ((r.gcurrent_key.getD r.index_cons []).take SHA_DIGEST_LENGTH)]
          else []) ∧
      (finalize_dropbox_pending_event e r).ring.gcurrent_key.getD r.index_cons [] = [] ∧
      (finalize_dropbox_pending_event e r).ring.index_cons
        = (r.index_cons + 1) % DIM_gcurrent_key ∧
      (finalize_dropbox_pending_event e r).ring.index_prod = r.index_prod ∧
      (∀ j, j ≠ r.index_cons →
        (finalize_dropbox_pending_event e r).ring.gcurrent_key.getD j []
          = r.gcurrent_key.getD j [])) := by
  by_cases h1 : r.gcurrent_key.getD r.index_cons [] = []
  · have h0 : finalize_dropbox_pending_event e r = ⟨-1, r, []⟩ := by
      unfold finalize_dropbox_pending_event
      rw [if_pos h1]
    rw [h0]
    exact ⟨⟨fun _ => Or.inl h1, fun _ => rfl⟩, fun _ => ⟨rfl, rfl⟩, fun h => absurd h1 h⟩
  · by_cases h2 : e.boot_state ≠ "1".toList
    · have h0 : finalize_dropbox_pending_event e r = ⟨-1, r, []⟩ := by
        unfold finalize_dropbox_pending_event
        rw [if_neg h1, if_pos h2]
      rw [h0]
      exact ⟨⟨fun _ => Or.inr h2, fun _ => rfl⟩, fun _ => ⟨rfl, rfl⟩, fun _ h => absurd h h2⟩
    · have h0 : finalize_dropbox_pending_event e r = ⟨0, { r with
            gcurrent_key := r.gcurrent_key.set r.index_cons []
            index_cons := (r.index_cons + 1) % DIM_gcurrent_key },
          if e.crashreport_available then
            [DumpAction.notify_crashreport
              ((r.gcurrent_key.getD r.index_cons []).take SHA_DIGEST_LENGTH)]
          else []⟩ := by
        unfold finalize_dropbox_pending_event
        rw [if_neg h1, if_neg h2]
      rw [h0]
      refine ⟨⟨fun h => ?_, fun h => ?_⟩, fun h => ?_, fun _ _ => ?_⟩
      · simp at h
      · rcases h with h | h
        · exact absurd h h1
        · exact absurd h h2
      · simp at h
      · exact ⟨rfl, rfl, getD_set_self_default _ _ _, rfl, rfl,
          fun j hj => getD_set_other _ _ _ _ _ hj⟩

theorem finalize_needs_key_and_boot_witness :
    (finalize_dropbox_pending_event demo_dump_env ⟨["k1".toList, []], 0, 0⟩).ret = 0 :=
  ((finalize_needs_key_and_boot demo_dump_env ⟨["k1".toList, []], 0, 0⟩).2.2 (by decide)
    rfl).1

/-- C24, counterexample: before the boot is complete a call fails although the slot
at `index_cons` holds a key; the key stays in the ring. -/
theorem occupied_slot_kept_until_boot :
    finalize_dropbox_pending_event booting_dump_env ⟨["k1".toList, []], 0, 0⟩
      = ⟨-1, ⟨["k1".toList, []], 0, 0⟩, []⟩ := by
  decide

/-- C25: a call of `start_dumpstate_srv` that does not return 1 leaves the ring (both
slots, `index_prod`, `index_cons`) as it was; and the call does not return 1 when
an argument is `NULL`, the service is not available, a dump is already running or
the watch cannot be registered. -/
theorem start_without_success_keeps_ring (e : DumpEnv) (PATHMAX : Nat) (r : DumpRing)
    (crash_dir key : Option CStr) :
    ((start_dumpstate_srv e PATHMAX r crash_dir key).ret ≠ 1 →
      (start_dumpstate_srv e PATHMAX r crash_dir key).ring = r) ∧
    ((crash_dir = none ∨ key = none ∨ e.logsystemstate_available = false ∨
        e.dumpstate_prop = "running".toList ∨ e.add_watch_ok = false) →
      (start_dumpstate_srv e PATHMAX r crash_dir key).ret ≠ 1) := by
  unfold start_dumpstate_srv
  cases crash_dir with
  | none => exact ⟨fun _ => rfl, fun _ => by simp⟩
  | some dir =>
    cases key with
    | none => exact ⟨fun _ => rfl, fun _ => by simp⟩
    | some k =>
      simp only
      by_cases ha : e.logsystemstate_available = true
      · by_cases hr : e.dumpstate_prop = "running".toList
        · simp only [ha, Bool.not_true, Bool.false_eq_true, if_false, if_pos hr]
          split_ifs <;> exact ⟨fun _ => rfl, fun _ => by simp⟩
        · by_cases hw : e.add_watch_ok = true
          · simp only [ha, hw, Bool.not_true, Bool.false_eq_true, if_false, if_neg hr]
            refine ⟨fun h => absurd rfl h, fun h => ?_⟩
            rcases h with h | h | h | h | h
            · simp at h
            · simp at h
            · simp at h
            · exact absurd h hr
            · simp at h
          · simp only [ha, hw, Bool.not_true, Bool.not_false, Bool.false_eq_true, if_false,
              if_true, if_neg hr]
            exact ⟨fun _ => trivial, fun _ => by simp⟩
      · simp only [ha, Bool.not_false, if_true]
        exact ⟨fun _ => trivial, fun _ => by simp⟩

theorem start_without_success_keeps_ring_witness :
    (start_dumpstate_srv running_dump_env 512 ⟨["k1".toList, []], 0, 0⟩
      (some "/logs/crashlog1_b".toList) (some "k2".toList)).ring = ⟨["k1".toList, []], 0, 0⟩ :=
  (start_without_success_keeps_ring running_dump_env 512 ⟨["k1".toList, []], 0, 0⟩
    (some "/logs/crashlog1_b".toList) (some "k2".toList)).1 (by decide)

/-- The part of C26 that holds: `find_new_crashlog_dir` hands the bare slot path to
`history_delete_first_existent_logcrashpath` exactly when it is a directory at the
time of the reservation, before `rmfr` deletes it. -/
theorem find_new_crashlog_dir_purges_history (env : Env) (w : World) (mode : e_dir_mode_t)
    (dir : CStr) (i : Nat)
    (hres : (reserve_crash_folder env w mode).1 = some (dir, i)) :
    (find_new_crashlog_dir env w mode).2.history_deleted
      = (if directory_exists (reserve_crash_folder env w mode).2
          (snprintf env.PATHMAX (dir ++ fmt_int (toInt32 (Int.ofNat i)))) = true
        then w.history_deleted ++ [snprintf env.PATHMAX (dir ++ fmt_int (toInt32 (Int.ofNat i)))]
        else w.history_deleted) := by
  have hh := reserve_crash_folder_history env w mode
  unfold find_new_crashlog_dir
  generalize hr : reserve_crash_folder env w mode = r at hres hh
  obtain ⟨o, w1⟩ := r
  simp only at hres hh
  subst hres
  simp only
  rw [snd_ite_pair, create_crash_folder_history, (rmfr_frame _ _).2.2]
  split_ifs
  · simp [history_delete, hh]
  · exact hh

theorem find_new_crashlog_dir_purges_history_witness :
    (find_new_crashlog_dir demo_env bare_slot_world e_dir_mode_t.MODE_CRASH).2.history_deleted
      = (if directory_exists
            (reserve_crash_folder demo_env bare_slot_world e_dir_mode_t.MODE_CRASH).2
            (snprintf demo_env.PATHMAX
              ("/logs/crashlog".toList ++ fmt_int (toInt32 (Int.ofNat 9)))) = true
        then bare_slot_world.history_deleted ++ [snprintf demo_env.PATHMAX
          ("/logs/crashlog".toList ++ fmt_int (toInt32 (Int.ofNat 9)))]
        else bare_slot_world.history_deleted) :=
  find_new_crashlog_dir_purges_history demo_env bare_slot_world e_dir_mode_t.MODE_CRASH
    "/logs/crashlog".toList 9 (by decide)

/-- The defect behind C26 in general: when the slot path `D/P<i>_<unique>` fits
`PATHMAX` and `D` is a directory, the path never exists after the eviction, so the
test `directory_exists` of `generate_crashlog_dir` fails and the ledger is never
touched. -/
theorem generate_crashlog_dir_never_purges (env : Env) (w : World) (mode : e_dir_mode_t)
    (unique D P : CStr) (i : Nat)
    (hdir : (mode_paths env mode).2 = D ++ '/' :: P) (hP : '/' ∉ P) (hu : '/' ∉ unique)
    (hres : (reserve_crash_folder env w mode).1 = some ((mode_paths env mode).2, i))
    (hfit : (D ++ '/' :: (P ++ fmt_int (toInt32 (Int.ofNat i)) ++ '_' :: unique)).length
      < env.PATHMAX)
    (hD : fs_lookup D (reserve_crash_folder env w mode).2.fs = some Node.dir) :
    directory_exists (rmfr_match (reserve_crash_folder env w mode).2
      (slot_match env (mode_paths env mode).2 i)).2
      (slot_path env (mode_paths env mode).2 i unique) = false ∧
    (generate_crashlog_dir env w mode unique).2.history_deleted = w.history_deleted := by
  have hh := reserve_crash_folder_history env w mode
  generalize hr : reserve_crash_folder env w mode = r at hres hh hD
  obtain ⟨o, w1⟩ := r
  simp only at hres hh hD
  subst hres
  have hpre : '/' ∉ P ++ fmt_int (toInt32 (Int.ofNat i)) ++ ['_'] := by
    simp only [List.mem_append, List.mem_singleton, not_or]
    exact ⟨⟨hP, slash_not_in_fmt_int _⟩, by decide⟩
  have hmatch : slot_match env (mode_paths env mode).2 i
      = D ++ '/' :: (P ++ fmt_int (toInt32 (Int.ofNat i)) ++ ['_']) := by
    rw [hdir]
    apply slot_match_fits
    simp only [List.length_append, List.length_cons, List.length_singleton,
      List.length_nil] at hfit ⊢
    omega
  have hpath : slot_path env (mode_paths env mode).2 i unique
      = D ++ '/' :: (P ++ fmt_int (toInt32 (Int.ofNat i)) ++ ['_'] ++ unique) := by
    unfold slot_path
    rw [hmatch]
    have hlen : ¬ ((D ++ '/' :: (P ++ fmt_int (toInt32 (Int.ofNat i)) ++ ['_'])).length
        + unique.length ≥ env.PATHMAX) := by
      simp only [List.length_append, List.length_cons, List.length_singleton,
        List.length_nil] at hfit ⊢
      omega
    rw [if_neg hlen, List.take_length]
    simp
  have hgone : fs_lookup (D ++ '/' :: (P ++ fmt_int (toInt32 (Int.ofNat i)) ++ ['_'] ++ unique))
      (rmfr_match w1 (D ++ '/' :: (P ++ fmt_int (toInt32 (Int.ofNat i)) ++ ['_']))).2.fs
      = none := by
    by_cases hex : (fs_lookup
        (D ++ '/' :: (P ++ fmt_int (toInt32 (Int.ofNat i)) ++ ['_'] ++ unique)) w1.fs).isSome
        = true
    · apply rmfr_match_removes w1 D _ (P ++ fmt_int (toInt32 (Int.ofNat i)) ++ ['_'] ++ unique)
        _ hpre hD (by simp) _ hex (strstr_of_starts_with (starts_with_append _ _))
      · rw [is_under_iff]; exact Or.inl rfl
      · intro hmem
        rcases List.mem_append.mp hmem with h1 | h1
        · exact hpre h1
        · exact hu h1
    · cases hv : fs_lookup (D ++ '/' :: (P ++ fmt_int (toInt32 (Int.ofNat i)) ++ ['_'] ++ unique))
          (rmfr_match w1 (D ++ '/' :: (P ++ fmt_int (toInt32 (Int.ofNat i)) ++ ['_']))).2.fs with
      | none => rfl
      | some v =>
        have := rmfr_match_sub w1 _ _ v hv
        rw [this] at hex
        exact absurd rfl hex
  have hnd : directory_exists (rmfr_match w1 (slot_match env (mode_paths env mode).2 i)).2
      (slot_path env (mode_paths env mode).2 i unique) = false := by
    unfold directory_exists
    rw [hmatch, hpath, hgone]
    simp
  refine ⟨hnd, ?_⟩
  unfold generate_crashlog_dir
  rw [hr]
  simp only
  rw [snd_ite_pair, create_crash_folder_history, hnd]
  simp only [Bool.false_eq_true, if_false]
  rw [(rmfr_match_frame _ _).2.2, hh]

set_option maxRecDepth 100000 in
theorem generate_crashlog_dir_never_purges_witness :
    (generate_crashlog_dir demo_env slot_world e_dir_mode_t.MODE_CRASH
      "old".toList).2.history_deleted = slot_world.history_deleted :=
  (generate_crashlog_dir_never_purges demo_env slot_world e_dir_mode_t.MODE_CRASH "old".toList
    "/logs".toList "crashlog".toList 8 (by decide) (by decide) (by decide) (by decide)
    (by decide) (by decide)).2

/-- C27: from the initial ring, with the service available, no dump running, the
watch registered and the boot complete, `start(k1)`, `start(k2)`, `start(k3)` all
return 1; after the second the slots hold `k1`, `k2`, after the third slot 0 holds
`k3` in place of `k1` (keys cut to `SHA_DIGEST_LENGTH` bytes). The next two
finalize calls deliver `k3`, then `k2`, and leave the ring empty; every later
finalize fails, delivers nothing and leaves the ring empty, so `k1` is never
delivered. -/
theorem dumpstate_ring_overwrites_oldest (e : DumpEnv) (PATHMAX : Nat) (d1 d2 d3 k1 k2 k3 : CStr)
    (havail : e.logsystemstate_available = true)
    (hrun : e.dumpstate_prop ≠ "running".toList)
    (hwatch : e.add_watch_ok = true)
    (hboot : e.boot_state = "1".toList)
    (hk2 : k2 ≠ []) (hk3 : k3 ≠ []) :
    (start_dumpstate_srv e PATHMAX
      (start_dumpstate_srv e PATHMAX
        (start_dumpstate_srv e PATHMAX DumpRing.initial (some d1) (some k1)).ring
        (some d2) (some k2)).ring
      (some d3) (some k3)).ret = 1 ∧
    (start_dumpstate_srv e PATHMAX
      (start_dumpstate_srv e PATHMAX DumpRing.initial (some d1) (some k1)).ring
      (some d2) (some k2)).ring
      = ⟨[k1.take SHA_DIGEST_LENGTH, k2.take SHA_DIGEST_LENGTH], 1, 0⟩ ∧
    (start_dumpstate_srv e PATHMAX
      (start_dumpstate_srv e PATHMAX
        (start_dumpstate_srv e PATHMAX DumpRing.initial (some d1) (some k1)).ring
        (some d2) (some k2)).ring
      (some d3) (some k3)).ring
      = ⟨[k3.take SHA_DIGEST_LENGTH, k2.take SHA_DIGEST_LENGTH], 0, 0⟩ ∧
    finalize_dropbox_pending_event e
        ⟨[k3.take SHA_DIGEST_LENGTH, k2.take SHA_DIGEST_LENGTH], 0, 0⟩
      = ⟨0, ⟨[[], k2.take SHA_DIGEST_LENGTH], 0, 1⟩,
          if e.crashreport_available then
            [DumpAction.notify_crashreport (k3.take SHA_DIGEST_LENGTH)] else []⟩ ∧
    finalize_dropbox_pending_event e ⟨[[], k2.take SHA_DIGEST_LENGTH], 0, 1⟩
      = ⟨0, ⟨[[], []], 0, 0⟩,
          if e.crashreport_available then
            [DumpAction.notify_crashreport (k2.take SHA_DIGEST_LENGTH)] else []⟩ ∧
    finalize_dropbox_pending_event e ⟨[[], []], 0, 0⟩ = ⟨-1, ⟨[[], []], 0, 0⟩, []⟩ ∧
    (∀ n : Nat, (fun r => (finalize_dropbox_pending_event e r).ring)^[n] ⟨[[], []], 0, 0⟩
      = ⟨[[], []], 0, 0⟩) := by
  have h2 : k2.take SHA_DIGEST_LENGTH ≠ [] := take_ne_nil hk2 19
  have h3 : k3.take SHA_DIGEST_LENGTH ≠ [] := take_ne_nil hk3 19
  have ht2 : (k2.take SHA_DIGEST_LENGTH).take SHA_DIGEST_LENGTH = k2.take SHA_DIGEST_LENGTH := by
    simp [List.take_take]
  have ht3 : (k3.take SHA_DIGEST_LENGTH).take SHA_DIGEST_LENGTH = k3.take SHA_DIGEST_LENGTH := by
    simp [List.take_take]
  have hs : ∀ (r : DumpRing) (d k : CStr), start_dumpstate_srv e PATHMAX r (some d) (some k)
      = ⟨1, { r with
          index_prod := (r.index_prod + 1) % DIM_gcurrent_key
          gcurrent_key := r.gcurrent_key.set ((r.index_prod + 1) % DIM_gcurrent_key)
            (k.take SHA_DIGEST_LENGTH) },
        [DumpAction.property_set "vendor.crashlogd.storage.path".toList d,
          DumpAction.start_daemon "vendor.logsystemstate".toList, DumpAction.add_watch d]⟩ := by
    intro r d k
    unfold start_dumpstate_srv
    simp only [havail, hwatch, Bool.not_true, Bool.false_eq_true, if_false, if_neg hrun]
  have hempty : finalize_dropbox_pending_event e ⟨[[], []], 0, 0⟩ = ⟨-1, ⟨[[], []], 0, 0⟩, []⟩ := by
    unfold finalize_dropbox_pending_event
    rfl
  refine ⟨?_, ?_, ?_, ?_, ?_, hempty, ?_⟩
  · simp only [hs]
  · simp only [hs]; rfl
  · simp only [hs]; rfl
  · unfold finalize_dropbox_pending_event
    simp only [List.getD_cons_zero, if_neg h3, hboot, ne_eq, not_true_eq_false, if_false, ht3]
    rfl
  · unfold finalize_dropbox_pending_event
    have : [[], List.take SHA_DIGEST_LENGTH k2].getD 1 [] = List.take SHA_DIGEST_LENGTH k2 := rfl
    simp only [this, if_neg h2, hboot, ne_eq, not_true_eq_false, if_false, ht2]
    rfl
  · intro n
    apply Function.iterate_fixed
    rw [hempty]

theorem dumpstate_ring_overwrites_oldest_witness :
    (start_dumpstate_srv demo_dump_env 512
      (start_dumpstate_srv demo_dump_env 512
        (start_dumpstate_srv demo_dump_env 512 DumpRing.initial (some "/logs/crashlog0_a".toList)
          (some "k1".toList)).ring
        (some "/logs/crashlog1_b".toList) (some "k2".toList)).ring
      (some "/logs/crashlog2_c".toList) (some "k3".toList)).ring
      = ⟨["k3".toList.take SHA_DIGEST_LENGTH, "k2".toList.take SHA_DIGEST_LENGTH], 0, 0⟩ :=
  (dumpstate_ring_overwrites_oldest demo_dump_env 512 "/logs/crashlog0_a".toList
    "/logs/crashlog1_b".toList "/logs/crashlog2_c".toList "k1".toList "k2".toList "k3".toList
    rfl (by decide) rfl rfl (by decide) (by decide)).2.2.1
/-- C30: for an array of `dim` records and a pivot with `0 ≤ pivot < dim` (so
`dim ≥ 1`), `quicksort(array, dim, pivot)` terminates (every fuel above `dim`
gives the result) with 0 and leaves the array rotated left by `pivot`: entry `i`
of the result is entry `(i + pivot) % dim` of the input. The index keys it sorts by
are a permutation of `0 .. dim-1`. In `cache_file` with `CACHE_TAIL` this puts the
last `maxrecords` lines read after the first `offset` ones into file order, in the
first entries of the buffer, with `NULL` in the entries left over. -/
theorem quicksort_rotates_left {α : Type} (fuel : Nat) (array : List α) (dim pivot : Nat)
    (hdim : array.length = dim) (hp : pivot < dim) (hfuel : dim < fuel) :
    quicksort fuel true array dim pivot = some (0, array.rotate pivot) ∧
    (array.rotate pivot).length = dim ∧
    (∀ i, i < dim → (array.rotate pivot)[i]? = array[(i + pivot) % dim]?) ∧
    (quicksort_indexes dim pivot).Perm ((List.range dim).map Int.ofNat) ∧
    (∀ (lines : List CStr) (maxrecords offset : Nat), 1 ≤ maxrecords → maxrecords < fuel →
      cache_file fuel 0 true lines 0 maxrecords (Int.ofNat offset)
        = some (Int.ofNat (min (lines.drop offset).length maxrecords),
            ((lines.drop offset).drop ((lines.drop offset).length - maxrecords)).map some
              ++ List.replicate (maxrecords - (lines.drop offset).length) none)) := by
  subst hdim
  refine ⟨quicksort_rotates_core fuel array pivot hp hfuel, List.length_rotate _ _, ?_,
    quicksort_indexes_perm _ _ (le_of_lt hp), ?_⟩
  · intro i hi
    exact List.getElem?_rotate hi
  · intro lines maxrecords offset hm hf
    exact cache_file_tail_spec fuel maxrecords offset lines hm hf

set_option maxRecDepth 100000 in
theorem quicksort_rotates_left_witness :
    quicksort 8 true ["c".toList, "d".toList, "e".toList, "a".toList, "b".toList] 5 3
      = some (0, ["a".toList, "b".toList, "c".toList, "d".toList, "e".toList]) ∧
    cache_file 8 0 true ["h".toList, "a".toList, "b".toList, "c".toList, "d".toList,
      "e".toList] 0 3 1 = some (3, [some "c".toList, some "d".toList, some "e".toList]) :=
  have h := quicksort_rotates_left 8
    ["c".toList, "d".toList, "e".toList, "a".toList, "b".toList] 5 3 rfl (by decide)
    (by decide)
  ⟨h.1, h.2.2.2.2 ["h".toList, "a".toList, "b".toList, "c".toList, "d".toList, "e".toList]
    3 1 (by decide) (by decide)⟩

end LogCapture
